import Mathlib

/-!
Verification of the `ppl` dataflow-pipeline library (src/pipeline.cpp,
src/pipeline.h) against its natural-language specification.

The C++ code is shallowly embedded as follows.

* A node (class `node` plus the user payload) becomes `NodeData S`: the
  registry bookkeeping (`connections_`, `dependencies_`) is stored as
  association lists, the captured type tokens (`get_input_types`,
  `get_output_type`) as a list of `Ty` and a `Ty`, and the user part of the
  node is an arbitrary state of type `S` together with the three virtual
  operations `poll_next`, `value` and the `connect` callback, modelled as
  pure functions on `S`.  `poll_next` may read the current `value()` of any
  other node through an environment `NodeId → Option Int` (the C++ code does
  this through the borrowed upstream pointers each node stores privately).
  Runtime values are specialised to `Int`, which covers every node type the
  repository instantiates.
* The pipeline (`std::map<node_id, node*> nodes_`, `node_id current_id`)
  becomes `Pipeline S`: an association list sorted by id (ascending-id
  iteration of `std::map` is the list order) plus the id counter.
* C++ `throw pipeline_error(k)` is modelled by returning `some k` together
  with the pipeline state at the moment of the throw, so that atomicity
  ("state unchanged on failure") is a real statement and not a tautology.
* `std::unordered_map<slot_id, const int> connections_` has unspecified
  iteration order; it is modelled as the list of entries in insertion order
  (`emplace` appends).  Iteration order over `connections_` is observable in
  `step`, and the list order represents one admissible execution.
* The recursions in `is_valid` and `step` are embedded with an explicit
  fuel argument; `nodes.length + 1` fuel is shown to be sufficient wherever
  the C++ recursion terminates (the C++ code recurses without fuel and
  diverges on graphs with reachable cycles, which `is_valid` rejects).
-/

set_option linter.unusedVariables false

namespace PPL

/-- Result of a `poll_next()` operation (enum class `poll` in pipeline.h). -/
inductive Poll
  | ready
  | empty
  | closed
deriving DecidableEq

/-- Errors that may occur in a pipeline (enum class `pipeline_error_kind`). -/
inductive PipelineErrorKind
  | invalid_node_id
  | no_such_slot
  | slot_already_used
  | connection_type_mismatch
deriving DecidableEq

/-- Opaque comparable type tokens (`std::type_index`); `Ty.void` is
`typeid(void)`, the sink marker.  Two tokens compare equal iff they denote
the same type. -/
inductive Ty
  | void
  | tok (n : Nat)
deriving DecidableEq

/-- Node ids are C++ `int`s. -/
abbrev NodeId := Int

/-- Slot indices are C++ `int`s. -/
abbrev Slot := Int

/-- One node as stored in the registry: the bookkeeping members of class
`node` (`connections_`, `dependencies_`, the type tokens) together with the
user payload: a state of type `S` and the virtual operations acting on it. -/
structure NodeData (S : Type) where
  input_types : List Ty
  output_type : Ty
  state : S
  poll_next : S → (NodeId → Option Int) → Poll × S
  value : S → Option Int
  connect : S → Option NodeId → Slot → S
  connections : List (Slot × NodeId)
  dependencies : List (NodeId × Slot)

/-- The pipeline registry: `std::map<node_id, node*> nodes_` (kept in
ascending id order) and the id counter `current_id` (initialised to 1). -/
structure Pipeline (S : Type) where
  nodes : List (NodeId × NodeData S)
  current_id : NodeId

variable {S : Type}

/-- The default-constructed pipeline. -/
def Pipeline.empty : Pipeline S := ⟨[], 1⟩

/-- Lookup in an association list with `Int` keys (`std::map::find`): the
first entry whose key equals `k`. -/
def alistFind (l : List (NodeId × α)) (k : NodeId) : Option α :=
  match l with
  | [] => none
  | e :: t => if e.1 = k then some e.2 else alistFind t k

/-- `pipeline::get_node`: borrowed handle, or absent for unknown ids. -/
def get_node (p : Pipeline S) (id : NodeId) : Option (NodeData S) :=
  alistFind p.nodes id

/-- Point update of the node stored under `id` (mutation through the owned
pointer in C++). -/
def updateNode (p : Pipeline S) (id : NodeId) (f : NodeData S → NodeData S) :
    Pipeline S :=
  { p with nodes := p.nodes.map (fun e => if e.1 = id then (e.1, f e.2) else e) }

/-- `std::map::emplace`: insert sorted by key, no effect if the key is
already present. -/
def mapEmplace (l : List (NodeId × α)) (k : NodeId) (v : α) : List (NodeId × α) :=
  match l with
  | [] => [(k, v)]
  | e :: t =>
    if k < e.1 then (k, v) :: e :: t
    else if k = e.1 then e :: t
    else e :: mapEmplace t k v

/-- `pipeline::create_node<N>(args...)`: constructs the node (fresh, with no
connections and no dependencies), emplaces it under `current_id`, and
returns `current_id++`.  Infallible. -/
def create_node (p : Pipeline S) (nd : NodeData S) : NodeId × Pipeline S :=
  (p.current_id,
    { nodes := mapEmplace p.nodes p.current_id
        { nd with connections := [], dependencies := [] },
      current_id := p.current_id + 1 })

/-- `pipeline::get_dependencies`: snapshot copy, or `invalid_node_id`. -/
def get_dependencies (p : Pipeline S) (src : NodeId) :
    Option PipelineErrorKind × List (NodeId × Slot) :=
  match get_node p src with
  | none => (some PipelineErrorKind.invalid_node_id, [])
  | some nd => (none, nd.dependencies)

/-- `pipeline::erase_node(n_id)`.  Following pipeline.cpp lines 48-67: throw
`invalid_node_id` if the id is dead; otherwise (1) for each `(slot, src)` in
the node's `connections_`, erase every `(n_id, _)` pair from
`src.dependencies_`; (2) for each `(dst, slot)` in the node's (possibly just
updated) `dependencies_`, erase key `slot` from `dst.connections_`; finally
delete the node.  Note that step (2) reads `dependencies_` live, after the
mutations of step (1). -/
def erase_node (p : Pipeline S) (n_id : NodeId) :
    Option PipelineErrorKind × Pipeline S :=
  match get_node p n_id with
  | none => (some PipelineErrorKind.invalid_node_id, p)
  | some node =>
    let p1 := node.connections.foldl
      (fun acc c => updateNode acc c.2 (fun nd =>
        { nd with dependencies := nd.dependencies.filter (fun it => !(it.1 == n_id)) }))
      p
    let deps1 := ((get_node p1 n_id).map (·.dependencies)).getD []
    let p2 := deps1.foldl
      (fun acc d => updateNode acc d.1 (fun nd =>
        { nd with connections := nd.connections.filter (fun it => !(it.1 == d.2)) }))
      p1
    (none, { p2 with nodes := p2.nodes.filter (fun e => !(e.1 == n_id)) })

/-- `pipeline::connect(src, dst, slot)`, pipeline.cpp lines 75-98.  The four
checks are performed in source order before any mutation; on success the
`connect` callback of the destination runs, the connection is emplaced and
the dependency appended. -/
def connect (p : Pipeline S) (src dst : NodeId) (slot : Slot) :
    Option PipelineErrorKind × Pipeline S :=
  match get_node p src, get_node p dst with
  | none, _ => (some PipelineErrorKind.invalid_node_id, p)
  | some _, none => (some PipelineErrorKind.invalid_node_id, p)
  | some src_node, some dst_node =>
    if (dst_node.connections.find? (fun it => it.1 == slot)).isSome then
      (some PipelineErrorKind.slot_already_used, p)
    else if slot < 0 ∨ (dst_node.input_types.length : Int) ≤ slot then
      (some PipelineErrorKind.no_such_slot, p)
    else if dst_node.input_types.getD slot.toNat Ty.void ≠ src_node.output_type then
      (some PipelineErrorKind.connection_type_mismatch, p)
    else
      let p1 := updateNode p dst (fun nd =>
        { nd with state := nd.connect nd.state (some src) slot })
      let p2 := updateNode p1 dst (fun nd =>
        { nd with connections := nd.connections ++ [(slot, src)] })
      let p3 := updateNode p2 src (fun nd =>
        { nd with dependencies := nd.dependencies ++ [(dst, slot)] })
      (none, p3)

/-- `pipeline::disconnect(src, dst)`, pipeline.cpp lines 99-117: for every
slot of `dst` currently fed by `src`, call the destination's `connect`
callback with a null source, then erase those connection entries and every
`(dst, _)` dependency entry of `src`. -/
def disconnect (p : Pipeline S) (src dst : NodeId) :
    Option PipelineErrorKind × Pipeline S :=
  match get_node p src, get_node p dst with
  | none, _ => (some PipelineErrorKind.invalid_node_id, p)
  | some _, none => (some PipelineErrorKind.invalid_node_id, p)
  | some _, some dst_node =>
    let p1 := dst_node.connections.foldl
      (fun acc c =>
        if c.2 == src then
          updateNode acc dst (fun nd => { nd with state := nd.connect nd.state none c.1 })
        else acc)
      p
    let p2 := updateNode p1 dst (fun nd =>
      { nd with connections := nd.connections.filter (fun it => !(it.2 == src)) })
    let p3 := updateNode p2 src (fun nd =>
      { nd with dependencies := nd.dependencies.filter (fun it => !(it.1 == dst)) })
    (none, p3)

/-- Move assignment `p2 = std::move(p)` for distinct objects (pipeline.cpp
lines 36-42): the target receives the node map, the source keeps its
`current_id` but is cleared.  Returns (new target, new source).  The
target's `current_id` is not assigned and keeps its previous value. -/
def move_assign (target source : Pipeline S) : Pipeline S × Pipeline S :=
  ({ nodes := source.nodes, current_id := target.current_id },
   { nodes := [], current_id := source.current_id })

/-- Move assignment when `this == &other`: the guard makes self-move a
no-op. -/
def move_assign_self (p : Pipeline S) : Pipeline S := p

/-- Move construction `pipeline p2 = std::move(p)` (pipeline.cpp lines
32-35): the constructor moves `nodes_` and clears the source, but never
initialises the new object's `current_id`, which is therefore
indeterminate; the arbitrary value `junk` models that. -/
def move_construct (source : Pipeline S) (junk : NodeId) :
    Pipeline S × Pipeline S :=
  ({ nodes := source.nodes, current_id := junk },
   { nodes := [], current_id := source.current_id })

/-!
## Tick scheduler (`step`, `run`), pipeline.cpp lines 214-251

The local `polling` lambda of `step` is embedded as `demandF` (fuel-indexed)
with its upstream loop `demandLoop`.  The per-tick state carries the
pipeline (node states mutate through the owned pointers), the memo map
`visited`, and a ghost `trace` recording each `poll_next` invocation in
order; the trace influences nothing and only instruments claim 7.
-/

/-- Per-tick evaluation state of `pipeline::step`. -/
structure TickState (S : Type) where
  p : Pipeline S
  visited : List (NodeId × Poll)
  trace : List NodeId

/-- Lookup in the per-tick memo (`visited.contains` / `visited[src]`). -/
def memoLookup (m : List (NodeId × Poll)) (id : NodeId) : Option Poll :=
  alistFind m id

/-- The upstream loop of `polling` (pipeline.cpp lines 221-231): demand each
upstream in iteration order; the first result that is `empty` or `closed`
short-circuits the loop; `none` means every upstream returned `ready`. -/
def demandLoop (dm : NodeId → TickState S → Poll × TickState S) :
    List (Slot × NodeId) → TickState S → Option Poll × TickState S
  | [], σ => (none, σ)
  | c :: rest, σ =>
    let r := dm c.2 σ
    if r.1 = Poll.empty then (some Poll.empty, r.2)
    else if r.1 = Poll.closed then (some Poll.closed, r.2)
    else demandLoop dm rest r.2

/-- The `polling` lambda of `pipeline::step` (pipeline.cpp lines 215-234),
with fuel making the recursion total.  Memoised results are returned
directly; otherwise the upstream loop runs and either short-circuits
(memoising `empty`/`closed` for this node without polling it) or, with all
upstreams ready, the node's own `poll_next` runs exactly once and is
memoised.  The fuel-0 and dead-id branches are unreachable in the runs the
C++ code performs (shown under the acyclicity certificate below). -/
def demandF : Nat → NodeId → TickState S → Poll × TickState S
  | 0 => fun _ σ => (Poll.empty, σ)
  | fuel+1 => fun src σ =>
    match memoLookup σ.visited src with
    | some r => (r, σ)
    | none =>
      match get_node σ.p src with
      | none => (Poll.empty, σ)
      | some nd =>
        match demandLoop (demandF fuel) nd.connections σ with
        | (some r, σ1) => (r, { σ1 with visited := (src, r) :: σ1.visited })
        | (none, σ1) =>
          match get_node σ1.p src with
          | none => (Poll.empty, σ1)
          | some nd1 =>
            let env := fun id => (get_node σ1.p id).bind (fun n => n.value n.state)
            let pr := nd1.poll_next nd1.state env
            (pr.1,
              { p := updateNode σ1.p src (fun n => { n with state := pr.2 }),
                visited := (src, pr.1) :: σ1.visited,
                trace := σ1.trace ++ [src] })

/-- The fuel `step` hands to `polling`; sufficient whenever the graph the
C++ recursion walks is acyclic. -/
def stepFuel (p : Pipeline S) : Nat := p.nodes.length + 1

/-- `pipeline::step` with the full tick state exposed: iterate the registry
in ascending id order, demand every sink, and conjoin "observed closed". -/
def stepFull (p : Pipeline S) : Bool × TickState S :=
  p.nodes.foldl
    (fun acc e =>
      if e.2.output_type = Ty.void then
        let r := demandF (stepFuel p) e.1 acc.2
        (acc.1 && (r.1 == Poll.closed), r.2)
      else acc)
    (true, ⟨p, [], []⟩)

/-- `pipeline::step`: one tick; `true` iff every sink observed `closed`. -/
def step (p : Pipeline S) : Bool × Pipeline S :=
  let r := stepFull p
  (r.1, r.2.p)

/-- `pipeline::run`: `while (!step()) {}`, totalised with fuel: `none`
means the loop was still running after `fuel` calls to `step`. -/
def runFuel : Nat → Pipeline S → Option (Pipeline S)
  | 0, _ => none
  | f+1, p =>
    let r := step p
    if r.1 then some r.2 else runFuel f r.2

/-- Iterated `step`, for stating which pipeline the k-th tick starts from. -/
def stepN (p : Pipeline S) : Nat → Pipeline S
  | 0 => p
  | k+1 => (step (stepN p k)).2

/-!
## Validator (`is_valid`), pipeline.cpp lines 125-213
-/

/-- The first loop of `is_valid` (lines 128-141): per node, fail if the
filled-slot count differs from the arity or a non-sink has no dependents;
accumulate the has-sink / has-source flags.  `none` models an early
`return false`. -/
def validScan : List (NodeId × NodeData S) → Bool → Bool → Option (Bool × Bool)
  | [], has_sink, has_source => some (has_sink, has_source)
  | e :: rest, has_sink, has_source =>
    if e.2.connections.length ≠ e.2.input_types.length then none
    else if e.2.output_type ≠ Ty.void ∧ e.2.dependencies.isEmpty then none
    else validScan rest (has_sink || (e.2.output_type == Ty.void))
      (has_source || e.2.input_types.isEmpty)

/-- Colour lookup in the three-colour map of the `has_cycle` lambda
(`visited[src]`: 0 unseen, 1 on stack, 2 done). -/
def colorOf (vis : List (NodeId × Nat)) (id : NodeId) : Nat :=
  (alistFind vis id).getD 0

/-- Colour assignment `visited[src] = c`. -/
def setColor (vis : List (NodeId × Nat)) (id : NodeId) (c : Nat) :
    List (NodeId × Nat) :=
  (id, c) :: vis.filter (fun e => !(e.1 == id))

/-- The `has_cycle` lambda (lines 146-168): three-colour DFS along
`connections`.  Returns the cycle flag and the updated colouring.  The
dead-id branch is the C++ null dereference, unreachable on well-formed
pipelines; fuel 0 likewise never fires when started with
`nodes.length + 1` fuel. -/
def hasCycleDfs (p : Pipeline S) : Nat → NodeId → List (NodeId × Nat) →
    Bool × List (NodeId × Nat)
  | 0 => fun _ vis => (false, vis)
  | fuel+1 => fun src vis =>
    if colorOf vis src = 1 then (true, vis)
    else if colorOf vis src = 2 then (false, vis)
    else
      let vis1 := setColor vis src 1
      match get_node p src with
      | none => (false, setColor vis1 src 2)
      | some nd =>
        let r := nd.connections.foldl
          (fun (acc : Bool × List (NodeId × Nat)) c =>
            if acc.1 then acc else hasCycleDfs p fuel c.2 acc.2)
          (false, vis1)
        if r.1 then r else (false, setColor r.2 src 2)

/-- The `dfs_all` lambda (lines 183-197): traversal treating the graph as
undirected by walking both `connections` and `dependencies` entries;
returns the visited set (every entry of the C++ `visited_all` map ends up
with value 1, so the map is exactly a set). -/
def dfsAll (p : Pipeline S) : Nat → NodeId → List NodeId → List NodeId
  | 0 => fun _ vis => vis
  | fuel+1 => fun src vis =>
    if src ∈ vis then vis
    else
      let vis1 := src :: vis
      match get_node p src with
      | none => vis1
      | some nd =>
        let vis2 := nd.connections.foldl (fun v c => dfsAll p fuel c.2 v) vis1
        nd.dependencies.foldl (fun v d => dfsAll p fuel d.1 v) vis2

/-- `pipeline::is_valid` (lines 125-213): the per-node scan with the
sink/source flags, then the cycle DFS started from every sink (shared
colouring, early false), then one `dfs_all` traversal from the first node
of the registry compared against the node count. -/
def is_valid (p : Pipeline S) : Bool :=
  match validScan p.nodes false false with
  | none => false
  | some (has_sink, has_source) =>
    if !has_sink || !has_source then false
    else
      let cyc := p.nodes.foldl
        (fun (acc : Bool × List (NodeId × Nat)) e =>
          if acc.1 then acc
          else if e.2.output_type == Ty.void then hasCycleDfs p (stepFuel p) e.1 acc.2
          else acc)
        (false, [])
      if cyc.1 then false
      else
        match p.nodes with
        | [] => true
        | e :: _ =>
          let visAll := dfsAll p (stepFuel p) e.1 []
          visAll.length == p.nodes.length

/-!
## Structural predicates

The registry invariants the spec demands outside editing operations (§3),
phrased decidably over the embedded state.  `Wf` is exactly what holds of
every pipeline reachable through the public API and is the hypothesis of
the general theorems; the editing-operation theorems prove it preserved.
-/

/-- Connection list of a node id (empty for dead ids). -/
def connsOf (p : Pipeline S) (a : NodeId) : List (Slot × NodeId) :=
  ((get_node p a).map (·.connections)).getD []

/-- Dependency list of a node id (empty for dead ids). -/
def depsOf (p : Pipeline S) (a : NodeId) : List (NodeId × Slot) :=
  ((get_node p a).map (·.dependencies)).getD []

/-- Output type token of a node id. -/
def outTyOf (p : Pipeline S) (a : NodeId) : Option Ty :=
  (get_node p a).map (·.output_type)

/-- A node id is live. -/
def liveId (p : Pipeline S) (id : NodeId) : Prop :=
  (get_node p id).isSome = true

/-- A live node whose output type is `void` (a sink). -/
def IsSinkId (p : Pipeline S) (id : NodeId) : Prop :=
  outTyOf p id = some Ty.void

/-- Demand edge: `a` refers to `b` through one of its filled slots (the
direction `polling` and `has_cycle` recurse in, sink → source). -/
def EdgeTo (p : Pipeline S) (a b : NodeId) : Prop :=
  b ∈ (connsOf p a).map Prod.snd

/-- Reachability along demand edges. -/
def Reaches (p : Pipeline S) : NodeId → NodeId → Prop :=
  Relation.ReflTransGen (EdgeTo p)

/-- A directed cycle through `v`. -/
def CycleAt (p : Pipeline S) (v : NodeId) : Prop :=
  Relation.TransGen (EdgeTo p) v v

/-- Undirected (symmetrised) edge, for weak connectivity. -/
def UEdge (p : Pipeline S) (a b : NodeId) : Prop :=
  EdgeTo p a b ∨ EdgeTo p b a

/-- Well-formedness: ascending ids; ids below the counter; per-node slot
keys distinct; every referenced id live; and the mirror invariant in both
directions (each filled slot `(s, u)` of node `n` is matched by exactly one
`(n, s)` in `u.dependencies`, and each dependency entry points back to the
matching filled slot). -/
def Wf (p : Pipeline S) : Prop :=
  List.Pairwise (fun a b => a < b) (p.nodes.map Prod.fst) ∧
  (∀ e ∈ p.nodes, e.1 < p.current_id) ∧
  (∀ e ∈ p.nodes, (e.2.connections.map Prod.fst).Nodup) ∧
  (∀ e ∈ p.nodes, ∀ c ∈ e.2.connections,
    ((get_node p c.2).map (fun u => u.dependencies.count (e.1, c.1))) = some 1) ∧
  (∀ e ∈ p.nodes, ∀ d ∈ e.2.dependencies,
    ((get_node p d.1).map (fun nd => decide ((d.2, e.1) ∈ nd.connections))) = some true)

/-- The connection skeleton of a pipeline: ids with their connection lists.
The scheduler mutates only node states, so the skeleton is invariant during
a tick and carries everything the demand recursion inspects. -/
def strip (p : Pipeline S) : List (NodeId × List (Slot × NodeId)) :=
  p.nodes.map (fun e => (e.1, e.2.connections))

/-- The part of `Wf` the scheduler theorems need: distinct ids and live
connection targets (phrased over the skeleton). -/
def DemandWf (p : Pipeline S) : Prop :=
  ((strip p).map Prod.fst).Nodup ∧
  (∀ e ∈ strip p, ∀ c ∈ e.2, c.2 ∈ (strip p).map Prod.fst)

/-- A topological certificate: every demand edge strictly decreases `rank`.
Such a certificate exists exactly when the demand graph is acyclic, which
the C++ recursion of `step` requires to terminate. -/
def RankOk (p : Pipeline S) (rank : NodeId → Nat) : Prop :=
  ∀ e ∈ strip p, ∀ c ∈ e.2, rank c.2 < rank e.1

/-- Rank bound making `stepFuel` sufficient. -/
def RankBounded (p : Pipeline S) (rank : NodeId → Nat) : Prop :=
  ∀ e ∈ strip p, rank e.1 ≤ (strip p).length

/-!
## Concrete nodes from pipeline.test.cpp

These instantiate `S` with a small inductive covering the states of the
test components: `flex_source`, `test_component`, `stream_sink`, a
one-input relay component, and constant-result sources used to probe the
short-circuit rules.
-/

/-- States of the concrete test nodes. -/
inductive TState
  | src (current bound : Int)
  | comp (current : Int) (slot0 slot1 : Option NodeId)
  | sink (stream : List Int) (slot0 : Option NodeId)
  | srcConst (r : Poll)
deriving DecidableEq

/-- The `int` type token. -/
def intTy : Ty := Ty.tok 0

/-- `flex_source` (pipeline.test.cpp lines 79-99): produces 1, 2, ... up to
`bound`, then `closed` forever. -/
def flexSource (bound : Int) : NodeData TState where
  input_types := []
  output_type := intTy
  state := TState.src 0 bound
  poll_next := fun st _ =>
    match st with
    | TState.src current b =>
      if b ≤ current then (Poll.closed, st)
      else (Poll.ready, TState.src (current + 1) b)
    | _ => (Poll.closed, st)
  value := fun st => match st with | TState.src c _ => some c | _ => none
  connect := fun st _ _ => st
  connections := []
  dependencies := []

/-- Source that answers every poll with the fixed result `r` (the shape of
`skip_source`'s `empty` answers and of an exhausted source). -/
def constSource (r : Poll) : NodeData TState where
  input_types := []
  output_type := intTy
  state := TState.srcConst r
  poll_next := fun st _ => match st with | TState.srcConst r0 => (r0, st) | _ => (Poll.closed, st)
  value := fun _ => some 0
  connect := fun st _ _ => st
  connections := []
  dependencies := []

/-- `test_component` (pipeline.test.cpp lines 49-77): stores upstream
handles for slots 0 and 1 via its `connect` callback and outputs their
sum. -/
def testComponent : NodeData TState where
  input_types := [intTy, intTy]
  output_type := intTy
  state := TState.comp 0 none none
  poll_next := fun st env =>
    match st with
    | TState.comp _ s0 s1 =>
      (Poll.ready, TState.comp ((s0.bind env).getD 0 + (s1.bind env).getD 0) s0 s1)
    | _ => (Poll.ready, st)
  value := fun st => match st with | TState.comp c _ _ => some c | _ => none
  connect := fun st src slot =>
    match st with
    | TState.comp c s0 s1 =>
      if slot = 0 then TState.comp c src s1
      else if slot = 1 then TState.comp c s0 src
      else st
    | _ => st
  connections := []
  dependencies := []

/-- One-input component forwarding its input (same shape as
`test_component` but with arity 1), used to build a two-component cycle. -/
def relayComponent : NodeData TState where
  input_types := [intTy]
  output_type := intTy
  state := TState.comp 0 none none
  poll_next := fun st env =>
    match st with
    | TState.comp _ s0 s1 => (Poll.ready, TState.comp ((s0.bind env).getD 0) s0 s1)
    | _ => (Poll.ready, st)
  value := fun st => match st with | TState.comp c _ _ => some c | _ => none
  connect := fun st src slot =>
    match st with
    | TState.comp c s0 s1 => if slot = 0 then TState.comp c src s1 else st
    | _ => st
  connections := []
  dependencies := []

/-- `stream_sink` (pipeline.test.cpp lines 101-121): appends each observed
value to its stream. -/
def streamSink : NodeData TState where
  input_types := [intTy]
  output_type := Ty.void
  state := TState.sink [] none
  poll_next := fun st env =>
    match st with
    | TState.sink stream s0 => (Poll.ready, TState.sink (stream ++ [(s0.bind env).getD 0]) s0)
    | _ => (Poll.ready, st)
  value := fun _ => none
  connect := fun st src slot =>
    match st with
    | TState.sink stream s0 => if slot = 0 then TState.sink stream src else st
    | _ => st
  connections := []
  dependencies := []

/-- Discard the error component of an editing call (used to build concrete
pipelines; every call below in fact succeeds). -/
def connectOk (p : Pipeline S) (src dst : NodeId) (slot : Slot) : Pipeline S :=
  (connect p src dst slot).2

/-- Scenario S1 (test case 20): flex sources of bounds 5 (id 1) and 10
(id 2), `test_component` (id 3), stream sink A (id 4) fed by the component,
stream sink B (id 5) fed by source 2. -/
def s1Pipeline : Pipeline TState :=
  let r1 := create_node Pipeline.empty (flexSource 5)
  let r2 := create_node r1.2 (flexSource 10)
  let r3 := create_node r2.2 testComponent
  let r4 := create_node r3.2 streamSink
  let r5 := create_node r4.2 streamSink
  connectOk (connectOk (connectOk (connectOk r5.2 1 3 0) 2 3 1) 3 4 0) 2 5 0

/-- Stream accumulated by a `streamSink` node. -/
def streamOf (p : Pipeline TState) (id : NodeId) : List Int :=
  match get_node p id with
  | some nd => match nd.state with | TState.sink stream _ => stream | _ => []
  | none => []

/-- Space-separated rendering a `stream_sink` writes to its
`stringstream`: each value followed by one space. -/
def streamRender (l : List Int) : String :=
  String.join (l.map (fun i => toString i ++ " "))

/-- Counterexample pipeline for claim 1: an always-`empty` source (id 1),
an always-`closed` source (id 2), the sum component (id 3) with connection
list [(0,1), (1,2)], a sink on the closed source (id 4, demanded first),
and a sink on the component (id 5). -/
def cex1Pipeline : Pipeline TState :=
  let r1 := create_node Pipeline.empty (constSource Poll.empty)
  let r2 := create_node r1.2 (constSource Poll.closed)
  let r3 := create_node r2.2 testComponent
  let r4 := create_node r3.2 streamSink
  let r5 := create_node r4.2 streamSink
  connectOk (connectOk (connectOk (connectOk r5.2 1 3 0) 2 3 1) 2 4 0) 3 5 0

/-- The same wiring as `cex1Pipeline` but with the component's two slots
connected in the opposite order, so its connection list is [(1,2), (0,1)]. -/
def cex1bPipeline : Pipeline TState :=
  let r1 := create_node Pipeline.empty (constSource Poll.empty)
  let r2 := create_node r1.2 (constSource Poll.closed)
  let r3 := create_node r2.2 testComponent
  let r4 := create_node r3.2 streamSink
  let r5 := create_node r4.2 streamSink
  connectOk (connectOk (connectOk (connectOk r5.2 2 3 1) 1 3 0) 2 4 0) 3 5 0

/-- Counterexample pipeline for claim 2: source (id 1) feeding sink (id 2)
and slot 0 of component (id 3); components 3 and 4 form a directed cycle
(3's slot 1 is fed by 4, 4's slot 0 by 3) that no sink can reach. -/
def cex2Pipeline : Pipeline TState :=
  let r1 := create_node Pipeline.empty (constSource Poll.ready)
  let r2 := create_node r1.2 streamSink
  let r3 := create_node r2.2 testComponent
  let r4 := create_node r3.2 relayComponent
  connectOk (connectOk (connectOk (connectOk r4.2 1 2 0) 1 3 0) 3 4 0) 4 3 1

/-!
## Decidability of the structural predicates

Everything quantifies over concrete lists, so the hypotheses of the general
theorems can be checked by `decide` on concrete pipelines.
-/

instance (p : Pipeline S) : Decidable (Wf p) :=
  decidable_of_iff (List.Pairwise (fun a b => a < b) (p.nodes.map Prod.fst) ∧
    (∀ e ∈ p.nodes, e.1 < p.current_id) ∧
    (∀ e ∈ p.nodes, (e.2.connections.map Prod.fst).Nodup) ∧
    (∀ e ∈ p.nodes, ∀ c ∈ e.2.connections,
      ((get_node p c.2).map (fun u => u.dependencies.count (e.1, c.1))) = some 1) ∧
    (∀ e ∈ p.nodes, ∀ d ∈ e.2.dependencies,
      ((get_node p d.1).map (fun nd => decide ((d.2, e.1) ∈ nd.connections))) = some true))
    Iff.rfl

instance (p : Pipeline S) : Decidable (DemandWf p) := by
  unfold DemandWf; infer_instance

instance (p : Pipeline S) (rank : NodeId → Nat) : Decidable (RankOk p rank) := by
  unfold RankOk; infer_instance

instance (p : Pipeline S) (rank : NodeId → Nat) : Decidable (RankBounded p rank) := by
  unfold RankBounded; infer_instance

instance (p : Pipeline S) (id : NodeId) : Decidable (liveId p id) := by
  unfold liveId; infer_instance

instance (p : Pipeline S) (id : NodeId) : Decidable (IsSinkId p id) := by
  unfold IsSinkId outTyOf; infer_instance

instance (p : Pipeline S) (a b : NodeId) : Decidable (EdgeTo p a b) := by
  unfold EdgeTo; infer_instance

/-!
## Remaining definitions used by the theorems
-/

/-- User-payload state of a node id. -/
def stateOf (p : Pipeline S) (id : NodeId) : Option S :=
  (get_node p id).map (·.state)

/-- Input type list of a node id (empty for dead ids). -/
def inputTypesOf (p : Pipeline S) (id : NodeId) : List Ty :=
  ((get_node p id).map (·.input_types)).getD []

/-- Output type token of a node id (`Ty.void` default is never relied on:
all uses guard liveness first). -/
def outputTypeOf (p : Pipeline S) (id : NodeId) : Ty :=
  ((get_node p id).map (·.output_type)).getD Ty.void

/-- Invariant of the ghost trace: no duplicates, and every traced node is
memoised. -/
def TraceInv (σ : TickState S) : Prop :=
  σ.trace.Nodup ∧ ∀ x ∈ σ.trace, x ∈ σ.visited.map Prod.fst

/-- Postcondition of one `demand` frame for node `src` under certificate
`rank`: the skeleton is unchanged; the memo grew by fresh entries of rank
at most `rank src` (with `src` now memoised to the returned poll); the
trace grew by nodes of rank at most `rank src`; and the trace invariant is
maintained. -/
def DemandPost (rank : NodeId → Nat) (src : NodeId) (σ : TickState S)
    (res : Poll × TickState S) : Prop :=
  strip res.2.p = strip σ.p ∧
  (∃ Δ, res.2.visited = Δ ++ σ.visited ∧
    ∀ k ∈ Δ.map Prod.fst, rank k ≤ rank src ∧ k ∉ σ.visited.map Prod.fst) ∧
  memoLookup res.2.visited src = some res.1 ∧
  (∃ t, res.2.trace = σ.trace ++ t ∧ ∀ x ∈ t, rank x ≤ rank src) ∧
  TraceInv res.2

/-- Postcondition of the upstream loop over `conns` (all of rank below
`R`): growth as in `DemandPost`; on `none` every upstream demanded
`ready`; on `some r` the result `r` is `empty` or `closed` and is the
demand result of the first non-`ready` upstream in iteration order, every
earlier upstream having demanded `ready`. -/
def LoopPost (rank : NodeId → Nat) (R : Nat) (conns : List (Slot × NodeId))
    (σ : TickState S) (res : Option Poll × TickState S) : Prop :=
  strip res.2.p = strip σ.p ∧
  (∃ Δ, res.2.visited = Δ ++ σ.visited ∧
    ∀ k ∈ Δ.map Prod.fst, rank k < R ∧ k ∉ σ.visited.map Prod.fst) ∧
  (∃ t, res.2.trace = σ.trace ++ t ∧ ∀ x ∈ t, rank x < R) ∧
  TraceInv res.2 ∧
  (res.1 = none → ∀ c ∈ conns, memoLookup res.2.visited c.2 = some Poll.ready) ∧
  (∀ r, res.1 = some r → (r = Poll.empty ∨ r = Poll.closed) ∧
    ∃ pre c post, conns = pre ++ c :: post ∧
      memoLookup res.2.visited c.2 = some r ∧
      ∀ c' ∈ pre, memoLookup res.2.visited c'.2 = some Poll.ready)

/-- Nodes of the registry still unseen by the three-colour map. -/
def unmarkedCount (p : Pipeline S) (vis : List (NodeId × Nat)) : Nat :=
  (p.nodes.filter (fun e => colorOf vis e.1 == 0)).length

/-- Nodes of the registry not yet visited by `dfs_all`. -/
def unvisitedCount (p : Pipeline S) (vis : List NodeId) : Nat :=
  (p.nodes.filter (fun e => decide (e.1 ∉ vis))).length

/-- Nodes of the registry currently on the DFS stack (grey). -/
def grayCount (p : Pipeline S) (vis : List (NodeId × Nat)) : Nat :=
  (p.nodes.filter (fun e => colorOf vis e.1 == 1)).length

/-- Nodes of the registry already visited by `dfs_all`. -/
def visCount (p : Pipeline S) (vis : List NodeId) : Nat :=
  (p.nodes.filter (fun e => decide (e.1 ∈ vis))).length

/-- Black (completed) nodes are closed under demand edges. -/
def BlackClosed (p : Pipeline S) (vis : List (NodeId × Nat)) : Prop :=
  ∀ b u, colorOf vis b = 2 → EdgeTo p b u → colorOf vis u = 2

/-- No black (completed) node lies on a directed cycle. -/
def BlackAcyclic (p : Pipeline S) (vis : List (NodeId × Nat)) : Prop :=
  ∀ b, colorOf vis b = 2 → ¬ CycleAt p b

/-- What the sink-started cycle scan actually certifies: no directed cycle
is reachable from any sink along demand edges. -/
def SinkCycleFree (p : Pipeline S) : Prop :=
  ∀ s v, IsSinkId p s → Reaches p s v → ¬ CycleAt p v

/-- Weak connectivity as the spec means it: every pair of registered nodes
is joined by an undirected path. -/
def AllConnected (p : Pipeline S) : Prop :=
  ∀ a ∈ p.nodes.map Prod.fst, ∀ b ∈ p.nodes.map Prod.fst,
    Relation.ReflTransGen (UEdge p) a b

/-- Neighbour list `dfs_all` walks from a node: connection targets and
dependency targets, as stored. -/
def rawNeighbors (p : Pipeline S) (a : NodeId) : List NodeId :=
  (connsOf p a).map Prod.snd ++ (depsOf p a).map Prod.fst

/-- Edges as `dfs_all` walks them. -/
def RawUEdge (p : Pipeline S) (a b : NodeId) : Prop :=
  b ∈ rawNeighbors p a

/-- Referenced ids are live (consequence of `Wf`, and all the cycle /
connectivity traversals need). -/
def RefsLive (p : Pipeline S) : Prop :=
  ∀ e ∈ p.nodes, (∀ c ∈ e.2.connections, liveId p c.2) ∧
    (∀ d ∈ e.2.dependencies, liveId p d.1)

/-- The editing operations of claim 6, as one syntax. -/
inductive EditOp (S : Type)
  | create (nd : NodeData S)
  | connectOp (src dst : NodeId) (slot : Slot)
  | disconnectOp (src dst : NodeId)
  | erase (id : NodeId)

/-- Apply an editing operation. -/
def applyOp : EditOp S → Pipeline S → Option PipelineErrorKind × Pipeline S
  | EditOp.create nd, p => (none, (create_node p nd).2)
  | EditOp.connectOp a b s, p => connect p a b s
  | EditOp.disconnectOp a b, p => disconnect p a b
  | EditOp.erase id, p => erase_node p id

/-- The mirror invariant as the spec states it: every filled slot
`(slot → up)` of a node `n` is matched by exactly one `(n, slot)` entry in
the dependencies of the live node `up`, and every dependency entry points
back to the matching filled slot of a live node. -/
def MirrorProp (p : Pipeline S) : Prop :=
  (∀ e ∈ p.nodes, ∀ c ∈ e.2.connections,
    ∃ u, get_node p c.2 = some u ∧ u.dependencies.count (e.1, c.1) = 1) ∧
  (∀ e ∈ p.nodes, ∀ d ∈ e.2.dependencies,
    ∃ nd, get_node p d.1 = some nd ∧ (d.2, e.1) ∈ nd.connections)

/-- A topological certificate for `s1Pipeline` (sources at rank 0, the
component above them, the sinks on top). -/
def s1Rank : NodeId → Nat :=
  fun id => if id ≤ 2 then 0 else if id = 3 then 1 else 2

/-!
## Explicit per-tick states of scenario S1

The wiring of `s1Pipeline` is fixed once built; only the node states evolve
under `step`.  `s1At a b c sa sb` is the S1 registry with source counters
`a` and `b`, component accumulator `c` and sink streams `sa`, `sb`, so each
tick of the run becomes a closed single-step evaluation.
-/

/-- Node 1 of S1 (`flex_source` bound 5) at counter `a`. -/
def s1n1 (a : Int) : NodeData TState :=
  { flexSource 5 with state := TState.src a 5, dependencies := [(3, 0)] }

/-- Node 2 of S1 (`flex_source` bound 10) at counter `b`. -/
def s1n2 (b : Int) : NodeData TState :=
  { flexSource 10 with state := TState.src b 10, dependencies := [(3, 1), (5, 0)] }

/-- Node 3 of S1 (`test_component`) holding sum `c`. -/
def s1n3 (c : Int) : NodeData TState :=
  { testComponent with state := TState.comp c (some 1) (some 2), connections := [(0, 1), (1, 2)], dependencies := [(4, 0)] }

/-- Node 4 of S1 (sink A) with stream `sa`. -/
def s1n4 (sa : List Int) : NodeData TState :=
  { streamSink with state := TState.sink sa (some 3), connections := [(0, 3)] }

/-- Node 5 of S1 (sink B) with stream `sb`. -/
def s1n5 (sb : List Int) : NodeData TState :=
  { streamSink with state := TState.sink sb (some 2), connections := [(0, 2)] }

/-- The S1 registry at a given state. -/
def s1At (a b c : Int) (sa sb : List Int) : Pipeline TState :=
  { nodes := [(1, s1n1 a), (2, s1n2 b), (3, s1n3 c), (4, s1n4 sa), (5, s1n5 sb)],
    current_id := 6 }

/-!
## Association-list basics
-/

theorem alistFind_isSome {l : List (NodeId × α)} {k : NodeId} :
    (alistFind l k).isSome = true ↔ k ∈ l.map Prod.fst := by
  induction l with
  | nil => simp [alistFind]
  | cons e t ih =>
    by_cases h : e.1 = k
    · simp [alistFind, h]
    · simp only [alistFind, if_neg h, List.map_cons, List.mem_cons]
      rw [ih]
      constructor
      · exact Or.inr
      · rintro (hk | hk)
        · exact absurd hk.symm h
        · exact hk

theorem alistFind_eq_none {l : List (NodeId × α)} {k : NodeId} :
    alistFind l k = none ↔ k ∉ l.map Prod.fst := by
  rw [← alistFind_isSome, Option.not_isSome_iff_eq_none]

theorem alistFind_mem {l : List (NodeId × α)} {k : NodeId} {v : α}
    (h : alistFind l k = some v) : (k, v) ∈ l := by
  induction l with
  | nil => simp [alistFind] at h
  | cons e t ih =>
    by_cases he : e.1 = k
    · rw [alistFind, if_pos he] at h
      rcases e with ⟨a, b⟩
      cases he
      cases h
      exact List.mem_cons_self _ _
    · rw [alistFind, if_neg he] at h
      exact List.mem_cons_of_mem _ (ih h)

theorem alistFind_of_mem {l : List (NodeId × α)} {k : NodeId} {v : α}
    (hnd : (l.map Prod.fst).Nodup) (h : (k, v) ∈ l) : alistFind l k = some v := by
  induction l with
  | nil => simp at h
  | cons e t ih =>
    simp only [List.map_cons, List.nodup_cons] at hnd
    rcases List.mem_cons.1 h with he | ht
    · subst he
      simp [alistFind]
    · have hk : e.1 ≠ k := by
        intro hek
        exact hnd.1 (hek ▸ (List.mem_map.2 ⟨_, ht, rfl⟩))
      rw [alistFind, if_neg hk]
      exact ih hnd.2 ht

theorem alistFind_cons_self {t : List (NodeId × α)} {k : NodeId} {v : α} :
    alistFind ((k, v) :: t) k = some v := by
  simp [alistFind]

theorem alistFind_cons_ne {t : List (NodeId × α)} {k j : NodeId} {v : α}
    (h : k ≠ j) : alistFind ((k, v) :: t) j = alistFind t j := by
  simp [alistFind, h]

theorem alistFind_append {l m : List (NodeId × α)} {k : NodeId} :
    alistFind (l ++ m) k =
      ((alistFind l k).rec (alistFind m k) (fun v => some v) : Option α) := by
  induction l with
  | nil => simp [alistFind]
  | cons e t ih =>
    by_cases h : e.1 = k
    · simp [alistFind, h]
    · simpa [alistFind, h] using ih

theorem alistFind_append_left {l m : List (NodeId × α)} {k : NodeId} {v : α}
    (h : alistFind l k = some v) : alistFind (l ++ m) k = some v := by
  rw [alistFind_append, h]

theorem alistFind_append_right {l m : List (NodeId × α)} {k : NodeId}
    (h : k ∉ l.map Prod.fst) : alistFind (l ++ m) k = alistFind m k := by
  rw [alistFind_append, alistFind_eq_none.2 h]

theorem get_node_mem {p : Pipeline S} {id : NodeId} {nd : NodeData S}
    (h : get_node p id = some nd) : (id, nd) ∈ p.nodes :=
  alistFind_mem h

theorem get_node_of_mem {p : Pipeline S} {id : NodeId} {nd : NodeData S}
    (hnd : (p.nodes.map Prod.fst).Nodup) (h : (id, nd) ∈ p.nodes) :
    get_node p id = some nd :=
  alistFind_of_mem hnd h

theorem get_node_isSome_iff {p : Pipeline S} {id : NodeId} :
    (get_node p id).isSome = true ↔ id ∈ p.nodes.map Prod.fst :=
  alistFind_isSome

theorem alistFind_map_update (t : List (NodeId × NodeData S)) (i j : NodeId)
    (f : NodeData S → NodeData S) :
    alistFind (t.map (fun e => if e.1 = i then (e.1, f e.2) else e)) j =
      if j = i then (alistFind t i).map f else alistFind t j := by
  induction t with
  | nil => by_cases h : j = i <;> simp [alistFind, h]
  | cons e t ih =>
    by_cases hei : e.1 = i
    · by_cases hji : j = i
      · subst hji
        simp [alistFind, hei]
      · have hej : ¬ e.1 = j := by rw [hei]; exact fun h => hji h.symm
        have hij : ¬ i = j := fun h => hji h.symm
        simpa [alistFind, hei, hej, hij, hji] using ih
    · by_cases hje : e.1 = j
      · have hji : ¬ j = i := fun h => hei (by rw [hje, h])
        simp [alistFind, hei, hje, hji]
      · simpa [alistFind, hei, hje] using ih

theorem get_node_updateNode (p : Pipeline S) (i : NodeId)
    (f : NodeData S → NodeData S) (j : NodeId) :
    get_node (updateNode p i f) j =
      if j = i then (get_node p i).map f else get_node p j :=
  alistFind_map_update p.nodes i j f

theorem updateNode_keys (p : Pipeline S) (i : NodeId)
    (f : NodeData S → NodeData S) :
    (updateNode p i f).nodes.map Prod.fst = p.nodes.map Prod.fst := by
  unfold updateNode
  induction p.nodes with
  | nil => simp
  | cons e t ih =>
    by_cases h : e.1 = i <;> simp [h] at * <;> simpa using ih

theorem updateNode_current_id (p : Pipeline S) (i : NodeId)
    (f : NodeData S → NodeData S) :
    (updateNode p i f).current_id = p.current_id := rfl

theorem find_slot_isSome_iff (conns : List (Slot × NodeId)) (slot : Slot) :
    (conns.find? (fun it => it.1 == slot)).isSome = true ↔
      slot ∈ conns.map Prod.fst := by
  rw [List.find?_isSome]
  constructor
  · rintro ⟨⟨s, u⟩, hm, hb⟩
    have : s = slot := by simpa using hb
    subst this
    exact List.mem_map.2 ⟨(s, u), hm, rfl⟩
  · intro hm
    rcases List.mem_map.1 hm with ⟨x, hx, hfst⟩
    exact ⟨x, hx, by simp [hfst]⟩

/-- A `connect` call that throws does so before any mutation. -/
theorem connect_err_snd {p : Pipeline S} {src dst : NodeId} {slot : Slot}
    {e : PipelineErrorKind} {q : Pipeline S}
    (h : connect p src dst slot = (some e, q)) : q = p := by
  unfold connect at h
  cases hs : get_node p src with
  | none =>
    rw [hs] at h
    exact (congrArg Prod.snd h).symm
  | some srcN =>
    cases hd : get_node p dst with
    | none =>
      rw [hs, hd] at h
      exact (congrArg Prod.snd h).symm
    | some dstN =>
      rw [hs, hd] at h
      simp only at h
      split_ifs at h with h1 h2 h3
      · exact (congrArg Prod.snd h).symm
      · exact (congrArg Prod.snd h).symm
      · exact (congrArg Prod.snd h).symm
      · exact absurd (congrArg Prod.fst h) (by simp)

/-- An `erase_node` call that throws does so before any mutation. -/
theorem erase_err_snd {p : Pipeline S} {id : NodeId}
    {e : PipelineErrorKind} {q : Pipeline S}
    (h : erase_node p id = (some e, q)) : q = p := by
  unfold erase_node at h
  cases hs : get_node p id with
  | none =>
    rw [hs] at h
    exact (congrArg Prod.snd h).symm
  | some nd =>
    rw [hs] at h
    exact absurd (congrArg Prod.fst h) (by simp)

/-- Claim C5: whenever `connect(src, dst, slot)` or `erase_node(id)` throws
a `pipeline_error`, the pipeline's observable state is identical to the
pre-call state — live node ids, all `connections` and all `dependencies`
are unchanged (here: the entire registry state is unchanged). -/
theorem claim5_failing_edit_atomic (p : Pipeline S) (src dst id : NodeId)
    (slot : Slot) :
    (∀ e q, connect p src dst slot = (some e, q) → q = p) ∧
    (∀ e q, erase_node p id = (some e, q) → q = p) :=
  ⟨fun _ _ h => connect_err_snd h, fun _ _ h => erase_err_snd h⟩

/-- Witness for claim C5 at a concrete failing `connect` and a concrete
failing `erase_node`. -/
theorem claim5_witness :
    (connect (Pipeline.empty : Pipeline TState) 1 2 0).2 = Pipeline.empty ∧
    (erase_node (Pipeline.empty : Pipeline TState) 7).2 = Pipeline.empty :=
  ⟨(claim5_failing_edit_atomic Pipeline.empty 1 2 7 0).1
      PipelineErrorKind.invalid_node_id _ rfl,
   (claim5_failing_edit_atomic Pipeline.empty 1 2 7 0).2
      PipelineErrorKind.invalid_node_id _ rfl⟩

/-- Claim C4: the error kind reported by `connect` is determined by the
fixed checking order `invalid_node_id`, then `slot_already_used`, then
`no_such_slot`, then `connection_type_mismatch`; the first violated check
wins, and with no violation the call succeeds. -/
theorem claim4_connect_error_order (p : Pipeline S) (src dst : NodeId)
    (slot : Slot) :
    ((¬ liveId p src ∨ ¬ liveId p dst) →
      (connect p src dst slot).1 = some PipelineErrorKind.invalid_node_id) ∧
    (liveId p src → liveId p dst →
      ((slot ∈ (connsOf p dst).map Prod.fst →
        (connect p src dst slot).1 = some PipelineErrorKind.slot_already_used) ∧
      (slot ∉ (connsOf p dst).map Prod.fst →
        (slot < 0 ∨ ((inputTypesOf p dst).length : Int) ≤ slot) →
        (connect p src dst slot).1 = some PipelineErrorKind.no_such_slot) ∧
      (slot ∉ (connsOf p dst).map Prod.fst →
        ¬ (slot < 0 ∨ ((inputTypesOf p dst).length : Int) ≤ slot) →
        (inputTypesOf p dst).getD slot.toNat Ty.void ≠ outputTypeOf p src →
        (connect p src dst slot).1 =
          some PipelineErrorKind.connection_type_mismatch) ∧
      (slot ∉ (connsOf p dst).map Prod.fst →
        ¬ (slot < 0 ∨ ((inputTypesOf p dst).length : Int) ≤ slot) →
        (inputTypesOf p dst).getD slot.toNat Ty.void = outputTypeOf p src →
        (connect p src dst slot).1 = none))) := by
  constructor
  · intro hdead
    cases hs : get_node p src with
    | none => unfold connect; rw [hs]
    | some srcN =>
      cases hd : get_node p dst with
      | none => unfold connect; rw [hs, hd]
      | some dstN =>
        exact absurd hdead (by simp [liveId, hs, hd])
  · intro hs hd
    unfold liveId at hs hd
    rcases Option.isSome_iff_exists.1 hs with ⟨src_node, hsn⟩
    rcases Option.isSome_iff_exists.1 hd with ⟨dst_node, hdn⟩
    have hconns : connsOf p dst = dst_node.connections := by
      simp [connsOf, hdn]
    have hins : inputTypesOf p dst = dst_node.input_types := by
      simp [inputTypesOf, hdn]
    have hout : outputTypeOf p src = src_node.output_type := by
      simp [outputTypeOf, hsn]
    rw [hconns, hins, hout]
    refine ⟨?_, ?_, ?_, ?_⟩
    · intro hu
      unfold connect
      rw [hsn, hdn]
      simp only [if_pos ((find_slot_isSome_iff _ _).2 hu)]
    · intro hnu hrange
      unfold connect
      rw [hsn, hdn]
      have h1 : ¬ (dst_node.connections.find? (fun it => it.1 == slot)).isSome = true :=
        fun h => hnu ((find_slot_isSome_iff _ _).1 h)
      simp only [if_neg h1, if_pos hrange]
    · intro hnu hrange hty
      unfold connect
      rw [hsn, hdn]
      have h1 : ¬ (dst_node.connections.find? (fun it => it.1 == slot)).isSome = true :=
        fun h => hnu ((find_slot_isSome_iff _ _).1 h)
      simp only [if_neg h1, if_neg hrange, if_pos hty]
    · intro hnu hrange hty
      unfold connect
      rw [hsn, hdn]
      have h1 : ¬ (dst_node.connections.find? (fun it => it.1 == slot)).isSome = true :=
        fun h => hnu ((find_slot_isSome_iff _ _).1 h)
      have h2 : ¬ dst_node.input_types.getD slot.toNat Ty.void ≠ src_node.output_type :=
        fun h => h hty
      simp only [if_neg h1, if_neg hrange, if_neg h2]

/-- Witness for claim C4 on `s1Pipeline`: a dead source id reports
`invalid_node_id`; slot 1 of the component is already used, and that check
fires even though the same call is also type-correct; an out-of-range slot
reports `no_such_slot` even on the same filled node; and a fully clean call
succeeds. -/
theorem claim4_witness :
    (connect s1Pipeline 99 3 1).1 = some PipelineErrorKind.invalid_node_id ∧
    (connect s1Pipeline 2 3 1).1 = some PipelineErrorKind.slot_already_used ∧
    (connect s1Pipeline 2 3 9).1 = some PipelineErrorKind.no_such_slot ∧
    (connect (create_node s1Pipeline (flexSource 3)).2 6 3 9).1 =
      some PipelineErrorKind.no_such_slot ∧
    (erase_node s1Pipeline 1).1 = none := by
  refine ⟨?_, ?_, ?_, ?_, rfl⟩
  · exact (claim4_connect_error_order s1Pipeline 99 3 1).1 (Or.inl (by decide))
  · exact ((claim4_connect_error_order s1Pipeline 2 3 1).2 (by decide) (by decide)).1
      (by decide)
  · exact (((claim4_connect_error_order s1Pipeline 2 3 9).2 (by decide) (by decide)).2.1
      (by decide) (by decide))
  · exact (((claim4_connect_error_order (create_node s1Pipeline (flexSource 3)).2
      6 3 9).2 (by decide) (by decide)).2.1 (by decide) (by decide))

theorem get_node_create_on_cleared (src : Pipeline S) (nd : NodeData S)
    (h : src.nodes = []) :
    get_node (create_node src nd).2 src.current_id =
      some { nd with connections := [], dependencies := [] } := by
  simp [create_node, get_node, h, mapEmplace, alistFind]

/-- Claim C9: after `p2 = move(p)` (assignment, and likewise construction,
whose target counter is indeterminate `junk`), `p.get_node` is absent for
every id, `p2.get_node` returns exactly what `p` held, the moved-from
pipeline keeps its own id counter so a further `create_node` succeeds with
the next id from that counter, and self-move is a no-op. -/
theorem claim9_move_semantics (p q : Pipeline S) (junk : NodeId)
    (nd : NodeData S) :
    (∀ id, get_node (move_assign q p).2 id = none) ∧
    (∀ id, get_node (move_assign q p).1 id = get_node p id) ∧
    (move_assign q p).2.current_id = p.current_id ∧
    (∀ id, get_node (move_construct p junk).2 id = none) ∧
    (∀ id, get_node (move_construct p junk).1 id = get_node p id) ∧
    (move_construct p junk).2.current_id = p.current_id ∧
    (create_node (move_assign q p).2 nd).1 = p.current_id ∧
    get_node (create_node (move_assign q p).2 nd).2 p.current_id =
      some { nd with connections := [], dependencies := [] } ∧
    move_assign_self p = p := by
  exact ⟨fun _ => rfl, fun _ => rfl, rfl, fun _ => rfl, fun _ => rfl, rfl, rfl,
    get_node_create_on_cleared (move_assign q p).2 nd rfl, rfl⟩

/-!
## Claim C8: scenario S1
-/

theorem runFuel_step_false {f : Nat} {p q : Pipeline S}
    (h : step p = (false, q)) : runFuel (f+1) p = runFuel f q := by
  have hu : runFuel (f+1) p =
      (if (step p).1 then some (step p).2 else runFuel f (step p).2) := rfl
  rw [hu, h]
  simp

theorem runFuel_step_true {f : Nat} {p q : Pipeline S}
    (h : step p = (true, q)) : runFuel (f+1) p = some q := by
  have hu : runFuel (f+1) p =
      (if (step p).1 then some (step p).2 else runFuel f (step p).2) := rfl
  rw [hu, h]
  simp

theorem s1_build : s1Pipeline = s1At 0 0 0 [] [] := rfl

theorem s1_tick1 : step (s1At 0 0 0 [] []) = (false, s1At 1 1 2 [2] [1]) := rfl

theorem s1_tick2 : step (s1At 1 1 2 [2] [1]) = (false, s1At 2 2 4 [2,4] [1,2]) := rfl

theorem s1_tick3 : step (s1At 2 2 4 [2,4] [1,2]) = (false, s1At 3 3 6 [2,4,6] [1,2,3]) := rfl

theorem s1_tick4 : step (s1At 3 3 6 [2,4,6] [1,2,3]) = (false, s1At 4 4 8 [2,4,6,8] [1,2,3,4]) := rfl

theorem s1_tick5 : step (s1At 4 4 8 [2,4,6,8] [1,2,3,4]) = (false, s1At 5 5 10 [2,4,6,8,10] [1,2,3,4,5]) := rfl

theorem s1_tick6 : step (s1At 5 5 10 [2,4,6,8,10] [1,2,3,4,5]) = (false, s1At 5 6 10 [2,4,6,8,10] [1,2,3,4,5,6]) := rfl

theorem s1_tick7 : step (s1At 5 6 10 [2,4,6,8,10] [1,2,3,4,5,6]) = (false, s1At 5 7 10 [2,4,6,8,10] [1,2,3,4,5,6,7]) := rfl

theorem s1_tick8 : step (s1At 5 7 10 [2,4,6,8,10] [1,2,3,4,5,6,7]) = (false, s1At 5 8 10 [2,4,6,8,10] [1,2,3,4,5,6,7,8]) := rfl

theorem s1_tick9 : step (s1At 5 8 10 [2,4,6,8,10] [1,2,3,4,5,6,7,8]) = (false, s1At 5 9 10 [2,4,6,8,10] [1,2,3,4,5,6,7,8,9]) := rfl

theorem s1_tick10 : step (s1At 5 9 10 [2,4,6,8,10] [1,2,3,4,5,6,7,8,9]) = (false, s1At 5 10 10 [2,4,6,8,10] [1,2,3,4,5,6,7,8,9,10]) := rfl

theorem s1_tick11 : step (s1At 5 10 10 [2,4,6,8,10] [1,2,3,4,5,6,7,8,9,10]) = (true, s1At 5 10 10 [2,4,6,8,10] [1,2,3,4,5,6,7,8,9,10]) := rfl

/-- Claim C8: running scenario S1 to completion (the 11th tick is the first
on which `step` returns true) leaves sink A with stream "2 4 6 8 10 " and
sink B with stream "1 2 3 4 5 6 7 8 9 10 ". -/
theorem claim8_scenario_s1 :
    ∃ pf, runFuel 11 s1Pipeline = some pf ∧
      streamRender (streamOf pf 4) = "2 4 6 8 10 " ∧
      streamRender (streamOf pf 5) = "1 2 3 4 5 6 7 8 9 10 " := by
  refine ⟨s1At 5 10 10 [2,4,6,8,10] [1,2,3,4,5,6,7,8,9,10], ?_, ?_, ?_⟩
  · rw [s1_build,
      show (11:Nat) = 10+1 from rfl, runFuel_step_false s1_tick1,
      show (10:Nat) = 9+1 from rfl, runFuel_step_false s1_tick2,
      show (9:Nat) = 8+1 from rfl, runFuel_step_false s1_tick3,
      show (8:Nat) = 7+1 from rfl, runFuel_step_false s1_tick4,
      show (7:Nat) = 6+1 from rfl, runFuel_step_false s1_tick5,
      show (6:Nat) = 5+1 from rfl, runFuel_step_false s1_tick6,
      show (5:Nat) = 4+1 from rfl, runFuel_step_false s1_tick7,
      show (4:Nat) = 3+1 from rfl, runFuel_step_false s1_tick8,
      show (3:Nat) = 2+1 from rfl, runFuel_step_false s1_tick9,
      show (2:Nat) = 1+1 from rfl, runFuel_step_false s1_tick10,
      show (1:Nat) = 0+1 from rfl, runFuel_step_true s1_tick11]
  · decide
  · decide

/-!
## Counterexamples to claims C1 and C2 as stated
-/

/-- Counterexample to claim C1 as stated.  In `cex1Pipeline`, during the
single tick of `step`: the demand of upstream 2 (always-`closed` source)
returns `closed` (it is demanded first, through sink 4), and the demand of
upstream 1 (always-`empty` source) returns `empty`; the component (node 3)
has both as its two upstreams with connection order [(0,1), (1,2)], yet its
memoised result is `empty`, not `closed` — the loop short-circuits at the
first non-`ready` upstream in iteration order.  Only sources 2 and 1 are
polled (3 inherits without being polled).  Reversing the connection order
(`cex1bPipeline`) flips the result to `closed`, so the iteration order over
the connections is not immaterial. -/
theorem claim1_counterexample :
    memoLookup (stepFull cex1Pipeline).2.visited 2 = some Poll.closed ∧
    memoLookup (stepFull cex1Pipeline).2.visited 3 = some Poll.empty ∧
    connsOf cex1Pipeline 3 = [(0, 1), (1, 2)] ∧
    (stepFull cex1Pipeline).2.trace = [2, 1] ∧
    connsOf cex1bPipeline 3 = [(1, 2), (0, 1)] ∧
    memoLookup (stepFull cex1bPipeline).2.visited 3 = some Poll.closed ∧
    Poll.empty ≠ Poll.closed := by decide

/-- Counterexample to claim C2 as stated.  `cex2Pipeline` contains the
directed cycle 3 → 4 → 3 among its two interior components (both have
non-void output and non-empty input, and each feeds a slot of the other),
yet `is_valid` returns `true`: the cycle is not reachable from the only
sink, and the DFS of `is_valid` starts only at sinks. -/
theorem claim2_counterexample :
    is_valid cex2Pipeline = true ∧
    CycleAt cex2Pipeline 3 ∧
    outputTypeOf cex2Pipeline 3 ≠ Ty.void ∧ inputTypesOf cex2Pipeline 3 ≠ [] ∧
    outputTypeOf cex2Pipeline 4 ≠ Ty.void ∧ inputTypesOf cex2Pipeline 4 ≠ [] := by
  refine ⟨by decide, ?_, by decide, by decide, by decide, by decide⟩
  exact Relation.TransGen.head (show EdgeTo cex2Pipeline 3 4 by decide)
    (Relation.TransGen.single (show EdgeTo cex2Pipeline 4 3 by decide))

/-!
## Scheduler lemmas: groundwork
-/

theorem strip_keys (p : Pipeline S) :
    (strip p).map Prod.fst = p.nodes.map Prod.fst := by
  simp [strip, List.map_map]

theorem alistFind_map_pair (l : List (NodeId × β)) (g : β → γ) (k : NodeId) :
    alistFind (l.map (fun e => (e.1, g e.2))) k = (alistFind l k).map g := by
  induction l with
  | nil => simp [alistFind]
  | cons e t ih => by_cases h : e.1 = k <;> simp [alistFind, h, ih]

theorem connsOf_strip (p : Pipeline S) (a : NodeId) :
    connsOf p a = (alistFind (strip p) a).getD [] := by
  unfold connsOf strip get_node
  rw [alistFind_map_pair]

theorem connsOf_of_strip_eq {p q : Pipeline S} (h : strip p = strip q)
    (a : NodeId) : connsOf p a = connsOf q a := by
  rw [connsOf_strip, connsOf_strip, h]

theorem liveId_iff_strip (p : Pipeline S) (a : NodeId) :
    liveId p a ↔ a ∈ (strip p).map Prod.fst := by
  unfold liveId
  rw [strip_keys]
  exact get_node_isSome_iff

theorem liveId_of_strip_eq {p q : Pipeline S} (h : strip p = strip q)
    {a : NodeId} (hl : liveId q a) : liveId p a := by
  rw [liveId_iff_strip, h, ← liveId_iff_strip]
  exact hl

theorem demandWf_of_strip_eq {p q : Pipeline S} (h : strip p = strip q)
    (hq : DemandWf q) : DemandWf p := by
  unfold DemandWf at *
  rw [h]
  exact hq

theorem rankOk_of_strip_eq {p q : Pipeline S} {rank : NodeId → Nat}
    (h : strip p = strip q) (hq : RankOk q rank) : RankOk p rank := by
  unfold RankOk at *
  rw [h]
  exact hq

theorem get_node_strip_mem {p : Pipeline S} {id : NodeId} {nd : NodeData S}
    (h : get_node p id = some nd) : (id, nd.connections) ∈ strip p :=
  List.mem_map.2 ⟨(id, nd), alistFind_mem h, rfl⟩

theorem strip_updateNode (p : Pipeline S) (i : NodeId)
    (f : NodeData S → NodeData S) (hf : ∀ nd, (f nd).connections = nd.connections) :
    strip (updateNode p i f) = strip p := by
  unfold strip updateNode
  simp only [List.map_map]
  refine List.map_congr_left (fun e he => ?_)
  by_cases h : e.1 = i <;> simp [Function.comp, h, hf]

theorem memoLookup_some_mem {m : List (NodeId × Poll)} {k : NodeId} {r : Poll}
    (h : memoLookup m k = some r) : k ∈ m.map Prod.fst := by
  have : (memoLookup m k).isSome = true := by simp [h]
  exact alistFind_isSome.1 this

theorem memoLookup_none_iff {m : List (NodeId × Poll)} {k : NodeId} :
    memoLookup m k = none ↔ k ∉ m.map Prod.fst :=
  alistFind_eq_none

theorem memoLookup_append_fresh {d m : List (NodeId × Poll)} {k : NodeId}
    (h : k ∉ d.map Prod.fst) : memoLookup (d ++ m) k = memoLookup m k :=
  alistFind_append_right h

/-!
## The demand master lemma
-/

theorem demandLoop_master (rank : NodeId → Nat) (fuel R : Nat)
    (IH : ∀ u (σ' : TickState S), DemandWf σ'.p → RankOk σ'.p rank →
      rank u < fuel → liveId σ'.p u → TraceInv σ' →
      DemandPost rank u σ' (demandF fuel u σ')) :
    ∀ conns (σ : TickState S), DemandWf σ.p → RankOk σ.p rank → TraceInv σ →
      (∀ c ∈ conns, liveId σ.p c.2 ∧ rank c.2 < R ∧ rank c.2 < fuel) →
      LoopPost rank R conns σ (demandLoop (demandF fuel) conns σ) := by
  intro conns
  induction conns with
  | nil =>
    intro σ h1 h2 h3 hc
    have hres : demandLoop (demandF fuel) ([] : List (Slot × NodeId)) σ = (none, σ) := rfl
    rw [hres]
    refine ⟨rfl, ⟨[], rfl, by simp⟩, ⟨[], by simp, by simp⟩, h3, ?_, ?_⟩
    · intro _ c hcm
      exact absurd hcm (List.not_mem_nil c)
    · intro r hr
      simp at hr
  | cons c rest ih =>
    intro σ h1 h2 h3 hc
    obtain ⟨hlive, hcR, hcF⟩ := hc c (List.mem_cons_self c rest)
    have hpost := IH c.2 σ h1 h2 hcF hlive h3
    rcases hE : demandF fuel c.2 σ with ⟨r1, σ1⟩
    rw [hE] at hpost
    unfold DemandPost at hpost
    obtain ⟨hstrip1, ⟨d1, hd1, hd1p⟩, hmemo1, ⟨t1, ht1, ht1p⟩, hinv1⟩ := hpost
    by_cases he : r1 = Poll.empty
    · subst he
      have hres : demandLoop (demandF fuel) (c :: rest) σ = (some Poll.empty, σ1) := by
        simp [demandLoop, hE]
      rw [hres]
      refine ⟨hstrip1,
        ⟨d1, hd1, fun k hk => ⟨lt_of_le_of_lt (hd1p k hk).1 hcR, (hd1p k hk).2⟩⟩,
        ⟨t1, ht1, fun x hx => lt_of_le_of_lt (ht1p x hx) hcR⟩, hinv1, ?_, ?_⟩
      · intro h
        exact absurd h (by simp)
      · intro r hr
        have hre : r = Poll.empty := by
          have := congrArg (fun o => o) hr
          simpa using hr.symm
        subst hre
        exact ⟨Or.inl rfl, [], c, rest, rfl, hmemo1,
          fun c' hc' => absurd hc' (List.not_mem_nil c')⟩
    · by_cases hcl : r1 = Poll.closed
      · subst hcl
        have hres : demandLoop (demandF fuel) (c :: rest) σ = (some Poll.closed, σ1) := by
          simp [demandLoop, hE]
        rw [hres]
        refine ⟨hstrip1,
          ⟨d1, hd1, fun k hk => ⟨lt_of_le_of_lt (hd1p k hk).1 hcR, (hd1p k hk).2⟩⟩,
          ⟨t1, ht1, fun x hx => lt_of_le_of_lt (ht1p x hx) hcR⟩, hinv1, ?_, ?_⟩
        · intro h
          exact absurd h (by simp)
        · intro r hr
          have hre : r = Poll.closed := by simpa using hr.symm
          subst hre
          exact ⟨Or.inr rfl, [], c, rest, rfl, hmemo1,
            fun c' hc' => absurd hc' (List.not_mem_nil c')⟩
      · have hr1 : r1 = Poll.ready := by cases r1 <;> simp_all
        subst hr1
        have hres : demandLoop (demandF fuel) (c :: rest) σ =
            demandLoop (demandF fuel) rest σ1 := by
          simp [demandLoop, hE]
        have h1' : DemandWf σ1.p := demandWf_of_strip_eq hstrip1 h1
        have h2' : RankOk σ1.p rank := rankOk_of_strip_eq hstrip1 h2
        have hc' : ∀ c' ∈ rest, liveId σ1.p c'.2 ∧ rank c'.2 < R ∧ rank c'.2 < fuel := by
          intro c' hm
          obtain ⟨hl, hr2, hf2⟩ := hc c' (List.mem_cons_of_mem c hm)
          exact ⟨liveId_of_strip_eq hstrip1 hl, hr2, hf2⟩
        have hrest := ih σ1 h1' h2' hinv1 hc'
        rcases hE2 : demandLoop (demandF fuel) rest σ1 with ⟨res2, σ2⟩
        rw [hE2] at hrest
        rw [hres, hE2]
        obtain ⟨hstrip2, ⟨d2, hd2, hd2p⟩, ⟨t2, ht2, ht2p⟩, hinv2, hnone2, hsome2⟩ := hrest
        have hmemC : c.2 ∈ σ1.visited.map Prod.fst := memoLookup_some_mem hmemo1
        have hfreshC : c.2 ∉ d2.map Prod.fst := fun hk => (hd2p c.2 hk).2 hmemC
        have hpresC : memoLookup σ2.visited c.2 = some Poll.ready := by
          rw [hd2, memoLookup_append_fresh hfreshC]
          exact hmemo1
        refine ⟨hstrip2.trans hstrip1, ⟨d2 ++ d1, ?_, ?_⟩, ⟨t1 ++ t2, ?_, ?_⟩, hinv2, ?_, ?_⟩
        · rw [hd2, hd1, List.append_assoc]
        · intro k hk
          rw [List.map_append] at hk
          rcases List.mem_append.1 hk with hk2 | hk1
          · refine ⟨(hd2p k hk2).1, fun hmem => (hd2p k hk2).2 ?_⟩
            rw [hd1, List.map_append]
            exact List.mem_append.2 (Or.inr hmem)
          · exact ⟨lt_of_le_of_lt (hd1p k hk1).1 hcR, (hd1p k hk1).2⟩
        · rw [ht2, ht1, List.append_assoc]
        · intro x hx
          rcases List.mem_append.1 hx with hx1 | hx2
          · exact lt_of_le_of_lt (ht1p x hx1) hcR
          · exact ht2p x hx2
        · intro hnone c' hc'
          rcases List.mem_cons.1 hc' with hceq | hmem
          · subst hceq
            exact hpresC
          · exact hnone2 hnone c' hmem
        · intro r hr
          obtain ⟨hre, pre, cm, post, hsplit, hmemo, hpre⟩ := hsome2 r hr
          refine ⟨hre, c :: pre, cm, post, by rw [hsplit, List.cons_append], hmemo, ?_⟩
          intro c' hc'
          rcases List.mem_cons.1 hc' with hceq | hmem
          · subst hceq
            exact hpresC
          · exact hpre c' hmem

theorem demand_master (rank : NodeId → Nat) :
    ∀ fuel (src : NodeId) (σ : TickState S), DemandWf σ.p → RankOk σ.p rank →
      rank src < fuel → liveId σ.p src → TraceInv σ →
      DemandPost rank src σ (demandF fuel src σ) := by
  intro fuel
  induction fuel with
  | zero =>
    intro src σ _ _ hf _ _
    exact absurd hf (Nat.not_lt_zero _)
  | succ fuel ihf =>
    intro src σ h1 h2 hf hlive h3
    cases hm : memoLookup σ.visited src with
    | some r =>
      have hres : demandF (fuel+1) src σ = (r, σ) := by
        simp [demandF, hm]
      rw [hres]
      exact ⟨rfl, ⟨[], rfl, by simp⟩, hm, ⟨[], by simp, by simp⟩, h3⟩
    | none =>
      have hsrcfresh : src ∉ σ.visited.map Prod.fst := memoLookup_none_iff.1 hm
      cases hn : get_node σ.p src with
      | none =>
        exact absurd hlive (by simp [liveId, hn])
      | some nd =>
        have hcs : ∀ c ∈ nd.connections,
            liveId σ.p c.2 ∧ rank c.2 < rank src ∧ rank c.2 < fuel := by
          intro c hcm
          have hmem := get_node_strip_mem hn
          have hlv : c.2 ∈ (strip σ.p).map Prod.fst := h1.2 _ hmem c hcm
          have hR : rank c.2 < rank src := h2 _ hmem c hcm
          exact ⟨(liveId_iff_strip _ _).2 hlv, hR,
            lt_of_lt_of_le hR (Nat.lt_succ_iff.1 hf)⟩
        have hloop := demandLoop_master rank fuel (rank src) ihf
          nd.connections σ h1 h2 h3 hcs
        rcases hE : demandLoop (demandF fuel) nd.connections σ with ⟨res1, σ1⟩
        rw [hE] at hloop
        obtain ⟨hstrip1, ⟨d1, hd1, hd1p⟩, ⟨t1, ht1, ht1p⟩, hinv1, hnone1, hsome1⟩ := hloop
        cases res1 with
        | some r =>
          have hres : demandF (fuel+1) src σ =
              (r, { σ1 with visited := (src, r) :: σ1.visited }) := by
            simp [demandF, hm, hn, hE]
          rw [hres]
          refine ⟨hstrip1, ⟨(src, r) :: d1, ?_, ?_⟩, ?_,
            ⟨t1, ht1, fun x hx => le_of_lt (ht1p x hx)⟩, ?_⟩
          · rw [hd1]
            rfl
          · intro k hk
            rw [List.map_cons] at hk
            rcases List.mem_cons.1 hk with hk1 | hk2
            · subst hk1
              exact ⟨le_refl _, hsrcfresh⟩
            · exact ⟨le_of_lt (hd1p k hk2).1, (hd1p k hk2).2⟩
          · exact alistFind_cons_self
          · exact ⟨hinv1.1, fun x hx => List.mem_cons.2 (Or.inr (hinv1.2 x hx))⟩
        | none =>
          cases hn1 : get_node σ1.p src with
          | none =>
            have hl1 : liveId σ1.p src := liveId_of_strip_eq hstrip1 hlive
            exact absurd hl1 (by simp [liveId, hn1])
          | some nd1 =>
            have hres : demandF (fuel+1) src σ =
                ((nd1.poll_next nd1.state
                    (fun id => (get_node σ1.p id).bind (fun n => n.value n.state))).1,
                  { p := updateNode σ1.p src (fun n =>
                      { n with state := (nd1.poll_next nd1.state
                        (fun id => (get_node σ1.p id).bind (fun n => n.value n.state))).2 }),
                    visited := ((src, (nd1.poll_next nd1.state
                      (fun id => (get_node σ1.p id).bind (fun n => n.value n.state))).1)
                        :: σ1.visited),
                    trace := σ1.trace ++ [src] }) := by
              simp [demandF, hm, hn, hE, hn1]
            rw [hres]
            have hsrcnotloop : src ∉ t1 := fun hx => absurd (ht1p src hx) (lt_irrefl _)
            have hsrcnottrace : src ∉ σ.trace := fun hx => hsrcfresh (h3.2 src hx)
            refine ⟨?_, ⟨(src, (nd1.poll_next nd1.state
                (fun id => (get_node σ1.p id).bind (fun n => n.value n.state))).1) :: d1,
              ?_, ?_⟩, ?_, ⟨t1 ++ [src], ?_, ?_⟩, ?_, ?_⟩
            · exact (strip_updateNode σ1.p src (fun n =>
                { n with state := (nd1.poll_next nd1.state
                  (fun id => (get_node σ1.p id).bind (fun n => n.value n.state))).2 })
                (fun _ => rfl)).trans hstrip1
            · rw [hd1]
              rfl
            · intro k hk
              rw [List.map_cons] at hk
              rcases List.mem_cons.1 hk with hk1 | hk2
              · subst hk1
                exact ⟨le_refl _, hsrcfresh⟩
              · exact ⟨le_of_lt (hd1p k hk2).1, (hd1p k hk2).2⟩
            · exact alistFind_cons_self
            · rw [ht1, List.append_assoc]
            · intro x hx
              rcases List.mem_append.1 hx with hx1 | hx2
              · exact le_of_lt (ht1p x hx1)
              · simp at hx2
                subst hx2
                exact le_refl _
            · refine List.Nodup.append hinv1.1 (List.nodup_singleton src) ?_
              intro a ha hamem
              simp at hamem
              subst hamem
              rw [ht1] at ha
              rcases List.mem_append.1 ha with hx1 | hx2
              · exact hsrcnottrace hx1
              · exact hsrcnotloop hx2
            · intro x hx
              rcases List.mem_append.1 hx with hx1 | hx2
              · exact List.mem_cons.2 (Or.inr (hinv1.2 x hx1))
              · simp at hx2
                subst hx2
                exact List.mem_cons.2 (Or.inl rfl)

/-!
## Step-level lemmas and claims C7, C3, C1 (amended)
-/

theorem stepFull_eq_fold (p : Pipeline S) :
    stepFull p = p.nodes.foldl
      (fun acc e =>
        if e.2.output_type = Ty.void then
          let r := demandF (stepFuel p) e.1 acc.2
          (acc.1 && (r.1 == Poll.closed), r.2)
        else acc)
      (true, ⟨p, [], []⟩) := rfl

theorem strip_length (p : Pipeline S) : (strip p).length = p.nodes.length :=
  List.length_map _ _

theorem stepLoop_master (p : Pipeline S) (rank : NodeId → Nat)
    (hwf : DemandWf p) (hrk : RankOk p rank) :
    ∀ (l : List (NodeId × NodeData S)) (b0 : Bool) (σ : TickState S),
      (∀ e ∈ l, e.1 ∈ p.nodes.map Prod.fst ∧ rank e.1 < stepFuel p) →
      strip σ.p = strip p → TraceInv σ →
      (strip (l.foldl (fun acc e =>
          if e.2.output_type = Ty.void then
            let r := demandF (stepFuel p) e.1 acc.2
            (acc.1 && (r.1 == Poll.closed), r.2)
          else acc) (b0, σ)).2.p = strip p) ∧
      TraceInv (l.foldl (fun acc e =>
          if e.2.output_type = Ty.void then
            let r := demandF (stepFuel p) e.1 acc.2
            (acc.1 && (r.1 == Poll.closed), r.2)
          else acc) (b0, σ)).2 ∧
      (∀ k ∈ σ.visited.map Prod.fst,
        memoLookup (l.foldl (fun acc e =>
          if e.2.output_type = Ty.void then
            let r := demandF (stepFuel p) e.1 acc.2
            (acc.1 && (r.1 == Poll.closed), r.2)
          else acc) (b0, σ)).2.visited k = memoLookup σ.visited k) ∧
      (∃ d, (l.foldl (fun acc e =>
          if e.2.output_type = Ty.void then
            let r := demandF (stepFuel p) e.1 acc.2
            (acc.1 && (r.1 == Poll.closed), r.2)
          else acc) (b0, σ)).2.visited = d ++ σ.visited) ∧
      ((l.foldl (fun acc e =>
          if e.2.output_type = Ty.void then
            let r := demandF (stepFuel p) e.1 acc.2
            (acc.1 && (r.1 == Poll.closed), r.2)
          else acc) (b0, σ)).1 = true ↔
        (b0 = true ∧ ∀ e ∈ l, e.2.output_type = Ty.void →
          memoLookup (l.foldl (fun acc e =>
            if e.2.output_type = Ty.void then
              let r := demandF (stepFuel p) e.1 acc.2
              (acc.1 && (r.1 == Poll.closed), r.2)
            else acc) (b0, σ)).2.visited e.1 = some Poll.closed)) := by
  intro l
  induction l with
  | nil =>
    intro b0 σ hl hstrip hinv
    exact ⟨hstrip, hinv, fun k _ => rfl, ⟨[], rfl⟩, by simp⟩
  | cons e rest ih =>
    intro b0 σ hl hstrip hinv
    by_cases hsink : e.2.output_type = Ty.void
    · obtain ⟨hmem, hrke⟩ := hl e (List.mem_cons_self e rest)
      have hlivee : liveId σ.p e.1 := by
        rw [liveId_iff_strip, hstrip, strip_keys]
        exact hmem
      have hpost := demand_master rank (stepFuel p) e.1 σ
        (demandWf_of_strip_eq hstrip hwf) (rankOk_of_strip_eq hstrip hrk)
        hrke hlivee hinv
      rcases hd : demandF (stepFuel p) e.1 σ with ⟨r1, σ1⟩
      rw [hd] at hpost
      obtain ⟨hstrip1, ⟨d1, hd1, hd1p⟩, hmemo1, ⟨t1, ht1, ht1p⟩, hinv1⟩ := hpost
      have hfold : (e :: rest).foldl (fun acc e =>
          if e.2.output_type = Ty.void then
            let r := demandF (stepFuel p) e.1 acc.2
            (acc.1 && (r.1 == Poll.closed), r.2)
          else acc) (b0, σ) = rest.foldl (fun acc e =>
          if e.2.output_type = Ty.void then
            let r := demandF (stepFuel p) e.1 acc.2
            (acc.1 && (r.1 == Poll.closed), r.2)
          else acc) (b0 && (r1 == Poll.closed), σ1) := by
        simp [List.foldl_cons, hsink, hd]
      rw [hfold]
      have hrest := ih (b0 && (r1 == Poll.closed)) σ1
        (fun e' he' => hl e' (List.mem_cons_of_mem e he'))
        (hstrip1.trans hstrip) hinv1
      obtain ⟨hstrip2, hinv2, hpres2, ⟨d2, hd2⟩, hiff2⟩ := hrest
      have hpres1 : ∀ k ∈ σ.visited.map Prod.fst,
          memoLookup σ1.visited k = memoLookup σ.visited k := by
        intro k hk
        have hkfresh : k ∉ d1.map Prod.fst := fun hkd => (hd1p k hkd).2 hk
        rw [hd1, memoLookup_append_fresh hkfresh]
      have hkeys1 : ∀ k, k ∈ σ.visited.map Prod.fst → k ∈ σ1.visited.map Prod.fst := by
        intro k hk
        rw [hd1, List.map_append]
        exact List.mem_append.2 (Or.inr hk)
      refine ⟨hstrip2, hinv2, ?_, ?_, ?_⟩
      · intro k hk
        rw [hpres2 k (hkeys1 k hk)]
        exact hpres1 k hk
      · refine ⟨d2 ++ d1, ?_⟩
        rw [hd2, hd1, List.append_assoc]
      · have hememo : memoLookup (rest.foldl (fun acc e =>
            if e.2.output_type = Ty.void then
              let r := demandF (stepFuel p) e.1 acc.2
              (acc.1 && (r.1 == Poll.closed), r.2)
            else acc) (b0 && (r1 == Poll.closed), σ1)).2.visited e.1 = some r1 := by
          rw [hpres2 e.1 (memoLookup_some_mem hmemo1)]
          exact hmemo1
        rw [hiff2]
        constructor
        · rintro ⟨hb, hrestclosed⟩
          have hb0 : b0 = true ∧ r1 = Poll.closed := by
            constructor
            · exact (Bool.and_eq_true_iff.1 hb).1
            · have := (Bool.and_eq_true_iff.1 hb).2
              simpa using this
          refine ⟨hb0.1, ?_⟩
          intro e' he' hvoid
          rcases List.mem_cons.1 he' with heq | hmem2
          · subst heq
            rw [hememo, hb0.2]
          · exact hrestclosed e' hmem2 hvoid
        · rintro ⟨hb, hclosed⟩
          have he1 : memoLookup (rest.foldl (fun acc e =>
              if e.2.output_type = Ty.void then
                let r := demandF (stepFuel p) e.1 acc.2
                (acc.1 && (r.1 == Poll.closed), r.2)
              else acc) (b0 && (r1 == Poll.closed), σ1)).2.visited e.1 =
              some Poll.closed :=
            hclosed e (List.mem_cons_self e rest) hsink
          have hr1 : r1 = Poll.closed := by
            rw [hememo] at he1
            exact Option.some.inj he1
          refine ⟨?_, fun e' he' hvoid => hclosed e' (List.mem_cons_of_mem e he') hvoid⟩
          rw [hb, hr1]
          rfl
    · have hfold : (e :: rest).foldl (fun acc e =>
          if e.2.output_type = Ty.void then
            let r := demandF (stepFuel p) e.1 acc.2
            (acc.1 && (r.1 == Poll.closed), r.2)
          else acc) (b0, σ) = rest.foldl (fun acc e =>
          if e.2.output_type = Ty.void then
            let r := demandF (stepFuel p) e.1 acc.2
            (acc.1 && (r.1 == Poll.closed), r.2)
          else acc) (b0, σ) := by
        simp [List.foldl_cons, hsink]
      rw [hfold]
      have hrest := ih b0 σ (fun e' he' => hl e' (List.mem_cons_of_mem e he')) hstrip hinv
      obtain ⟨hstrip2, hinv2, hpres2, hext2, hiff2⟩ := hrest
      refine ⟨hstrip2, hinv2, hpres2, hext2, ?_⟩
      rw [hiff2]
      constructor
      · rintro ⟨hb, hrestclosed⟩
        refine ⟨hb, ?_⟩
        intro e' he' hvoid
        rcases List.mem_cons.1 he' with heq | hmem2
        · subst heq
          exact absurd hvoid hsink
        · exact hrestclosed e' hmem2 hvoid
      · rintro ⟨hb, hclosed⟩
        exact ⟨hb, fun e' he' hvoid => hclosed e' (List.mem_cons_of_mem e he') hvoid⟩

/-- Claim C7: during a single call to `step`, each node's `poll_next` is
invoked at most once.  The ghost `trace` of the tick state records exactly
the `poll_next` invocations of the tick in order (see `demandF`), and it
contains no duplicates; a node whose memoised result is set is returned
from the memo without polling. -/
theorem claim7_poll_at_most_once (p : Pipeline S) (rank : NodeId → Nat)
    (hwf : DemandWf p) (hrk : RankOk p rank) (hbd : RankBounded p rank) :
    (stepFull p).2.trace.Nodup := by
  have hl : ∀ e ∈ p.nodes, e.1 ∈ p.nodes.map Prod.fst ∧ rank e.1 < stepFuel p := by
    intro e he
    refine ⟨List.mem_map.2 ⟨e, he, rfl⟩, ?_⟩
    have := hbd (e.1, e.2.connections) (List.mem_map.2 ⟨e, he, rfl⟩)
    rw [strip_length] at this
    exact Nat.lt_succ_of_le this
  have h := stepLoop_master p rank hwf hrk p.nodes true ⟨p, [], []⟩ hl rfl
    ⟨List.nodup_nil, by simp⟩
  rw [stepFull_eq_fold]
  exact h.2.1.1

/-- Witness for claim C7 on scenario S1 with its topological certificate. -/
theorem claim7_witness : (stepFull s1Pipeline).2.trace.Nodup :=
  claim7_poll_at_most_once s1Pipeline s1Rank (by decide) (by decide) (by decide)

theorem stepN_shift (p : Pipeline S) (k : Nat) :
    stepN (step p).2 k = stepN p (k+1) := by
  induction k with
  | zero => rfl
  | succ k ih =>
    show (step (stepN (step p).2 k)).2 = (step (stepN p (k+1))).2
    rw [ih]

theorem runFuel_iff (n : Nat) (p p' : Pipeline S) :
    runFuel n p = some p' ↔ ∃ k, k < n ∧ (step (stepN p k)).1 = true ∧
      (∀ j < k, (step (stepN p j)).1 = false) ∧ p' = (step (stepN p k)).2 := by
  induction n generalizing p with
  | zero =>
    constructor
    · intro h
      simp [runFuel] at h
    · rintro ⟨k, hk, _⟩
      exact absurd hk (Nat.not_lt_zero k)
  | succ n ih =>
    have hu : runFuel (n+1) p =
        (if (step p).1 then some (step p).2 else runFuel n (step p).2) := rfl
    rw [hu]
    by_cases hb : (step p).1 = true
    · rw [if_pos hb]
      constructor
      · intro h
        exact ⟨0, Nat.succ_pos n, hb, fun j hj => absurd hj (Nat.not_lt_zero j),
          (Option.some.inj h).symm⟩
      · rintro ⟨k, hk, hkt, hkf, hp'⟩
        have hk0 : k = 0 := by
          by_contra h0
          have := hkf 0 (Nat.pos_of_ne_zero h0)
          rw [show stepN p 0 = p from rfl] at this
          rw [hb] at this
          exact Bool.true_eq_false.mp this
        subst hk0
        rw [hp']
        rfl
    · rw [if_neg hb]
      have hbf : (step p).1 = false := by simpa using hb
      rw [ih]
      constructor
      · rintro ⟨k, hk, hkt, hkf, hp'⟩
        refine ⟨k+1, Nat.succ_lt_succ hk, ?_, ?_, ?_⟩
        · rw [← stepN_shift]
          exact hkt
        · intro j hj
          cases j with
          | zero => exact hbf
          | succ j =>
            rw [← stepN_shift]
            exact hkf j (Nat.lt_of_succ_lt_succ hj)
        · rw [← stepN_shift]
          exact hp'
      · rintro ⟨k, hk, hkt, hkf, hp'⟩
        cases k with
        | zero =>
          rw [show stepN p 0 = p from rfl] at hkt
          rw [hkt] at hbf
          exact absurd hbf (by simp)
        | succ k =>
          refine ⟨k, Nat.lt_of_succ_lt_succ hk, ?_, ?_, ?_⟩
          · rw [stepN_shift]
            exact hkt
          · intro j hj
            rw [stepN_shift]
            exact hkf (j+1) (Nat.succ_lt_succ hj)
          · rw [stepN_shift]
            exact hp'

/-- Claim C3: `step` executes one tick and returns `true` iff every sink
(node of void output type) observed `closed` during that tick (its
memoised result for the tick is `closed`); and `runFuel` (the totalised
`while (!step()) {}`) returns normally within its fuel exactly when some
tick's `step` returns `true`, iterating `step` and stopping at precisely
the first such tick.  The step part assumes an acyclicity certificate, as
the C++ recursion only terminates on such graphs. -/
theorem claim3_step_true_iff_sinks_closed (S : Type) :
    (∀ (p : Pipeline S) (rank : NodeId → Nat), DemandWf p → RankOk p rank →
      RankBounded p rank →
      ((step p).1 = true ↔ ∀ e ∈ p.nodes, e.2.output_type = Ty.void →
        memoLookup (stepFull p).2.visited e.1 = some Poll.closed)) ∧
    (∀ (n : Nat) (p p' : Pipeline S),
      runFuel n p = some p' ↔ ∃ k, k < n ∧ (step (stepN p k)).1 = true ∧
        (∀ j < k, (step (stepN p j)).1 = false) ∧ p' = (step (stepN p k)).2) := by
  constructor
  · intro p rank hwf hrk hbd
    have hl : ∀ e ∈ p.nodes, e.1 ∈ p.nodes.map Prod.fst ∧ rank e.1 < stepFuel p := by
      intro e he
      refine ⟨List.mem_map.2 ⟨e, he, rfl⟩, ?_⟩
      have := hbd (e.1, e.2.connections) (List.mem_map.2 ⟨e, he, rfl⟩)
      rw [strip_length] at this
      exact Nat.lt_succ_of_le this
    have h := stepLoop_master p rank hwf hrk p.nodes true ⟨p, [], []⟩ hl rfl
      ⟨List.nodup_nil, by simp⟩
    have hs : (step p).1 = (stepFull p).1 := rfl
    rw [hs, stepFull_eq_fold, h.2.2.2.2]
    simp
  · intro n p p'
    exact runFuel_iff n p p'

/-- Witness for claim C3 at scenario S1: tick 1 of S1 does not close every
sink, and the run characterisation applied at fuel 11 locates tick 11 as
the stopping tick. -/
theorem claim3_witness :
    ((step (s1Pipeline : Pipeline TState)).1 = true ↔
      ∀ e ∈ s1Pipeline.nodes, e.2.output_type = Ty.void →
        memoLookup (stepFull s1Pipeline).2.visited e.1 = some Poll.closed) ∧
    (runFuel 1 (s1Pipeline : Pipeline TState) = some (step s1Pipeline).2 ↔
      ∃ k, k < 1 ∧ (step (stepN s1Pipeline k)).1 = true ∧
        (∀ j < k, (step (stepN s1Pipeline j)).1 = false) ∧
        (step s1Pipeline).2 = (step (stepN s1Pipeline k)).2) :=
  ⟨(claim3_step_true_iff_sinks_closed TState).1 s1Pipeline s1Rank
      (by decide) (by decide) (by decide),
    (claim3_step_true_iff_sinks_closed TState).2 1 s1Pipeline (step s1Pipeline).2⟩

/-- Claim C1 (amended): during a tick, for a node `n` with at least one
filled slot that is not yet memoised, the demand evaluation of `n` scans
its connections in iteration order with the short-circuit rule of the
source: either some prefix of upstreams demands `ready` and the next one
demands `empty` or `closed` — then that first non-`ready` result (whichever
it is) becomes `n`'s memoised result for the tick and `n.poll_next` is not
invoked — or every upstream demands `ready` and `n` is polled.  (`closed`
does not take priority over `empty`; the result depends on the connection
iteration order, see the counterexample.) -/
theorem claim1_amended_first_nonready (rank : NodeId → Nat) (fuel : Nat)
    (n : NodeId) (σ : TickState S) (hwf : DemandWf σ.p)
    (hrk : RankOk σ.p rank) (hfuel : rank n < fuel) (hlive : liveId σ.p n)
    (hinv : TraceInv σ) (hnew : memoLookup σ.visited n = none)
    (hconn : connsOf σ.p n ≠ []) :
    memoLookup (demandF fuel n σ).2.visited n = some (demandF fuel n σ).1 ∧
    ((∃ pre c post, connsOf σ.p n = pre ++ c :: post ∧
        ((demandF fuel n σ).1 = Poll.empty ∨ (demandF fuel n σ).1 = Poll.closed) ∧
        memoLookup (demandF fuel n σ).2.visited c.2 = some (demandF fuel n σ).1 ∧
        (∀ c' ∈ pre, memoLookup (demandF fuel n σ).2.visited c'.2 = some Poll.ready) ∧
        n ∉ (demandF fuel n σ).2.trace) ∨
      ((∀ c ∈ connsOf σ.p n, memoLookup (demandF fuel n σ).2.visited c.2 = some Poll.ready) ∧
        n ∈ (demandF fuel n σ).2.trace ∧ n ∉ σ.trace)) := by
  cases fuel with
  | zero => exact absurd hfuel (Nat.not_lt_zero _)
  | succ fuel =>
    have hsrcfresh : n ∉ σ.visited.map Prod.fst := memoLookup_none_iff.1 hnew
    have hntrace : n ∉ σ.trace := fun hx => hsrcfresh (hinv.2 n hx)
    cases hn : get_node σ.p n with
    | none => exact absurd hlive (by simp [liveId, hn])
    | some nd =>
      have hconns : connsOf σ.p n = nd.connections := by simp [connsOf, hn]
      have hcs : ∀ c ∈ nd.connections,
          liveId σ.p c.2 ∧ rank c.2 < rank n ∧ rank c.2 < fuel := by
        intro c hcm
        have hmem := get_node_strip_mem hn
        have hlv : c.2 ∈ (strip σ.p).map Prod.fst := hwf.2 _ hmem c hcm
        have hR : rank c.2 < rank n := hrk _ hmem c hcm
        exact ⟨(liveId_iff_strip _ _).2 hlv, hR,
          lt_of_lt_of_le hR (Nat.lt_succ_iff.1 hfuel)⟩
      have hloop := demandLoop_master rank fuel (rank n)
        (fun u σ' a b c d e => demand_master rank fuel u σ' a b c d e)
        nd.connections σ hwf hrk hinv hcs
      rcases hE : demandLoop (demandF fuel) nd.connections σ with ⟨res1, σ1⟩
      rw [hE] at hloop
      obtain ⟨hstrip1, ⟨d1, hd1, hd1p⟩, ⟨t1, ht1, ht1p⟩, hinv1, hnone1, hsome1⟩ := hloop
      have hne : ∀ c, c ∈ nd.connections → ¬ (n = c.2) := by
        intro c hcm heq
        have := (hcs c hcm).2.1
        rw [← heq] at this
        exact lt_irrefl _ this
      cases res1 with
      | some r =>
        have hres : demandF (fuel+1) n σ =
            (r, { σ1 with visited := (n, r) :: σ1.visited }) := by
          simp [demandF, hnew, hn, hE]
        rw [hres]
        obtain ⟨hre, pre, c, post, hsplit, hmemoC, hpre⟩ := hsome1 r rfl
        have hcmem : c ∈ nd.connections := by
          rw [hsplit]
          exact List.mem_append.2 (Or.inr (List.mem_cons_self c post))
        refine ⟨alistFind_cons_self, Or.inl ⟨pre, c, post, ?_, hre, ?_, ?_, ?_⟩⟩
        · rw [hconns, hsplit]
        · rw [show memoLookup ((n, r) :: σ1.visited) c.2 = memoLookup σ1.visited c.2 from
            alistFind_cons_ne (hne c hcmem)]
          exact hmemoC
        · intro c' hc'
          have hc'mem : c' ∈ nd.connections := by
            rw [hsplit]
            exact List.mem_append.2 (Or.inl hc')
          rw [show memoLookup ((n, r) :: σ1.visited) c'.2 = memoLookup σ1.visited c'.2 from
            alistFind_cons_ne (hne c' hc'mem)]
          exact hpre c' hc'
        · show n ∉ σ1.trace
          rw [ht1]
          intro hmem
          rcases List.mem_append.1 hmem with h1 | h2
          · exact hntrace h1
          · exact absurd (ht1p n h2) (lt_irrefl _)
      | none =>
        cases hn1 : get_node σ1.p n with
        | none =>
          have hl1 : liveId σ1.p n := liveId_of_strip_eq hstrip1 hlive
          exact absurd hl1 (by simp [liveId, hn1])
        | some nd1 =>
          have hres : demandF (fuel+1) n σ =
              ((nd1.poll_next nd1.state
                  (fun id => (get_node σ1.p id).bind (fun m => m.value m.state))).1,
                { p := updateNode σ1.p n (fun m =>
                    { m with state := (nd1.poll_next nd1.state
                      (fun id => (get_node σ1.p id).bind (fun m => m.value m.state))).2 }),
                  visited := ((n, (nd1.poll_next nd1.state
                    (fun id => (get_node σ1.p id).bind (fun m => m.value m.state))).1)
                      :: σ1.visited),
                  trace := σ1.trace ++ [n] }) := by
            simp [demandF, hnew, hn, hE, hn1]
          rw [hres]
          refine ⟨alistFind_cons_self, Or.inr ⟨?_, ?_, hntrace⟩⟩
          · intro c hcm
            rw [hconns] at hcm
            rw [show memoLookup ((n, (nd1.poll_next nd1.state
                (fun id => (get_node σ1.p id).bind (fun m => m.value m.state))).1)
                  :: σ1.visited) c.2 = memoLookup σ1.visited c.2 from
              alistFind_cons_ne (hne c hcm)]
            exact hnone1 rfl c hcm
          · show n ∈ σ1.trace ++ [n]
            exact List.mem_append.2 (Or.inr (List.mem_singleton.2 rfl))

/-- Witness for claim C1 (amended) at the counterexample pipeline: node 3
of `cex1Pipeline`, demanded in a fresh tick, memoises the first non-ready
upstream result without being polled. -/
theorem claim1_amended_witness :
    memoLookup (demandF 6 3 ⟨cex1Pipeline, [], []⟩).2.visited 3 =
      some (demandF 6 3 ⟨cex1Pipeline, [], []⟩).1 ∧
    ((∃ pre c post, connsOf cex1Pipeline 3 = pre ++ c :: post ∧
        ((demandF 6 3 ⟨cex1Pipeline, [], []⟩).1 = Poll.empty ∨
          (demandF 6 3 ⟨cex1Pipeline, [], []⟩).1 = Poll.closed) ∧
        memoLookup (demandF 6 3 ⟨cex1Pipeline, [], []⟩).2.visited c.2 =
          some (demandF 6 3 ⟨cex1Pipeline, [], []⟩).1 ∧
        (∀ c' ∈ pre, memoLookup (demandF 6 3 ⟨cex1Pipeline, [], []⟩).2.visited c'.2 =
          some Poll.ready) ∧
        3 ∉ (demandF 6 3 ⟨cex1Pipeline, [], []⟩).2.trace) ∨
      ((∀ c ∈ connsOf cex1Pipeline 3,
          memoLookup (demandF 6 3 ⟨cex1Pipeline, [], []⟩).2.visited c.2 =
            some Poll.ready) ∧
        3 ∈ (demandF 6 3 ⟨cex1Pipeline, [], []⟩).2.trace ∧
        3 ∉ ([] : List NodeId))) :=
  claim1_amended_first_nonready s1Rank 6 3 ⟨cex1Pipeline, [], []⟩
    (by decide) (by decide) (by decide) (by decide)
    ⟨List.nodup_nil, by simp⟩ rfl (by decide)

/-!
## Fold lemmas for the editing operations
-/

theorem foldl_ext (f g : β → α → β) (l : List α)
    (h : ∀ b, ∀ a ∈ l, f b a = g b a) : ∀ b, l.foldl f b = l.foldl g b := by
  induction l with
  | nil => intro b; rfl
  | cons a t ih =>
    intro b
    rw [List.foldl_cons, List.foldl_cons, h b a (List.mem_cons_self a t)]
    exact ih (fun b a ha => h b a (List.mem_cons_of_mem _ ha)) _

theorem updateNode_id (p : Pipeline S) (i : NodeId) :
    updateNode p i (fun nd => nd) = p := by
  unfold updateNode
  have : p.nodes.map (fun e => if e.1 = i then (e.1, e.2) else e) = p.nodes := by
    refine (List.map_congr_left (fun e he => ?_)).trans (List.map_id _)
    by_cases h : e.1 = i
    · rw [if_pos h]
      rfl
    · rw [if_neg h]
      rfl
  rw [this]

theorem get_node_foldl_update (l : List γ) (g : γ → NodeId)
    (F : γ → NodeData S → NodeData S) (p : Pipeline S) (j : NodeId) :
    get_node (l.foldl (fun acc c => updateNode acc (g c) (F c)) p) j =
      (get_node p j).map
        (fun nd => (l.filter (fun c => g c = j)).foldl (fun m c => F c m) nd) := by
  induction l generalizing p with
  | nil =>
    rw [List.foldl_nil]
    cases get_node p j <;> simp
  | cons c t ih =>
    rw [List.foldl_cons, ih]
    rw [get_node_updateNode]
    by_cases hg : g c = j
    · have hj : j = g c := hg.symm
      subst hj
      rw [if_pos rfl]
      have hfil : (c :: t).filter (fun c' => g c' = g c) =
          c :: t.filter (fun c' => g c' = g c) := by
        simp [List.filter_cons]
      rw [hfil]
      cases get_node p (g c) <;> simp [List.foldl_cons]
    · have hj : ¬ j = g c := fun h => hg h.symm
      rw [if_neg hj]
      have hfil : (c :: t).filter (fun c => g c = j) =
          t.filter (fun c => g c = j) := by
        simp [List.filter_cons, hg]
      rw [hfil]

theorem foldl_filter_deps (l : List γ) (q : γ → (NodeId × Slot) → Bool)
    (nd : NodeData S) :
    l.foldl (fun m c => { m with dependencies := m.dependencies.filter (q c) }) nd =
      { nd with dependencies := l.foldl (fun ds c => ds.filter (q c)) nd.dependencies } := by
  induction l generalizing nd with
  | nil => rfl
  | cons c t ih =>
    rw [List.foldl_cons, ih, List.foldl_cons]

theorem foldl_filter_conns (l : List γ) (q : γ → (Slot × NodeId) → Bool)
    (nd : NodeData S) :
    l.foldl (fun m c => { m with connections := m.connections.filter (q c) }) nd =
      { nd with connections := l.foldl (fun cs c => cs.filter (q c)) nd.connections } := by
  induction l generalizing nd with
  | nil => rfl
  | cons c t ih =>
    rw [List.foldl_cons, ih, List.foldl_cons]

theorem mem_foldl_filter (l : List γ) (q : γ → α → Bool) :
    ∀ (xs : List α) (x : α),
      x ∈ l.foldl (fun cs c => cs.filter (q c)) xs ↔
        x ∈ xs ∧ ∀ c ∈ l, q c x = true := by
  induction l with
  | nil =>
    intro xs x
    simp
  | cons c t ih =>
    intro xs x
    rw [List.foldl_cons, ih]
    rw [List.mem_filter]
    constructor
    · rintro ⟨⟨hx, hq⟩, hrest⟩
      refine ⟨hx, ?_⟩
      intro c' hc'
      rcases List.mem_cons.1 hc' with hc1 | hc2
      · subst hc1
        exact hq
      · exact hrest c' hc2
    · rintro ⟨hx, hall⟩
      exact ⟨⟨hx, hall c (List.mem_cons_self c t)⟩,
        fun c' hc' => hall c' (List.mem_cons_of_mem c hc')⟩

theorem foldl_connect_state (l : List (Slot × NodeId)) (src : NodeId) :
    ∀ nd : NodeData S,
      l.foldl (fun m c =>
        if c.2 == src then { m with state := m.connect m.state none c.1 } else m) nd =
      { nd with state := l.foldl (fun st c => if c.2 == src then nd.connect st none c.1 else st) nd.state } := by
  induction l with
  | nil => intro nd; rfl
  | cons c t ih =>
    intro nd
    rw [List.foldl_cons, List.foldl_cons]
    by_cases h : c.2 == src
    · rw [if_pos h, if_pos h, ih]
    · rw [if_neg h, if_neg h, ih]

theorem alistFind_filter_ne (l : List (NodeId × α)) (k j : NodeId)
    (h : ¬ j = k) :
    alistFind (l.filter (fun e => !(e.1 == k))) j = alistFind l j := by
  induction l with
  | nil => rfl
  | cons e t ih =>
    have hkj : ¬ k = j := fun hx => h hx.symm
    by_cases hek : e.1 = k
    · have hej : ¬ e.1 = j := by rw [hek]; exact hkj
      simp [List.filter_cons, hek, alistFind, hej, hkj, h, ih]
    · by_cases hej : e.1 = j
      · simp [List.filter_cons, hek, alistFind, hej, hkj, h]
      · simp [List.filter_cons, hek, alistFind, hej, hkj, h, ih]

theorem alistFind_filter_self (l : List (NodeId × α)) (k : NodeId) :
    alistFind (l.filter (fun e => !(e.1 == k))) k = none := by
  induction l with
  | nil => rfl
  | cons e t ih =>
    by_cases hek : e.1 = k
    · simp [List.filter_cons, hek, ih]
    · simp [List.filter_cons, hek, alistFind, ih]

/-!
## Claim C10: erase_node versus disconnect
-/

theorem nodes_keys_nodup {p : Pipeline S} (hwf : Wf p) :
    (p.nodes.map Prod.fst).Nodup := by
  exact hwf.1.imp (fun hab => ne_of_lt hab)

/-- Claim C10: a successful `erase_node(idE)` removes the registry's
connection entry for each downstream slot fed by `idE` but never invokes
the downstream node's `connect` callback — the downstream node's user
state (hence its internally stored upstream binding) is untouched; whereas
`disconnect(idE, d)` folds `connect(null, s)` over exactly the slots of `d`
fed by `idE` before removing the mappings. -/
theorem claim10_erase_vs_disconnect (p : Pipeline S) (idE d : NodeId)
    (slot : Slot) (hwf : Wf p) (hne : ¬ d = idE)
    (hconn : (slot, idE) ∈ connsOf p d)
    (hliveE : liveId p idE) (hlived : liveId p d) :
    ((erase_node p idE).1 = none ∧
      stateOf (erase_node p idE).2 d = stateOf p d ∧
      (∀ u, (slot, u) ∉ connsOf (erase_node p idE).2 d) ∧
      liveId (erase_node p idE).2 d) ∧
    ((disconnect p idE d).1 = none ∧
      stateOf (disconnect p idE d).2 d =
        (get_node p d).map (fun nd => nd.connections.foldl
          (fun st it => if it.2 == idE then nd.connect st none it.1 else st)
          nd.state)) := by
  obtain ⟨ndE, hE⟩ := Option.isSome_iff_exists.1 hliveE
  obtain ⟨ndd, hd⟩ := Option.isSome_iff_exists.1 hlived
  have hconn' : (slot, idE) ∈ ndd.connections := by
    rw [connsOf, hd] at hconn
    simpa using hconn
  have hmem_d : (d, ndd) ∈ p.nodes := get_node_mem hd
  have hmirror : (d, slot) ∈ ndE.dependencies := by
    have h4 := hwf.2.2.2.1 (d, ndd) hmem_d (slot, idE) hconn'
    rw [hE] at h4
    have hcount : ndE.dependencies.count (d, slot) = 1 := by
      simpa using h4
    exact List.count_pos_iff.1 (by rw [hcount]; exact Nat.one_pos)
  -- stage 1 of erase: scrub idE from the dependency lists of its upstreams
  set p1 := ndE.connections.foldl
      (fun acc c => updateNode acc c.2 (fun nd =>
        { nd with dependencies := nd.dependencies.filter (fun it => !(it.1 == idE)) })) p
    with hp1def
  have hgn1 : ∀ j, get_node p1 j = (get_node p j).map (fun nd =>
      { nd with dependencies := ((ndE.connections.filter (fun c => c.2 = j)).foldl (fun ds c => ds.filter (fun it => !(it.1 == idE))) nd.dependencies) }) := by
    intro j
    rw [hp1def, get_node_foldl_update]
    cases get_node p j with
    | none => rfl
    | some nd =>
      simp only [Option.map_some']
      rw [foldl_filter_deps]
  set deps1 := ((get_node p1 idE).map (·.dependencies)).getD [] with hdeps1def
  have hdeps1mem : (d, slot) ∈ deps1 := by
    rw [hdeps1def, hgn1, hE]
    simp only [Option.map_some', Option.getD_some]
    rw [mem_foldl_filter]
    refine ⟨hmirror, fun c _ => ?_⟩
    simp [hne]
  -- stage 2 of erase: erase the slots fed by idE from downstream nodes
  set p2 := deps1.foldl
      (fun acc dd => updateNode acc dd.1 (fun nd =>
        { nd with connections := nd.connections.filter (fun it => !(it.1 == dd.2)) })) p1
    with hp2def
  have hgn2 : ∀ j, get_node p2 j = (get_node p1 j).map (fun nd =>
      { nd with connections := ((deps1.filter (fun dd => dd.1 = j)).foldl (fun cs dd => cs.filter (fun it => !(it.1 == dd.2))) nd.connections) }) := by
    intro j
    rw [hp2def, get_node_foldl_update]
    cases get_node p1 j with
    | none => rfl
    | some nd =>
      simp only [Option.map_some']
      rw [foldl_filter_conns]
  have hunfold : erase_node p idE =
      (none, { p2 with nodes := p2.nodes.filter (fun e => !(e.1 == idE)) }) := by
    rw [hp2def, hdeps1def, hp1def]
    simp only [erase_node, hE]
  have hfinal : get_node (erase_node p idE).2 d = get_node p2 d := by
    rw [hunfold]
    exact alistFind_filter_ne p2.nodes idE d hne
  have hp2d : get_node p2 d = some
      ({ ndd with dependencies := ((ndE.connections.filter (fun c => c.2 = d)).foldl (fun ds c => ds.filter (fun it => !(it.1 == idE))) ndd.dependencies), connections := ((deps1.filter (fun dd => dd.1 = d)).foldl (fun cs dd => cs.filter (fun it => !(it.1 == dd.2))) ndd.connections) }) := by
    rw [hgn2, hgn1, hd]
    rfl
  constructor
  · refine ⟨by rw [hunfold], ?_, ?_, ?_⟩
    · rw [stateOf, stateOf, hfinal, hp2d, hd]
      rfl
    · intro u hu
      rw [connsOf, hfinal, hp2d] at hu
      simp only [Option.map_some', Option.getD_some] at hu
      rw [mem_foldl_filter] at hu
      have hdd : (d, slot) ∈ deps1.filter (fun dd => dd.1 = d) := by
        rw [List.mem_filter]
        exact ⟨hdeps1mem, by simp⟩
      have := hu.2 (d, slot) hdd
      simp at this
    · rw [liveId, hfinal, hp2d]
      rfl
  · -- the disconnect contrast
    have hbody : ∀ (acc : Pipeline S) (c : Slot × NodeId), c ∈ ndd.connections →
        (if c.2 == idE then
          updateNode acc d (fun nd => { nd with state := nd.connect nd.state none c.1 })
        else acc) =
        updateNode acc d (fun nd =>
          if c.2 == idE then { nd with state := nd.connect nd.state none c.1 } else nd) := by
      intro acc c _
      by_cases h : c.2 == idE
      · rw [if_pos h]
        exact congrArg (updateNode acc d) (funext (fun nd => (if_pos h).symm))
      · rw [if_neg h]
        have : (fun nd : NodeData S =>
            if c.2 == idE then { nd with state := nd.connect nd.state none c.1 } else nd) =
            (fun nd => nd) := funext (fun nd => if_neg h)
        rw [this, updateNode_id]
    have hfold1 : ndd.connections.foldl
        (fun acc c => if c.2 == idE then
          updateNode acc d (fun nd => { nd with state := nd.connect nd.state none c.1 })
        else acc) p =
        ndd.connections.foldl
        (fun acc c => updateNode acc d (fun nd =>
          if c.2 == idE then { nd with state := nd.connect nd.state none c.1 } else nd)) p := by
      refine foldl_ext _ _ ndd.connections (fun b a ha => hbody b a ha) p
    have hdis : disconnect p idE d =
        (none,
          updateNode
            (updateNode
              (ndd.connections.foldl
                (fun acc c => if c.2 == idE then
                  updateNode acc d (fun nd =>
                    { nd with state := nd.connect nd.state none c.1 })
                else acc) p)
              d (fun nd =>
                { nd with connections := nd.connections.filter (fun it => !(it.2 == idE)) }))
            idE (fun nd =>
              { nd with dependencies := nd.dependencies.filter (fun it => !(it.1 == d)) })) := by
      simp only [disconnect, hE, hd]
    refine ⟨by rw [hdis], ?_⟩
    rw [hdis]
    have hstate1 : get_node (ndd.connections.foldl
        (fun acc c => if c.2 == idE then
          updateNode acc d (fun nd => { nd with state := nd.connect nd.state none c.1 })
        else acc) p) d = some
        ({ ndd with state := (ndd.connections.foldl (fun st c => if c.2 == idE then ndd.connect st none c.1 else st) ndd.state) }) := by
      rw [hfold1, get_node_foldl_update, hd]
      have hfil : ndd.connections.filter (fun c => d = d) = ndd.connections := by
        simp
      rw [hfil]
      simp only [Option.map_some']
      rw [foldl_connect_state]
    rw [stateOf]
    rw [get_node_updateNode]
    rw [if_neg hne]
    rw [get_node_updateNode]
    rw [if_pos rfl]
    rw [hstate1, hd]
    rfl

theorem claim10_witness :
    ((erase_node s1Pipeline 1).1 = none ∧
      stateOf (erase_node s1Pipeline 1).2 3 = stateOf s1Pipeline 3 ∧
      (∀ u, ((0 : Slot), u) ∉ connsOf (erase_node s1Pipeline 1).2 3) ∧
      liveId (erase_node s1Pipeline 1).2 3) ∧
    ((disconnect s1Pipeline 1 3).1 = none ∧
      stateOf (disconnect s1Pipeline 1 3).2 3 =
        (get_node s1Pipeline 3).map (fun nd => nd.connections.foldl
          (fun st it => if it.2 == (1 : NodeId) then nd.connect st none it.1 else st)
          nd.state)) :=
  claim10_erase_vs_disconnect s1Pipeline 1 3 0 (by decide) (by decide) (by decide)
    (by decide) (by decide)

/-!
## Claim C6: the registry invariant is maintained by the editing interface

We show each of the four editing operations maps a well-formed registry to
a well-formed registry, hence preserves the bidirectional mirror property.
-/

theorem mapEmplace_append {l : List (NodeId × α)} {k : NodeId} {v : α}
    (h : ∀ i ∈ l.map Prod.fst, i < k) : mapEmplace l k v = l ++ [(k, v)] := by
  induction l with
  | nil => rfl
  | cons e t ih =>
    have he : e.1 < k := h e.1 (by simp)
    have hn1 : ¬ k < e.1 := not_lt.2 he.le
    have hn2 : ¬ k = e.1 := fun hk => by rw [hk] at he; exact lt_irrefl e.1 he
    simp only [mapEmplace]
    rw [if_neg hn1, if_neg hn2, ih (fun i hi => h i (by simp [hi]))]
    rfl

theorem foldl_updateNode_keys (l : List γ) (g : γ → NodeId)
    (F : γ → NodeData S → NodeData S) (p : Pipeline S) :
    (l.foldl (fun acc c => updateNode acc (g c) (F c)) p).nodes.map Prod.fst =
      p.nodes.map Prod.fst := by
  induction l generalizing p with
  | nil => rfl
  | cons c t ih => rw [List.foldl_cons, ih, updateNode_keys]

theorem foldl_updateNode_current_id (l : List γ) (g : γ → NodeId)
    (F : γ → NodeData S → NodeData S) (p : Pipeline S) :
    (l.foldl (fun acc c => updateNode acc (g c) (F c)) p).current_id =
      p.current_id := by
  induction l generalizing p with
  | nil => rfl
  | cons c t ih => rw [List.foldl_cons, ih, updateNode_current_id]

theorem foldl_filter_sublist (l : List γ) (q : γ → α → Bool) :
    ∀ xs : List α,
      List.Sublist (l.foldl (fun cs c => cs.filter (q c)) xs) xs := by
  induction l with
  | nil => intro xs; exact List.Sublist.refl xs
  | cons c t ih =>
    intro xs
    rw [List.foldl_cons]
    exact (ih (xs.filter (q c))).trans (List.filter_sublist xs)

theorem count_foldl_filter {α : Type} [BEq α] [LawfulBEq α] (l : List γ)
    (q : γ → α → Bool) (a : α) (h : ∀ c ∈ l, q c a = true) :
    ∀ xs : List α,
      (l.foldl (fun cs c => cs.filter (q c)) xs).count a = xs.count a := by
  induction l with
  | nil => intro xs; rfl
  | cons c t ih =>
    intro xs
    rw [List.foldl_cons, ih (fun x hx => h x (List.mem_cons_of_mem c hx)),
      List.count_filter (h c (List.mem_cons_self c t))]

theorem mem_unique_of_keys_nodup {l : List (NodeId × α)} {k : NodeId} {a b : α}
    (hnd : (l.map Prod.fst).Nodup) (ha : (k, a) ∈ l) (hb : (k, b) ∈ l) :
    a = b := by
  have h1 := alistFind_of_mem hnd ha
  have h2 := alistFind_of_mem hnd hb
  rw [h1] at h2
  exact Option.some_inj.1 h2

theorem mirror_of_wf {p : Pipeline S} (hwf : Wf p) : MirrorProp p := by
  constructor
  · intro e he c hc
    have h4 := hwf.2.2.2.1 e he c hc
    cases hg : get_node p c.2 with
    | none => rw [hg] at h4; exact absurd h4 (by simp)
    | some u =>
      rw [hg] at h4
      exact ⟨u, rfl, by simpa using h4⟩
  · intro e he d hd
    have h5 := hwf.2.2.2.2 e he d hd
    cases hg : get_node p d.1 with
    | none => rw [hg] at h5; exact absurd h5 (by simp)
    | some nd =>
      rw [hg] at h5
      refine ⟨nd, rfl, of_decide_eq_true ?_⟩
      simpa using h5

theorem wf_create (p : Pipeline S) (nd : NodeData S) (hwf : Wf p) :
    Wf (create_node p nd).2 := by
  have hlt : ∀ i ∈ p.nodes.map Prod.fst, i < p.current_id := by
    intro i hi
    obtain ⟨e, he, rfl⟩ := List.mem_map.1 hi
    exact hwf.2.1 e he
  have hN : (create_node p nd).2.nodes =
      p.nodes ++ [(p.current_id,
        { nd with connections := [], dependencies := [] })] :=
    mapEmplace_append hlt
  have hcur : (create_node p nd).2.current_id = p.current_id + 1 := rfl
  refine ⟨?_, ?_, ?_, ?_, ?_⟩
  · rw [hN, List.map_append, List.pairwise_append]
    refine ⟨hwf.1, List.pairwise_singleton _ _, ?_⟩
    intro a ha b hb
    have hb' : b = p.current_id := by simpa using hb
    subst hb'
    exact hlt a ha
  · intro e he
    rw [hcur]
    rw [hN] at he
    rcases List.mem_append.1 he with h1 | h2
    · exact lt_trans (hwf.2.1 e h1) (lt_add_one _)
    · have he1 : e.1 = p.current_id := by
        rcases List.mem_singleton.1 h2 with rfl
        rfl
      rw [he1]
      exact lt_add_one _
  · intro e he
    rw [hN] at he
    rcases List.mem_append.1 he with h1 | h2
    · exact hwf.2.2.1 e h1
    · rcases List.mem_singleton.1 h2 with rfl
      simp
  · intro e he c hc
    rw [hN] at he
    rcases List.mem_append.1 he with h1 | h2
    · have h4 := hwf.2.2.2.1 e h1 c hc
      cases hg : get_node p c.2 with
      | none => rw [hg] at h4; exact absurd h4 (by simp)
      | some u =>
        rw [hg] at h4
        have hq : get_node (create_node p nd).2 c.2 = some u := by
          show alistFind (create_node p nd).2.nodes c.2 = some u
          rw [hN]
          exact alistFind_append_left hg
        rw [hq]
        exact h4
    · rcases List.mem_singleton.1 h2 with rfl
      simp at hc
  · intro e he d hd
    rw [hN] at he
    rcases List.mem_append.1 he with h1 | h2
    · have h5 := hwf.2.2.2.2 e h1 d hd
      cases hg : get_node p d.1 with
      | none => rw [hg] at h5; exact absurd h5 (by simp)
      | some m =>
        rw [hg] at h5
        have hq : get_node (create_node p nd).2 d.1 = some m := by
          show alistFind (create_node p nd).2.nodes d.1 = some m
          rw [hN]
          exact alistFind_append_left hg
        rw [hq]
        exact h5
    · rcases List.mem_singleton.1 h2 with rfl
      simp at hd

theorem wf_connect_success (p : Pipeline S) (src dst : NodeId) (slot : Slot)
    (sn dn : NodeData S) (hwf : Wf p)
    (hs : get_node p src = some sn) (hd : get_node p dst = some dn)
    (h1 : slot ∉ dn.connections.map Prod.fst) :
    Wf (updateNode (updateNode (updateNode p dst
      (fun nd => { nd with state := nd.connect nd.state (some src) slot })) dst
      (fun nd => { nd with connections := nd.connections ++ [(slot, src)] })) src
      (fun nd => { nd with dependencies := nd.dependencies ++ [(dst, slot)] })) := by
  have hnodup : (p.nodes.map Prod.fst).Nodup := nodes_keys_nodup hwf
  set q := updateNode (updateNode (updateNode p dst
      (fun nd => { nd with state := nd.connect nd.state (some src) slot })) dst
      (fun nd => { nd with connections := nd.connections ++ [(slot, src)] })) src
      (fun nd => { nd with dependencies := nd.dependencies ++ [(dst, slot)] })
    with hqdef
  have hkeys : q.nodes.map Prod.fst = p.nodes.map Prod.fst := by
    rw [hqdef, updateNode_keys, updateNode_keys, updateNode_keys]
  have hcur : q.current_id = p.current_id := rfl
  have hchar : ∀ j, get_node q j = (get_node p j).map (fun m =>
      { m with
        state := if j = dst then m.connect m.state (some src) slot else m.state,
        connections := m.connections ++ (if j = dst then [(slot, src)] else []),
        dependencies := m.dependencies ++ (if j = src then [(dst, slot)] else []) }) := by
    intro j
    rw [hqdef]
    simp only [get_node_updateNode]
    by_cases hjs : j = src <;> by_cases hjd : j = dst
    · subst hjs
      subst hjd
      cases get_node p j <;> simp [Function.comp]
    · subst hjs
      cases get_node p j <;> simp [hjd, Function.comp]
    · subst hjd
      have hsj : ¬ src = j := fun h => hjs h.symm
      cases get_node p j <;> simp [hjs, hsj, Function.comp]
    · cases get_node p j <;> simp [hjs, hjd, Function.comp]
  have hnodupq : (q.nodes.map Prod.fst).Nodup := by rw [hkeys]; exact hnodup
  refine ⟨?_, ?_, ?_, ?_, ?_⟩
  · rw [hkeys]; exact hwf.1
  · intro e he
    have hk : e.1 ∈ q.nodes.map Prod.fst := List.mem_map.2 ⟨e, he, rfl⟩
    rw [hkeys] at hk
    obtain ⟨e', he', heq⟩ := List.mem_map.1 hk
    rw [hcur, ← heq]
    exact hwf.2.1 e' he'
  · intro e he
    have hgq : get_node q e.1 = some e.2 := get_node_of_mem hnodupq he
    rw [hchar] at hgq
    obtain ⟨nd, hnd, hrec⟩ := Option.map_eq_some'.1 hgq
    have hmem : (e.1, nd) ∈ p.nodes := get_node_mem hnd
    have hconns : e.2.connections =
        nd.connections ++ (if e.1 = dst then [(slot, src)] else []) := by
      rw [← hrec]
    by_cases hjd : e.1 = dst
    · have hnddn : nd = dn := by
        rw [hjd] at hnd
        rw [hnd] at hd
        exact Option.some_inj.1 hd
      rw [hconns, if_pos hjd, List.map_append, List.nodup_append]
      refine ⟨hwf.2.2.1 (e.1, nd) hmem, by simp, ?_⟩
      intro a ha hb
      have hb' : a = slot := by simpa using hb
      subst hb'
      rw [hnddn] at ha
      exact h1 ha
    · rw [hconns, if_neg hjd, List.append_nil]
      exact hwf.2.2.1 (e.1, nd) hmem
  · intro e he c hc
    have hgq : get_node q e.1 = some e.2 := get_node_of_mem hnodupq he
    rw [hchar] at hgq
    obtain ⟨nd, hnd, hrec⟩ := Option.map_eq_some'.1 hgq
    have hmem : (e.1, nd) ∈ p.nodes := get_node_mem hnd
    have hconns : e.2.connections =
        nd.connections ++ (if e.1 = dst then [(slot, src)] else []) := by
      rw [← hrec]
    rw [hconns] at hc
    rcases List.mem_append.1 hc with hcold | hcnew
    · have h4 := hwf.2.2.2.1 (e.1, nd) hmem c hcold
      cases hg : get_node p c.2 with
      | none => rw [hg] at h4; exact absurd h4 (by simp)
      | some u =>
        rw [hg, Option.map_some'] at h4
        have hcount : u.dependencies.count (e.1, c.1) = 1 := Option.some_inj.1 h4
        rw [hchar, hg]
        show some ((u.dependencies ++
            (if c.2 = src then [(dst, slot)] else [])).count (e.1, c.1)) = some 1
        by_cases hcs : c.2 = src
        · rw [if_pos hcs, List.count_append]
          have hne : ¬ ((e.1, c.1) : NodeId × Slot) = (dst, slot) := by
            intro hco
            have hd1 : e.1 = dst := congrArg Prod.fst hco
            have hd2 : c.1 = slot := congrArg Prod.snd hco
            have hnddn : nd = dn := by
              rw [hd1] at hnd
              rw [hnd] at hd
              exact Option.some_inj.1 hd
            apply h1
            refine List.mem_map.2 ⟨c, ?_, hd2⟩
            rw [← hnddn]
            exact hcold
          have hz : List.count ((e.1, c.1) : NodeId × Slot) [(dst, slot)] = 0 :=
            List.count_eq_zero.2 (by simpa using hne)
          rw [hcount, hz]
        · rw [if_neg hcs, List.append_nil, hcount]
    · by_cases hjd : e.1 = dst
      case neg => rw [if_neg hjd] at hcnew; simp at hcnew
      rw [if_pos hjd] at hcnew
      have hc' : c = (slot, src) := by simpa using hcnew
      subst hc'
      rw [hchar, hs]
      show some ((sn.dependencies ++
          (if src = src then [(dst, slot)] else [])).count (e.1, slot)) = some 1
      rw [hjd, if_pos rfl, List.count_append]
      have hz : sn.dependencies.count ((dst, slot) : NodeId × Slot) = 0 := by
        rw [List.count_eq_zero]
        intro hmem'
        have h5 := hwf.2.2.2.2 (src, sn) (get_node_mem hs) (dst, slot) hmem'
        rw [hd, Option.map_some'] at h5
        have hsc : ((slot, src) : Slot × NodeId) ∈ dn.connections :=
          of_decide_eq_true (Option.some_inj.1 h5)
        exact h1 (List.mem_map.2 ⟨(slot, src), hsc, rfl⟩)
      rw [hz]
      simp [List.count_cons]
  · intro e he d hdep
    have hgq : get_node q e.1 = some e.2 := get_node_of_mem hnodupq he
    rw [hchar] at hgq
    obtain ⟨nd, hnd, hrec⟩ := Option.map_eq_some'.1 hgq
    have hmem : (e.1, nd) ∈ p.nodes := get_node_mem hnd
    have hdeps : e.2.dependencies =
        nd.dependencies ++ (if e.1 = src then [(dst, slot)] else []) := by
      rw [← hrec]
    rw [hdeps] at hdep
    rcases List.mem_append.1 hdep with hold | hnew
    · have h5 := hwf.2.2.2.2 (e.1, nd) hmem d hold
      cases hg : get_node p d.1 with
      | none => rw [hg] at h5; exact absurd h5 (by simp)
      | some m =>
        rw [hg, Option.map_some'] at h5
        have hm : (d.2, e.1) ∈ m.connections := of_decide_eq_true (Option.some_inj.1 h5)
        rw [hchar, hg]
        show some (decide ((d.2, e.1) ∈ m.connections ++
            (if d.1 = dst then [(slot, src)] else []))) = some true
        rw [Option.some_inj, decide_eq_true_eq]
        exact List.mem_append_left _ hm
    · by_cases hjs : e.1 = src
      case neg => rw [if_neg hjs] at hnew; simp at hnew
      rw [if_pos hjs] at hnew
      have hd' : d = (dst, slot) := by simpa using hnew
      subst hd'
      rw [hchar, hd]
      show some (decide ((slot, e.1) ∈ dn.connections ++
          (if dst = dst then [(slot, src)] else []))) = some true
      rw [if_pos rfl, Option.some_inj, decide_eq_true_eq, hjs]
      exact List.mem_append_right _ (by simp)

theorem wf_connect (p : Pipeline S) (src dst : NodeId) (slot : Slot)
    (hwf : Wf p) : Wf (connect p src dst slot).2 := by
  unfold connect
  cases hs : get_node p src with
  | none => exact hwf
  | some sn =>
  cases hd : get_node p dst with
  | none => exact hwf
  | some dn =>
  show Wf ((if (dn.connections.find? (fun it => it.1 == slot)).isSome = true then
      (some PipelineErrorKind.slot_already_used, p)
    else if slot < 0 ∨ (dn.input_types.length : Int) ≤ slot then
      (some PipelineErrorKind.no_such_slot, p)
    else if dn.input_types.getD slot.toNat Ty.void ≠ sn.output_type then
      (some PipelineErrorKind.connection_type_mismatch, p)
    else (none, updateNode (updateNode (updateNode p dst
      (fun nd => { nd with state := nd.connect nd.state (some src) slot })) dst
      (fun nd => { nd with connections := nd.connections ++ [(slot, src)] })) src
      (fun nd => { nd with dependencies := nd.dependencies ++ [(dst, slot)] }))).2)
  by_cases h1 : (dn.connections.find? (fun it => it.1 == slot)).isSome = true
  · rw [if_pos h1]; exact hwf
  rw [if_neg h1]
  by_cases h2 : slot < 0 ∨ (dn.input_types.length : Int) ≤ slot
  · rw [if_pos h2]; exact hwf
  rw [if_neg h2]
  by_cases h3 : dn.input_types.getD slot.toNat Ty.void ≠ sn.output_type
  · rw [if_pos h3]; exact hwf
  rw [if_neg h3]
  exact wf_connect_success p src dst slot sn dn hwf hs hd
    (fun hmem => h1 ((find_slot_isSome_iff dn.connections slot).2 hmem))

theorem wf_disconnect_success (p : Pipeline S) (src dst : NodeId)
    (dn : NodeData S) (hwf : Wf p) (hd : get_node p dst = some dn) :
    Wf (updateNode (updateNode
      (dn.connections.foldl (fun acc c =>
        if c.2 == src then
          updateNode acc dst (fun nd => { nd with state := nd.connect nd.state none c.1 })
        else acc) p)
      dst (fun nd =>
        { nd with connections := nd.connections.filter (fun it => !(it.2 == src)) }))
      src (fun nd =>
        { nd with dependencies := nd.dependencies.filter (fun it => !(it.1 == dst)) })) := by
  have hnodup : (p.nodes.map Prod.fst).Nodup := nodes_keys_nodup hwf
  have hfold1 : dn.connections.foldl (fun acc c =>
      if c.2 == src then
        updateNode acc dst (fun nd => { nd with state := nd.connect nd.state none c.1 })
      else acc) p =
    dn.connections.foldl (fun acc c => updateNode acc dst (fun nd =>
      if c.2 == src then { nd with state := nd.connect nd.state none c.1 } else nd)) p := by
    refine foldl_ext _ _ dn.connections (fun b a ha => ?_) p
    by_cases h : a.2 == src
    · rw [if_pos h]
      exact congrArg (updateNode b dst) (funext (fun nd => (if_pos h).symm))
    · rw [if_neg h]
      have hid : (fun nd : NodeData S =>
          if a.2 == src then { nd with state := nd.connect nd.state none a.1 } else nd) =
          (fun nd => nd) := funext (fun nd => if_neg h)
      rw [hid, updateNode_id]
  set q := updateNode (updateNode
      (dn.connections.foldl (fun acc c =>
        if c.2 == src then
          updateNode acc dst (fun nd => { nd with state := nd.connect nd.state none c.1 })
        else acc) p)
      dst (fun nd =>
        { nd with connections := nd.connections.filter (fun it => !(it.2 == src)) }))
      src (fun nd =>
        { nd with dependencies := nd.dependencies.filter (fun it => !(it.1 == dst)) })
    with hqdef
  have hkeys : q.nodes.map Prod.fst = p.nodes.map Prod.fst := by
    rw [hqdef, updateNode_keys, updateNode_keys, hfold1]
    exact foldl_updateNode_keys dn.connections (fun _ => dst) _ p
  have hcur : q.current_id = p.current_id := by
    rw [hqdef, updateNode_current_id, updateNode_current_id, hfold1]
    exact foldl_updateNode_current_id dn.connections (fun _ => dst) _ p
  have hchar : ∀ j, get_node q j = (get_node p j).map (fun m =>
      { m with
        state := if j = dst then dn.connections.foldl
          (fun st c => if c.2 == src then m.connect st none c.1 else st) m.state else m.state,
        connections := if j = dst then
          m.connections.filter (fun it => !(it.2 == src)) else m.connections,
        dependencies := if j = src then
          m.dependencies.filter (fun it => !(it.1 == dst)) else m.dependencies }) := by
    intro j
    rw [hqdef, hfold1]
    simp only [get_node_updateNode, get_node_foldl_update]
    by_cases hjs : j = src <;> by_cases hjd : j = dst
    · subst hjs
      subst hjd
      cases get_node p j with
      | none => simp
      | some nd =>
        simp only [Option.map_some']
        rw [foldl_connect_state]
        simp
    · subst hjs
      have hdj : ¬ dst = j := fun h => hjd h.symm
      cases get_node p j <;> simp [hjd, hdj]
    · subst hjd
      cases get_node p j with
      | none => simp [hjs]
      | some nd =>
        simp only [Option.map_some']
        rw [foldl_connect_state]
        simp [hjs]
    · have hdj : ¬ dst = j := fun h => hjd h.symm
      cases get_node p j <;> simp [hjs, hjd, hdj]
  have hnodupq : (q.nodes.map Prod.fst).Nodup := by rw [hkeys]; exact hnodup
  refine ⟨?_, ?_, ?_, ?_, ?_⟩
  · rw [hkeys]; exact hwf.1
  · intro e he
    have hk : e.1 ∈ q.nodes.map Prod.fst := List.mem_map.2 ⟨e, he, rfl⟩
    rw [hkeys] at hk
    obtain ⟨e', he', heq⟩ := List.mem_map.1 hk
    rw [hcur, ← heq]
    exact hwf.2.1 e' he'
  · intro e he
    have hgq : get_node q e.1 = some e.2 := get_node_of_mem hnodupq he
    rw [hchar] at hgq
    obtain ⟨nd, hnd, hrec⟩ := Option.map_eq_some'.1 hgq
    have hmem : (e.1, nd) ∈ p.nodes := get_node_mem hnd
    have hconns : e.2.connections = (if e.1 = dst then
        nd.connections.filter (fun it => !(it.2 == src)) else nd.connections) := by
      rw [← hrec]
    by_cases hjd : e.1 = dst
    · rw [hconns, if_pos hjd]
      exact List.Nodup.sublist ((List.filter_sublist nd.connections).map Prod.fst)
        (hwf.2.2.1 (e.1, nd) hmem)
    · rw [hconns, if_neg hjd]
      exact hwf.2.2.1 (e.1, nd) hmem
  · intro e he c hc
    have hgq : get_node q e.1 = some e.2 := get_node_of_mem hnodupq he
    rw [hchar] at hgq
    obtain ⟨nd, hnd, hrec⟩ := Option.map_eq_some'.1 hgq
    have hmem : (e.1, nd) ∈ p.nodes := get_node_mem hnd
    have hconns : e.2.connections = (if e.1 = dst then
        nd.connections.filter (fun it => !(it.2 == src)) else nd.connections) := by
      rw [← hrec]
    rw [hconns] at hc
    have hsplit : c ∈ nd.connections ∧ (e.1 = dst → ¬ c.2 = src) := by
      by_cases hjd : e.1 = dst
      · rw [if_pos hjd] at hc
        obtain ⟨hc1, hc2⟩ := List.mem_filter.1 hc
        exact ⟨hc1, fun _ => by simpa using hc2⟩
      · rw [if_neg hjd] at hc
        exact ⟨hc, fun h => absurd h hjd⟩
    have h4 := hwf.2.2.2.1 (e.1, nd) hmem c hsplit.1
    cases hg : get_node p c.2 with
    | none => rw [hg] at h4; exact absurd h4 (by simp)
    | some u =>
      rw [hg, Option.map_some'] at h4
      have hcount : u.dependencies.count (e.1, c.1) = 1 := Option.some_inj.1 h4
      rw [hchar, hg]
      show some ((if c.2 = src then
          u.dependencies.filter (fun it => !(it.1 == dst)) else u.dependencies).count
          (e.1, c.1)) = some 1
      by_cases hcs : c.2 = src
      · rw [if_pos hcs]
        have hed : ¬ e.1 = dst := fun hjd => hsplit.2 hjd hcs
        rw [List.count_filter (by simpa using hed), hcount]
      · rw [if_neg hcs, hcount]
  · intro e he d hdep
    have hgq : get_node q e.1 = some e.2 := get_node_of_mem hnodupq he
    rw [hchar] at hgq
    obtain ⟨nd, hnd, hrec⟩ := Option.map_eq_some'.1 hgq
    have hmem : (e.1, nd) ∈ p.nodes := get_node_mem hnd
    have hdeps : e.2.dependencies = (if e.1 = src then
        nd.dependencies.filter (fun it => !(it.1 == dst)) else nd.dependencies) := by
      rw [← hrec]
    rw [hdeps] at hdep
    have hsplit : d ∈ nd.dependencies ∧ (e.1 = src → ¬ d.1 = dst) := by
      by_cases hjs : e.1 = src
      · rw [if_pos hjs] at hdep
        obtain ⟨hd1, hd2⟩ := List.mem_filter.1 hdep
        exact ⟨hd1, fun _ => by simpa using hd2⟩
      · rw [if_neg hjs] at hdep
        exact ⟨hdep, fun h => absurd h hjs⟩
    have h5 := hwf.2.2.2.2 (e.1, nd) hmem d hsplit.1
    cases hg : get_node p d.1 with
    | none => rw [hg] at h5; exact absurd h5 (by simp)
    | some m =>
      rw [hg, Option.map_some'] at h5
      have hm : (d.2, e.1) ∈ m.connections := of_decide_eq_true (Option.some_inj.1 h5)
      rw [hchar, hg]
      show some (decide ((d.2, e.1) ∈ (if d.1 = dst then
          m.connections.filter (fun it => !(it.2 == src)) else m.connections))) = some true
      rw [Option.some_inj, decide_eq_true_eq]
      by_cases hdd : d.1 = dst
      · rw [if_pos hdd]
        have hes : ¬ e.1 = src := fun hjs => hsplit.2 hjs hdd
        exact List.mem_filter.2 ⟨hm, by simpa using hes⟩
      · rw [if_neg hdd]
        exact hm

theorem wf_disconnect (p : Pipeline S) (src dst : NodeId) (hwf : Wf p) :
    Wf (disconnect p src dst).2 := by
  unfold disconnect
  cases hs : get_node p src with
  | none => exact hwf
  | some sn =>
  cases hd : get_node p dst with
  | none => exact hwf
  | some dn =>
  exact wf_disconnect_success p src dst dn hwf hd

theorem wf_erase (p : Pipeline S) (idE : NodeId) (hwf : Wf p) :
    Wf (erase_node p idE).2 := by
  have hnodup : (p.nodes.map Prod.fst).Nodup := nodes_keys_nodup hwf
  cases hE : get_node p idE with
  | none =>
    have hq : (erase_node p idE).2 = p := by simp only [erase_node, hE]
    rw [hq]
    exact hwf
  | some ndE =>
  have hmemE : (idE, ndE) ∈ p.nodes := get_node_mem hE
  set p1 := ndE.connections.foldl
      (fun acc c => updateNode acc c.2 (fun nd =>
        { nd with dependencies := nd.dependencies.filter (fun it => !(it.1 == idE)) })) p
    with hp1def
  have hgn1 : ∀ j, get_node p1 j = (get_node p j).map (fun nd =>
      { nd with dependencies := ((ndE.connections.filter (fun c => c.2 = j)).foldl (fun ds c => ds.filter (fun it => !(it.1 == idE))) nd.dependencies) }) := by
    intro j
    rw [hp1def, get_node_foldl_update]
    cases get_node p j with
    | none => rfl
    | some nd =>
      simp only [Option.map_some']
      rw [foldl_filter_deps]
  set deps1 := ((get_node p1 idE).map (·.dependencies)).getD [] with hdeps1def
  set p2 := deps1.foldl
      (fun acc dd => updateNode acc dd.1 (fun nd =>
        { nd with connections := nd.connections.filter (fun it => !(it.1 == dd.2)) })) p1
    with hp2def
  have hgn2 : ∀ j, get_node p2 j = (get_node p1 j).map (fun nd =>
      { nd with connections := ((deps1.filter (fun dd => dd.1 = j)).foldl (fun cs dd => cs.filter (fun it => !(it.1 == dd.2))) nd.connections) }) := by
    intro j
    rw [hp2def, get_node_foldl_update]
    cases get_node p1 j with
    | none => rfl
    | some nd =>
      simp only [Option.map_some']
      rw [foldl_filter_conns]
  have hunfold : erase_node p idE =
      (none, { p2 with nodes := p2.nodes.filter (fun e => !(e.1 == idE)) }) := by
    rw [hp2def, hdeps1def, hp1def]
    simp only [erase_node, hE]
  have hchar : ∀ j, get_node p2 j = (get_node p j).map (fun nd =>
      { nd with
        dependencies := ((ndE.connections.filter (fun c => c.2 = j)).foldl (fun ds c => ds.filter (fun it => !(it.1 == idE))) nd.dependencies),
        connections := ((deps1.filter (fun dd => dd.1 = j)).foldl (fun cs dd => cs.filter (fun it => !(it.1 == dd.2))) nd.connections) }) := by
    intro j
    rw [hgn2, hgn1]
    cases get_node p j with
    | none => rfl
    | some nd => rfl
  have hdeps1eq : deps1 = (ndE.connections.filter (fun c => c.2 = idE)).foldl
      (fun ds c => ds.filter (fun it => !(it.1 == idE))) ndE.dependencies := by
    rw [hdeps1def, hgn1, hE]
    rfl
  have hdeps1sub : ∀ dd ∈ deps1, dd ∈ ndE.dependencies := by
    intro dd hdd
    rw [hdeps1eq] at hdd
    exact ((mem_foldl_filter _ _ _ _).1 hdd).1
  have hdeps1ne : ∀ dd ∈ deps1, ¬ dd.1 = idE := by
    intro dd hdd hcontra
    rw [hdeps1eq] at hdd
    have hdd' := (mem_foldl_filter _ _ _ _).1 hdd
    have h5 := hwf.2.2.2.2 (idE, ndE) hmemE dd hdd'.1
    rw [hcontra, hE, Option.map_some'] at h5
    have hconnmem : (dd.2, idE) ∈ ndE.connections :=
      of_decide_eq_true (Option.some_inj.1 h5)
    have hfl : (dd.2, idE) ∈ ndE.connections.filter (fun c => c.2 = idE) :=
      List.mem_filter.2 ⟨hconnmem, by simp⟩
    have := hdd'.2 _ hfl
    simp [hcontra] at this
  have hkeys1 : p1.nodes.map Prod.fst = p.nodes.map Prod.fst := by
    rw [hp1def]
    exact foldl_updateNode_keys ndE.connections (fun c => c.2) _ p
  have hkeys2 : p2.nodes.map Prod.fst = p.nodes.map Prod.fst := by
    rw [hp2def]
    exact (foldl_updateNode_keys deps1 (fun dd => dd.1) _ p1).trans hkeys1
  have hcur2 : p2.current_id = p.current_id := by
    rw [hp2def]
    have h1 : p1.current_id = p.current_id := by
      rw [hp1def]
      exact foldl_updateNode_current_id ndE.connections (fun c => c.2) _ p
    exact (foldl_updateNode_current_id deps1 (fun dd => dd.1) _ p1).trans h1
  rw [hunfold]
  show Wf { p2 with nodes := p2.nodes.filter (fun e => !(e.1 == idE)) }
  have hqget : ∀ j, ¬ j = idE →
      get_node { p2 with nodes := p2.nodes.filter (fun e => !(e.1 == idE)) } j =
        get_node p2 j := by
    intro j hj
    show alistFind (p2.nodes.filter (fun e => !(e.1 == idE))) j = alistFind p2.nodes j
    exact alistFind_filter_ne p2.nodes idE j hj
  have hnodup2 : (p2.nodes.map Prod.fst).Nodup := by rw [hkeys2]; exact hnodup
  have hsubkeys : List.Sublist
      ((p2.nodes.filter (fun e => !(e.1 == idE))).map Prod.fst)
      (p2.nodes.map Prod.fst) :=
    (List.filter_sublist p2.nodes).map Prod.fst
  refine ⟨?_, ?_, ?_, ?_, ?_⟩
  · show ((p2.nodes.filter (fun e => !(e.1 == idE))).map Prod.fst).Pairwise (fun a b => a < b)
    refine List.Pairwise.sublist hsubkeys ?_
    rw [hkeys2]
    exact hwf.1
  · intro e he
    have he2 : e ∈ p2.nodes := (List.mem_filter.1 he).1
    have hk : e.1 ∈ p2.nodes.map Prod.fst := List.mem_map.2 ⟨e, he2, rfl⟩
    rw [hkeys2] at hk
    obtain ⟨e', he', heq⟩ := List.mem_map.1 hk
    show e.1 < p2.current_id
    rw [hcur2, ← heq]
    exact hwf.2.1 e' he'
  · intro e he
    obtain ⟨he2, heid'⟩ := List.mem_filter.1 he
    have hgq : get_node p2 e.1 = some e.2 := get_node_of_mem hnodup2 he2
    rw [hchar] at hgq
    obtain ⟨nd, hnd, hrec⟩ := Option.map_eq_some'.1 hgq
    have hmem : (e.1, nd) ∈ p.nodes := get_node_mem hnd
    have hconns : e.2.connections = ((deps1.filter (fun dd => dd.1 = e.1)).foldl
        (fun cs dd => cs.filter (fun it => !(it.1 == dd.2))) nd.connections) := by
      rw [← hrec]
    rw [hconns]
    exact List.Nodup.sublist
      ((foldl_filter_sublist _ _ nd.connections).map Prod.fst)
      (hwf.2.2.1 (e.1, nd) hmem)
  · intro e he c hc
    obtain ⟨he2, heid'⟩ := List.mem_filter.1 he
    have heid : ¬ e.1 = idE := by simpa using heid'
    have hgq : get_node p2 e.1 = some e.2 := get_node_of_mem hnodup2 he2
    rw [hchar] at hgq
    obtain ⟨nd, hnd, hrec⟩ := Option.map_eq_some'.1 hgq
    have hmem : (e.1, nd) ∈ p.nodes := get_node_mem hnd
    have hconns : e.2.connections = ((deps1.filter (fun dd => dd.1 = e.1)).foldl
        (fun cs dd => cs.filter (fun it => !(it.1 == dd.2))) nd.connections) := by
      rw [← hrec]
    rw [hconns] at hc
    have hc' := (mem_foldl_filter _ _ _ _).1 hc
    have hcold : c ∈ nd.connections := hc'.1
    have h4 := hwf.2.2.2.1 (e.1, nd) hmem c hcold
    cases hg : get_node p c.2 with
    | none => rw [hg] at h4; exact absurd h4 (by simp)
    | some u =>
    rw [hg, Option.map_some'] at h4
    have hcount : u.dependencies.count (e.1, c.1) = 1 := Option.some_inj.1 h4
    have hcne : ¬ c.2 = idE := by
      intro hcontra
      have hu : u = ndE := by
        rw [hcontra] at hg
        rw [hg] at hE
        exact Option.some_inj.1 hE
      have hmemdep : ((e.1, c.1) : NodeId × Slot) ∈ ndE.dependencies := by
        rw [← hu]
        exact List.count_pos_iff.1 (by rw [hcount]; exact Nat.one_pos)
      have hin1 : ((e.1, c.1) : NodeId × Slot) ∈ deps1 := by
        rw [hdeps1eq]
        refine (mem_foldl_filter _ _ _ _).2 ⟨hmemdep, ?_⟩
        intro c' _
        simpa using heid
      have hinf : ((e.1, c.1) : NodeId × Slot) ∈ deps1.filter (fun dd => dd.1 = e.1) :=
        List.mem_filter.2 ⟨hin1, by simp⟩
      have := hc'.2 _ hinf
      simp at this
    rw [hqget c.2 hcne, hchar, hg, Option.map_some']
    show some (((ndE.connections.filter (fun cc => cc.2 = c.2)).foldl
        (fun ds cc => ds.filter (fun it => !(it.1 == idE))) u.dependencies).count
        (e.1, c.1)) = some 1
    rw [count_foldl_filter _ _ _ (fun cc _ => by simpa using heid) u.dependencies, hcount]
  · intro e he d hdp
    obtain ⟨he2, heid'⟩ := List.mem_filter.1 he
    have heid : ¬ e.1 = idE := by simpa using heid'
    have hgq : get_node p2 e.1 = some e.2 := get_node_of_mem hnodup2 he2
    rw [hchar] at hgq
    obtain ⟨nd, hnd, hrec⟩ := Option.map_eq_some'.1 hgq
    have hmem : (e.1, nd) ∈ p.nodes := get_node_mem hnd
    have hdeps : e.2.dependencies = ((ndE.connections.filter (fun c => c.2 = e.1)).foldl
        (fun ds c => ds.filter (fun it => !(it.1 == idE))) nd.dependencies) := by
      rw [← hrec]
    rw [hdeps] at hdp
    have hdp' := (mem_foldl_filter _ _ _ _).1 hdp
    have hdold : d ∈ nd.dependencies := hdp'.1
    have h5 := hwf.2.2.2.2 (e.1, nd) hmem d hdold
    cases hg : get_node p d.1 with
    | none => rw [hg] at h5; exact absurd h5 (by simp)
    | some m =>
    rw [hg, Option.map_some'] at h5
    have hm : (d.2, e.1) ∈ m.connections := of_decide_eq_true (Option.some_inj.1 h5)
    have hdne : ¬ d.1 = idE := by
      intro hcontra
      have hmE : m = ndE := by
        rw [hcontra] at hg
        rw [hg] at hE
        exact Option.some_inj.1 hE
      have hflE : ((d.2, e.1) : Slot × NodeId) ∈ ndE.connections.filter (fun c => c.2 = e.1) := by
        refine List.mem_filter.2 ⟨?_, by simp⟩
        rw [← hmE]
        exact hm
      have := hdp'.2 _ hflE
      simp [hcontra] at this
    rw [hqget d.1 hdne, hchar, hg, Option.map_some']
    show some (decide ((d.2, e.1) ∈ ((deps1.filter (fun dd => dd.1 = d.1)).foldl
        (fun cs dd => cs.filter (fun it => !(it.1 == dd.2))) m.connections))) = some true
    rw [Option.some_inj, decide_eq_true_eq]
    refine (mem_foldl_filter _ _ _ _).2 ⟨hm, ?_⟩
    intro dd hdd
    obtain ⟨hdd1, hdd2'⟩ := List.mem_filter.1 hdd
    have hdd2 : dd.1 = d.1 := by simpa using hdd2'
    by_cases hds : d.2 = dd.2
    case neg => simpa using hds
    have hddmem : dd ∈ ndE.dependencies := hdeps1sub dd hdd1
    have h5E := hwf.2.2.2.2 (idE, ndE) hmemE dd hddmem
    cases hgm : get_node p dd.1 with
    | none => rw [hgm] at h5E; exact absurd h5E (by simp)
    | some m2 =>
    rw [hgm, Option.map_some'] at h5E
    have hm2 : (dd.2, idE) ∈ m2.connections := of_decide_eq_true (Option.some_inj.1 h5E)
    have hm2m : m2 = m := by
      rw [hdd2] at hgm
      rw [hgm] at hg
      exact Option.some_inj.1 hg
    rw [hm2m] at hm2
    have hmm : ((d.2, idE) : Slot × NodeId) ∈ m.connections := by
      rw [hds]
      exact hm2
    have hkn : (m.connections.map Prod.fst).Nodup := hwf.2.2.1 (d.1, m) (get_node_mem hg)
    have hEq : (idE : NodeId) = e.1 := mem_unique_of_keys_nodup hkn hmm hm
    exact absurd hEq.symm heid

/-- Claim C6: every editing operation (create_node, connect, disconnect,
erase_node) maps a well-formed registry to a well-formed registry; in
particular, after the operation every connection entry (slot, up) of a live
node n is mirrored by exactly one (n, slot) entry in the dependencies of the
live node up, and every dependency entry (d, slot) of a node points back to
the matching filled slot of the live node d. -/
theorem claim6_mirror_invariant (op : EditOp S) (p : Pipeline S) (hwf : Wf p) :
    Wf (applyOp op p).2 ∧ MirrorProp (applyOp op p).2 := by
  have hq : Wf (applyOp op p).2 := by
    cases op with
    | create nd => exact wf_create p nd hwf
    | connectOp a b s => exact wf_connect p a b s hwf
    | disconnectOp a b => exact wf_disconnect p a b hwf
    | erase i => exact wf_erase p i hwf
  exact ⟨hq, mirror_of_wf hq⟩

theorem claim6_witness :
    Wf (applyOp (EditOp.erase 1) s1Pipeline).2 ∧
      MirrorProp (applyOp (EditOp.erase 1) s1Pipeline).2 :=
  claim6_mirror_invariant (EditOp.erase 1) s1Pipeline (by decide)

/-!
## Claim C2 (amended): what is_valid actually certifies

The per-node scan, the sink-started three-colour cycle DFS and the single
undirected traversal are each characterised, then assembled into an exact
description of is_valid.
-/

theorem colorOf_setColor (vis : List (NodeId × Nat)) (i : NodeId) (c : Nat)
    (j : NodeId) :
    colorOf (setColor vis i c) j = if j = i then c else colorOf vis j := by
  by_cases h : j = i
  · subst h
    rw [if_pos rfl]
    show (alistFind ((j, c) :: vis.filter (fun e => !(e.1 == j))) j).getD 0 = c
    rw [alistFind_cons_self]
    rfl
  · rw [if_neg h]
    show (alistFind ((i, c) :: vis.filter (fun e => !(e.1 == i))) j).getD 0 = _
    rw [alistFind_cons_ne (fun hij => h hij.symm), alistFind_filter_ne vis i j h]
    rfl

theorem validScan_eq (l : List (NodeId × NodeData S)) : ∀ hs hsrc : Bool,
    validScan l hs hsrc =
      if ∀ e ∈ l, e.2.connections.length = e.2.input_types.length ∧
          ¬ (e.2.output_type ≠ Ty.void ∧ e.2.dependencies.isEmpty = true) then
        some (hs || l.any (fun e => e.2.output_type == Ty.void),
          hsrc || l.any (fun e => e.2.input_types.isEmpty))
      else none := by
  induction l with
  | nil =>
    intro hs hsrc
    rw [if_pos (by simp)]
    simp [validScan]
  | cons e rest ih =>
    intro hs hsrc
    show (if e.2.connections.length ≠ e.2.input_types.length then none
      else if e.2.output_type ≠ Ty.void ∧ e.2.dependencies.isEmpty then none
      else validScan rest (hs || (e.2.output_type == Ty.void))
        (hsrc || e.2.input_types.isEmpty)) = _
    by_cases h1 : e.2.connections.length = e.2.input_types.length
    · rw [if_neg (fun hne => hne h1)]
      by_cases h2 : e.2.output_type ≠ Ty.void ∧ e.2.dependencies.isEmpty = true
      · rw [if_pos h2, if_neg (fun hall => (hall e (List.mem_cons_self e rest)).2 h2)]
      · rw [if_neg h2, ih]
        by_cases hrest : ∀ x ∈ rest, x.2.connections.length = x.2.input_types.length ∧
            ¬ (x.2.output_type ≠ Ty.void ∧ x.2.dependencies.isEmpty = true)
        · rw [if_pos hrest, if_pos (List.forall_mem_cons.2 ⟨⟨h1, h2⟩, hrest⟩)]
          simp [List.any_cons, Bool.or_assoc]
        · rw [if_neg hrest, if_neg (fun hall => hrest
            (fun x hx => hall x (List.mem_cons_of_mem e hx)))]
    · rw [if_pos h1, if_neg (fun hall => h1 (hall e (List.mem_cons_self e rest)).1)]

theorem cycFold_stuck (p : Pipeline S) (fuel : Nat) (l : List (Slot × NodeId))
    (x : List (NodeId × Nat)) :
    l.foldl (fun (acc : Bool × List (NodeId × Nat)) c =>
      if acc.1 then acc else hasCycleDfs p fuel c.2 acc.2) (true, x) = (true, x) := by
  induction l with
  | nil => rfl
  | cons c t ih =>
    rw [List.foldl_cons]
    exact ih

theorem scanFold_stuck (p : Pipeline S) (l : List (NodeId × NodeData S))
    (x : List (NodeId × Nat)) :
    l.foldl (fun (acc : Bool × List (NodeId × Nat)) e =>
      if acc.1 then acc
      else if e.2.output_type == Ty.void then hasCycleDfs p (stepFuel p) e.1 acc.2
      else acc) (true, x) = (true, x) := by
  induction l with
  | nil => rfl
  | cons e t ih =>
    rw [List.foldl_cons]
    exact ih

theorem filter_length_mono (l : List α) (f g : α → Bool)
    (h : ∀ x ∈ l, f x = true → g x = true) :
    (l.filter f).length ≤ (l.filter g).length := by
  induction l with
  | nil => exact Nat.le_refl 0
  | cons x t ih =>
    have ht := ih (fun y hy => h y (List.mem_cons_of_mem x hy))
    by_cases hf : f x = true
    · rw [List.filter_cons, if_pos hf, List.filter_cons,
        if_pos (h x (List.mem_cons_self x t) hf)]
      simpa using Nat.succ_le_succ ht
    · rw [List.filter_cons, if_neg hf, List.filter_cons]
      by_cases hg : g x = true
      · rw [if_pos hg]
        exact Nat.le_trans ht (by simp)
      · rw [if_neg hg]
        exact ht

theorem filter_length_update (f g : NodeId → Bool) (src : NodeId)
    (hfg : ∀ j, ¬ j = src → g j = f j) (hfs : f src = false) (hgs : g src = true) :
    ∀ l : List (NodeId × NodeData S), (l.map Prod.fst).Nodup →
      src ∈ l.map Prod.fst →
      (l.filter (fun e => g e.1)).length = (l.filter (fun e => f e.1)).length + 1 := by
  intro l
  induction l with
  | nil => intro _ hsrc; simp at hsrc
  | cons x t ih =>
    intro hnd hsrc
    rw [List.map_cons, List.nodup_cons] at hnd
    by_cases hx : x.1 = src
    · have htail : ∀ y ∈ t, g y.1 = f y.1 := by
        intro y hy
        refine hfg y.1 (fun hys => ?_)
        have hmem : x.1 ∈ t.map Prod.fst := by
          rw [hx, ← hys]
          exact List.mem_map.2 ⟨y, hy, rfl⟩
        exact hnd.1 hmem
      have hgx : g x.1 = true := by rw [hx]; exact hgs
      have hfx : f x.1 = false := by rw [hx]; exact hfs
      rw [List.filter_cons, List.filter_cons, if_pos hgx, if_neg (by simp [hfx])]
      have hteq : t.filter (fun e => g e.1) = t.filter (fun e => f e.1) :=
        List.filter_congr (fun y hy => htail y hy)
      rw [List.length_cons, hteq]
    · have hsrc' : src ∈ t.map Prod.fst := by
        rcases List.mem_map.1 hsrc with ⟨y, hy, hyx⟩
        rcases List.mem_cons.1 hy with rfl | hyt
        · exact absurd hyx hx
        · exact List.mem_map.2 ⟨y, hyt, hyx⟩
      have hxe : g x.1 = f x.1 := hfg x.1 hx
      rw [List.filter_cons, List.filter_cons, hxe]
      by_cases hfx : f x.1 = true
      · rw [if_pos hfx, if_pos hfx]
        simp only [List.length_cons, ih hnd.2 hsrc']
      · rw [if_neg hfx, if_neg hfx]
        exact ih hnd.2 hsrc'

theorem grayCount_le (p : Pipeline S) (vis : List (NodeId × Nat)) :
    grayCount p vis ≤ p.nodes.length :=
  List.length_filter_le _ _

theorem grayCount_congr (p : Pipeline S) (vis vis' : List (NodeId × Nat))
    (h : ∀ g, colorOf vis' g = 1 ↔ colorOf vis g = 1) :
    grayCount p vis' = grayCount p vis := by
  unfold grayCount
  congr 1
  refine List.filter_congr ?_
  intro e _
  rw [Bool.eq_iff_iff, beq_iff_eq, beq_iff_eq]
  exact h e.1

theorem grayCount_setColor_gray (p : Pipeline S) (vis : List (NodeId × Nat))
    (src : NodeId) (hnd : (p.nodes.map Prod.fst).Nodup)
    (hsrc : src ∈ p.nodes.map Prod.fst) (hng : ¬ colorOf vis src = 1) :
    grayCount p (setColor vis src 1) = grayCount p vis + 1 := by
  unfold grayCount
  refine filter_length_update (fun j => colorOf vis j == 1)
    (fun j => colorOf (setColor vis src 1) j == 1) src ?_ ?_ ?_ p.nodes hnd hsrc
  · intro j hj
    show (colorOf (setColor vis src 1) j == 1) = (colorOf vis j == 1)
    rw [colorOf_setColor, if_neg hj]
  · simpa using hng
  · show (colorOf (setColor vis src 1) src == 1) = true
    rw [colorOf_setColor, if_pos rfl]
    rfl

theorem grayCount_zero (p : Pipeline S) (vis : List (NodeId × Nat))
    (h : ∀ g, ¬ colorOf vis g = 1) : grayCount p vis = 0 := by
  unfold grayCount
  rw [List.length_eq_zero]
  refine List.filter_eq_nil_iff.2 ?_
  intro e _
  simpa using h e.1

theorem visCount_mono (p : Pipeline S) (v v' : List NodeId) (h : v ⊆ v') :
    visCount p v ≤ visCount p v' := by
  refine filter_length_mono _ _ _ ?_
  intro e _
  simp only [decide_eq_true_eq]
  exact fun hx => h hx

theorem visCount_cons (p : Pipeline S) (v : List NodeId) (src : NodeId)
    (hnd : (p.nodes.map Prod.fst).Nodup) (hsrc : src ∈ p.nodes.map Prod.fst)
    (hnew : src ∉ v) : visCount p (src :: v) = visCount p v + 1 := by
  unfold visCount
  refine filter_length_update (fun j => decide (j ∈ v))
    (fun j => decide (j ∈ src :: v)) src ?_ ?_ ?_ p.nodes hnd hsrc
  · intro j hj
    simp [List.mem_cons, hj]
  · simpa using hnew
  · simp

theorem visCount_le (p : Pipeline S) (v : List NodeId) :
    visCount p v ≤ p.nodes.length :=
  List.length_filter_le _ _

theorem refsLive_of_wf {p : Pipeline S} (hwf : Wf p) : RefsLive p := by
  intro e he
  constructor
  · intro c hc
    have h4 := hwf.2.2.2.1 e he c hc
    rw [liveId]
    cases hg : get_node p c.2 with
    | none => rw [hg] at h4; exact absurd h4 (by simp)
    | some u => rfl
  · intro d hd
    have h5 := hwf.2.2.2.2 e he d hd
    rw [liveId]
    cases hg : get_node p d.1 with
    | none => rw [hg] at h5; exact absurd h5 (by simp)
    | some m => rfl

theorem blackReach {p : Pipeline S} {vis : List (NodeId × Nat)}
    (hbc : BlackClosed p vis) {u v : NodeId} (hu : colorOf vis u = 2)
    (h : Reaches p u v) : colorOf vis v = 2 := by
  induction h with
  | refl => exact hu
  | tail h1 h2 ih => exact hbc _ _ ih h2

theorem rawUEdge_iff_uedge {p : Pipeline S} (hwf : Wf p) (a b : NodeId) :
    RawUEdge p a b ↔ UEdge p a b := by
  rw [RawUEdge, rawNeighbors]
  constructor
  · intro h
    rcases List.mem_append.1 h with h1 | h2
    · exact Or.inl h1
    · rcases List.mem_map.1 h2 with ⟨d, hd, hdb⟩
      rw [depsOf] at hd
      cases hg : get_node p a with
      | none => rw [hg] at hd; simp at hd
      | some nd =>
        rw [hg] at hd
        simp only [Option.map_some', Option.getD_some] at hd
        have h5 := hwf.2.2.2.2 (a, nd) (get_node_mem hg) d hd
        cases hg2 : get_node p d.1 with
        | none => rw [hg2] at h5; exact absurd h5 (by simp)
        | some m =>
          rw [hg2, Option.map_some'] at h5
          have hm : (d.2, a) ∈ m.connections :=
            of_decide_eq_true (Option.some_inj.1 h5)
          refine Or.inr ?_
          rw [EdgeTo, connsOf, ← hdb, hg2]
          simp only [Option.map_some', Option.getD_some]
          exact List.mem_map.2 ⟨(d.2, a), hm, rfl⟩
  · intro h
    rcases h with h1 | h2
    · exact List.mem_append_left _ h1
    · rw [EdgeTo, connsOf] at h2
      cases hg : get_node p b with
      | none => rw [hg] at h2; simp at h2
      | some nd =>
        rw [hg] at h2
        simp only [Option.map_some', Option.getD_some] at h2
        rcases List.mem_map.1 h2 with ⟨c, hc, hca⟩
        have h4 := hwf.2.2.2.1 (b, nd) (get_node_mem hg) c hc
        cases hg2 : get_node p c.2 with
        | none => rw [hg2] at h4; exact absurd h4 (by simp)
        | some u =>
          rw [hg2, Option.map_some'] at h4
          have hcount : u.dependencies.count (b, c.1) = 1 := Option.some_inj.1 h4
          have hmem : ((b, c.1) : NodeId × Slot) ∈ u.dependencies :=
            List.count_pos_iff.1 (by rw [hcount]; exact Nat.one_pos)
          refine List.mem_append_right _ ?_
          rw [depsOf, ← hca, hg2]
          simp only [Option.map_some', Option.getD_some]
          exact List.mem_map.2 ⟨(b, c.1), hmem, rfl⟩

theorem hasCycle_master (p : Pipeline S) : ∀ fuel src vis,
    ((hasCycleDfs p fuel src vis).1 = true →
      (∃ v, Reaches p src v ∧ CycleAt p v) ∨
      (∃ g, colorOf vis g = 1 ∧ Reaches p src g)) ∧
    ((hasCycleDfs p fuel src vis).1 = false →
      ∀ g, colorOf (hasCycleDfs p fuel src vis).2 g = 1 ↔ colorOf vis g = 1) := by
  intro fuel
  induction fuel with
  | zero =>
    intro src vis
    constructor
    · intro h
      exact absurd h (by simp [hasCycleDfs])
    · intro _ g
      exact Iff.rfl
  | succ fuel ih =>
    have hfold : ∀ (l : List (Slot × NodeId)) (st : Bool × List (NodeId × Nat))
        (base : List (NodeId × Nat)),
        (st.1 = false → ∀ g, colorOf st.2 g = 1 ↔ colorOf base g = 1) →
        (((l.foldl (fun acc c =>
            if acc.1 then acc else hasCycleDfs p fuel c.2 acc.2) st).1 = true →
          st.1 = true ∨ ∃ c ∈ l,
            ((∃ v, Reaches p c.2 v ∧ CycleAt p v) ∨
             (∃ g, colorOf base g = 1 ∧ Reaches p c.2 g))) ∧
         ((l.foldl (fun acc c =>
            if acc.1 then acc else hasCycleDfs p fuel c.2 acc.2) st).1 = false →
          ∀ g, colorOf (l.foldl (fun acc c =>
            if acc.1 then acc else hasCycleDfs p fuel c.2 acc.2) st).2 g = 1 ↔
            colorOf base g = 1)) := by
      intro l
      induction l with
      | nil =>
        intro st base hst
        exact ⟨fun h => Or.inl h, fun h => hst h⟩
      | cons c t ihl =>
        intro st base hst
        rw [List.foldl_cons]
        by_cases hst1 : st.1 = true
        · have hsteq : st = (true, st.2) := by rw [← hst1]
          rw [if_pos hst1, hsteq, cycFold_stuck]
          constructor
          · intro _
            exact Or.inl rfl
          · intro h
            exact absurd h (by simp)
        · have hst1' : st.1 = false := Bool.eq_false_iff.mpr hst1
          rw [if_neg hst1]
          have hchild := ih c.2 st.2
          by_cases hr1 : (hasCycleDfs p fuel c.2 st.2).1 = true
          · have hr1eq : hasCycleDfs p fuel c.2 st.2 =
                (true, (hasCycleDfs p fuel c.2 st.2).2) := by rw [← hr1]
            rw [hr1eq, cycFold_stuck]
            constructor
            · intro _
              refine Or.inr ⟨c, List.mem_cons_self c t, ?_⟩
              rcases hchild.1 hr1 with hcyc | ⟨g, hg1, hg2⟩
              · exact Or.inl hcyc
              · exact Or.inr ⟨g, (hst hst1' g).1 hg1, hg2⟩
            · intro h
              exact absurd h (by simp)
          · have hr1' : (hasCycleDfs p fuel c.2 st.2).1 = false :=
              Bool.eq_false_iff.mpr hr1
            have hgray1 := hchild.2 hr1'
            have hrec := ihl (hasCycleDfs p fuel c.2 st.2) base
              (fun _ g => (hgray1 g).trans (hst hst1' g))
            constructor
            · intro h
              rcases hrec.1 h with h1 | ⟨c', hc', hgoal⟩
              · exact absurd h1 hr1
              · exact Or.inr ⟨c', List.mem_cons_of_mem c hc', hgoal⟩
            · intro h
              exact hrec.2 h
    intro src vis
    have hstep : hasCycleDfs p (fuel+1) src vis =
        (if colorOf vis src = 1 then (true, vis)
        else if colorOf vis src = 2 then (false, vis)
        else match get_node p src with
          | none => (false, setColor (setColor vis src 1) src 2)
          | some nd =>
            (let r := nd.connections.foldl
              (fun (acc : Bool × List (NodeId × Nat)) c =>
                if acc.1 then acc else hasCycleDfs p fuel c.2 acc.2)
              (false, setColor vis src 1)
            if r.1 then r else (false, setColor r.2 src 2))) := rfl
    rw [hstep]
    by_cases h1 : colorOf vis src = 1
    · rw [if_pos h1]
      constructor
      · intro _
        exact Or.inr ⟨src, h1, Relation.ReflTransGen.refl⟩
      · intro h
        exact absurd h (by simp)
    · rw [if_neg h1]
      by_cases h2 : colorOf vis src = 2
      · rw [if_pos h2]
        constructor
        · intro h
          exact absurd h (by simp)
        · intro _ g
          exact Iff.rfl
      · rw [if_neg h2]
        cases hg : get_node p src with
        | none =>
          constructor
          · intro h
            exact absurd h (by simp)
          · intro _ g
            show colorOf (setColor (setColor vis src 1) src 2) g = 1 ↔ _
            rw [colorOf_setColor]
            by_cases hgs : g = src
            · subst hgs
              rw [if_pos rfl]
              simp [h1]
            · rw [if_neg hgs, colorOf_setColor, if_neg hgs]
        | some nd =>
          have hedge : ∀ c ∈ nd.connections, EdgeTo p src c.2 := by
            intro c hc
            rw [EdgeTo, connsOf, hg]
            simp only [Option.map_some', Option.getD_some]
            exact List.mem_map.2 ⟨c, hc, rfl⟩
          dsimp only
          set r := nd.connections.foldl
            (fun (acc : Bool × List (NodeId × Nat)) c =>
              if acc.1 then acc else hasCycleDfs p fuel c.2 acc.2)
            (false, setColor vis src 1) with hrdef
          have hf := hfold nd.connections (false, setColor vis src 1)
            (setColor vis src 1) (fun _ g => Iff.rfl)
          by_cases hr : r.1 = true
          · rw [if_pos hr]
            constructor
            · intro _
              rcases hf.1 hr with habs | ⟨c, hcmem, hgoal⟩
              · exact absurd habs (by simp)
              · rcases hgoal with ⟨v, hrv, hcyc⟩ | ⟨g, hgray, hreach⟩
                · exact Or.inl ⟨v, Relation.ReflTransGen.head (hedge c hcmem) hrv, hcyc⟩
                · rw [colorOf_setColor] at hgray
                  by_cases hgs : g = src
                  · subst hgs
                    exact Or.inl ⟨g, Relation.ReflTransGen.refl,
                      Relation.TransGen.head' (hedge c hcmem) hreach⟩
                  · rw [if_neg hgs] at hgray
                    exact Or.inr ⟨g, hgray,
                      Relation.ReflTransGen.head (hedge c hcmem) hreach⟩
            · intro h
              exact absurd h (by rw [hr]; simp)
          · have hr' : r.1 = false := Bool.eq_false_iff.mpr hr
            rw [if_neg hr]
            constructor
            · intro h
              exact absurd h (by simp)
            · intro _ g
              show colorOf (setColor r.2 src 2) g = 1 ↔ _
              rw [colorOf_setColor]
              by_cases hgs : g = src
              · subst hgs
                rw [if_pos rfl]
                simp [h1]
              · rw [if_neg hgs]
                have hgr := hf.2 hr' g
                rw [colorOf_setColor, if_neg hgs] at hgr
                exact hgr

theorem hasCycle_complete (p : Pipeline S) (hnd : (p.nodes.map Prod.fst).Nodup) :
    ∀ fuel src vis,
      fuel + grayCount p vis > p.nodes.length →
      BlackClosed p vis → BlackAcyclic p vis →
      (hasCycleDfs p fuel src vis).1 = false →
      (colorOf (hasCycleDfs p fuel src vis).2 src = 2 ∧
       BlackClosed p (hasCycleDfs p fuel src vis).2 ∧
       BlackAcyclic p (hasCycleDfs p fuel src vis).2 ∧
       (∀ b, colorOf vis b = 2 → colorOf (hasCycleDfs p fuel src vis).2 b = 2)) := by
  intro fuel
  induction fuel with
  | zero =>
    intro src vis hfuel _ _ _
    have hle := grayCount_le p vis
    omega
  | succ fuel ih =>
    have hfoldc : ∀ (l : List (Slot × NodeId)) (st : Bool × List (NodeId × Nat)),
        st.1 = false →
        fuel + grayCount p st.2 > p.nodes.length →
        BlackClosed p st.2 → BlackAcyclic p st.2 →
        (l.foldl (fun acc c =>
          if acc.1 then acc else hasCycleDfs p fuel c.2 acc.2) st).1 = false →
        ((∀ c ∈ l, colorOf (l.foldl (fun acc c =>
            if acc.1 then acc else hasCycleDfs p fuel c.2 acc.2) st).2 c.2 = 2) ∧
         BlackClosed p (l.foldl (fun acc c =>
            if acc.1 then acc else hasCycleDfs p fuel c.2 acc.2) st).2 ∧
         BlackAcyclic p (l.foldl (fun acc c =>
            if acc.1 then acc else hasCycleDfs p fuel c.2 acc.2) st).2 ∧
         (∀ b, colorOf st.2 b = 2 → colorOf (l.foldl (fun acc c =>
            if acc.1 then acc else hasCycleDfs p fuel c.2 acc.2) st).2 b = 2) ∧
         (∀ g, colorOf (l.foldl (fun acc c =>
            if acc.1 then acc else hasCycleDfs p fuel c.2 acc.2) st).2 g = 1 ↔
            colorOf st.2 g = 1)) := by
      intro l
      induction l with
      | nil =>
        intro st _ _ hbc hba _
        exact ⟨fun c hc => absurd hc (List.not_mem_nil c), hbc, hba,
          fun b hb => hb, fun g => Iff.rfl⟩
      | cons c t ihl =>
        intro st hst1 hfuel hbc hba hfin
        rw [List.foldl_cons] at hfin ⊢
        rw [if_neg (by rw [hst1]; simp)] at hfin ⊢
        by_cases hr1 : (hasCycleDfs p fuel c.2 st.2).1 = true
        · have hr1eq : hasCycleDfs p fuel c.2 st.2 =
              (true, (hasCycleDfs p fuel c.2 st.2).2) := by rw [← hr1]
          rw [hr1eq, cycFold_stuck] at hfin
          exact absurd hfin (by simp)
        · have hr1' : (hasCycleDfs p fuel c.2 st.2).1 = false :=
            Bool.eq_false_iff.mpr hr1
          have hchild := ih c.2 st.2 hfuel hbc hba hr1'
          have hgray1 := (hasCycle_master p fuel c.2 st.2).2 hr1'
          have hfuel1 : fuel + grayCount p (hasCycleDfs p fuel c.2 st.2).2 >
              p.nodes.length := by
            rw [grayCount_congr p st.2 _ hgray1]
            exact hfuel
          have hrec := ihl (hasCycleDfs p fuel c.2 st.2) hr1' hfuel1
            hchild.2.1 hchild.2.2.1 hfin
          refine ⟨?_, hrec.2.1, hrec.2.2.1, ?_, ?_⟩
          · intro c' hc'
            rcases List.mem_cons.1 hc' with rfl | hct
            · exact hrec.2.2.2.1 c'.2 hchild.1
            · exact hrec.1 c' hct
          · intro b hb
            exact hrec.2.2.2.1 b (hchild.2.2.2 b hb)
          · intro g
            exact (hrec.2.2.2.2 g).trans (hgray1 g)
    intro src vis hfuel hbc hba hres
    have hstep : hasCycleDfs p (fuel+1) src vis =
        (if colorOf vis src = 1 then (true, vis)
        else if colorOf vis src = 2 then (false, vis)
        else match get_node p src with
          | none => (false, setColor (setColor vis src 1) src 2)
          | some nd =>
            (let r := nd.connections.foldl
              (fun (acc : Bool × List (NodeId × Nat)) c =>
                if acc.1 then acc else hasCycleDfs p fuel c.2 acc.2)
              (false, setColor vis src 1)
            if r.1 then r else (false, setColor r.2 src 2))) := rfl
    rw [hstep] at hres ⊢
    by_cases h1 : colorOf vis src = 1
    · rw [if_pos h1] at hres
      exact absurd hres (by simp)
    · rw [if_neg h1] at hres ⊢
      by_cases h2 : colorOf vis src = 2
      · rw [if_pos h2] at hres ⊢
        exact ⟨h2, hbc, hba, fun b hb => hb⟩
      · rw [if_neg h2] at hres ⊢
        cases hg : get_node p src with
        | none =>
          have hnoedge : ∀ u, ¬ EdgeTo p src u := by
            intro u hu
            rw [EdgeTo, connsOf, hg] at hu
            simp at hu
          refine ⟨?_, ?_, ?_, ?_⟩
          · rw [colorOf_setColor, if_pos rfl]
          · intro b u hb hedge
            rw [colorOf_setColor] at hb
            rw [colorOf_setColor]
            by_cases hus : u = src
            · rw [if_pos hus]
            · rw [if_neg hus, colorOf_setColor, if_neg hus]
              by_cases hbs : b = src
              · subst hbs
                exact absurd hedge (hnoedge u)
              · rw [if_neg hbs, colorOf_setColor, if_neg hbs] at hb
                exact hbc b u hb hedge
          · intro b hb
            rw [colorOf_setColor] at hb
            by_cases hbs : b = src
            · subst hbs
              intro hcyc
              obtain ⟨u, hedge, _⟩ := Relation.TransGen.head'_iff.mp hcyc
              exact hnoedge u hedge
            · rw [if_neg hbs, colorOf_setColor, if_neg hbs] at hb
              exact hba b hb
          · intro b hb
            rw [colorOf_setColor]
            by_cases hbs : b = src
            · rw [if_pos hbs]
            · rw [if_neg hbs, colorOf_setColor, if_neg hbs]
              exact hb
        | some nd =>
          rw [hg] at hres
          have hsrckey : src ∈ p.nodes.map Prod.fst :=
            get_node_isSome_iff.1 (by rw [hg]; rfl)
          have hedgedec : ∀ u, EdgeTo p src u → ∃ c ∈ nd.connections, c.2 = u := by
            intro u hu
            rw [EdgeTo, connsOf, hg] at hu
            simp only [Option.map_some', Option.getD_some] at hu
            exact List.mem_map.1 hu
          dsimp only at hres ⊢
          set r := nd.connections.foldl
            (fun (acc : Bool × List (NodeId × Nat)) c =>
              if acc.1 then acc else hasCycleDfs p fuel c.2 acc.2)
            (false, setColor vis src 1) with hrdef
          have hvis1gray : colorOf (setColor vis src 1) src = 1 := by
            rw [colorOf_setColor, if_pos rfl]
          have hfuel1 : fuel + grayCount p (setColor vis src 1) > p.nodes.length := by
            rw [grayCount_setColor_gray p vis src hnd hsrckey h1]
            omega
          have hbc1 : BlackClosed p (setColor vis src 1) := by
            intro b u hb hedge
            rw [colorOf_setColor] at hb
            by_cases hbs : b = src
            · rw [if_pos hbs] at hb
              exact absurd hb (by simp)
            · rw [if_neg hbs] at hb
              have hu := hbc b u hb hedge
              rw [colorOf_setColor]
              by_cases hus : u = src
              · subst hus
                exact absurd hu h2
              · rw [if_neg hus]
                exact hu
          have hba1 : BlackAcyclic p (setColor vis src 1) := by
            intro b hb
            rw [colorOf_setColor] at hb
            by_cases hbs : b = src
            · rw [if_pos hbs] at hb
              exact absurd hb (by simp)
            · rw [if_neg hbs] at hb
              exact hba b hb
          by_cases hr : r.1 = true
          · rw [if_pos hr] at hres
            exact absurd hres (by rw [hr]; simp)
          · have hr' : r.1 = false := Bool.eq_false_iff.mpr hr
            rw [if_neg hr] at hres ⊢
            have hpost := hfoldc nd.connections (false, setColor vis src 1) rfl
              hfuel1 hbc1 hba1 hr'
            have hgrayr : ∀ g, colorOf r.2 g = 1 ↔ colorOf (setColor vis src 1) g = 1 :=
              hpost.2.2.2.2
            refine ⟨?_, ?_, ?_, ?_⟩
            · rw [colorOf_setColor, if_pos rfl]
            · intro b u hb hedge
              rw [colorOf_setColor] at hb
              rw [colorOf_setColor]
              by_cases hus : u = src
              · rw [if_pos hus]
              · rw [if_neg hus]
                by_cases hbs : b = src
                · obtain ⟨c, hc, hcu⟩ := hedgedec u (hbs ▸ hedge)
                  rw [← hcu]
                  exact hpost.1 c hc
                · rw [if_neg hbs] at hb
                  exact hpost.2.1 b u hb hedge
            · intro b hb
              rw [colorOf_setColor] at hb
              by_cases hbs : b = src
              · subst hbs
                intro hcyc
                obtain ⟨u, hedge, hpath⟩ := Relation.TransGen.head'_iff.mp hcyc
                obtain ⟨c, hc, hcu⟩ := hedgedec u hedge
                have hublack : colorOf r.2 u = 2 := by
                  rw [← hcu]
                  exact hpost.1 c hc
                have hsrcblack : colorOf r.2 b = 2 :=
                  blackReach hpost.2.1 hublack hpath
                have hsrcgray : colorOf r.2 b = 1 := (hgrayr b).2 hvis1gray
                rw [hsrcblack] at hsrcgray
                exact absurd hsrcgray (by simp)
              · rw [if_neg hbs] at hb
                exact hpost.2.2.1 b hb
            · intro b hb
              rw [colorOf_setColor]
              by_cases hbs : b = src
              · rw [if_pos hbs]
              · rw [if_neg hbs]
                refine hpost.2.2.2.1 b ?_
                rw [colorOf_setColor, if_neg hbs]
                exact hb

theorem cycScan_sound (p : Pipeline S) (hnd : (p.nodes.map Prod.fst).Nodup) :
    ∀ (l : List (NodeId × NodeData S)) (acc : Bool × List (NodeId × Nat)),
      (∀ e ∈ l, e ∈ p.nodes) →
      acc.1 = false → (∀ g, ¬ colorOf acc.2 g = 1) →
      (l.foldl (fun acc e => if acc.1 then acc
        else if e.2.output_type == Ty.void then hasCycleDfs p (stepFuel p) e.1 acc.2
        else acc) acc).1 = true →
      ∃ s v, IsSinkId p s ∧ Reaches p s v ∧ CycleAt p v := by
  intro l
  induction l with
  | nil =>
    intro acc _ hacc _ hres
    rw [List.foldl_nil] at hres
    rw [hacc] at hres
    exact absurd hres (by simp)
  | cons e t ihl =>
    intro acc hsub hacc hng hres
    rw [List.foldl_cons] at hres
    rw [if_neg (by rw [hacc]; simp)] at hres
    by_cases hsink : (e.2.output_type == Ty.void) = true
    · rw [if_pos hsink] at hres
      by_cases hr : (hasCycleDfs p (stepFuel p) e.1 acc.2).1 = true
      · rcases (hasCycle_master p (stepFuel p) e.1 acc.2).1 hr with
          ⟨v, hrv, hcyc⟩ | ⟨g, hg1, _⟩
        · refine ⟨e.1, v, ?_, hrv, hcyc⟩
          have hge : get_node p e.1 = some e.2 :=
            get_node_of_mem hnd (hsub e (List.mem_cons_self e t))
          rw [IsSinkId, outTyOf, hge]
          simp only [Option.map_some']
          exact congrArg some (beq_iff_eq.1 hsink)
        · exact absurd hg1 (hng g)
      · have hr' := Bool.eq_false_iff.mpr hr
        have hgray := (hasCycle_master p (stepFuel p) e.1 acc.2).2 hr'
        refine ihl (hasCycleDfs p (stepFuel p) e.1 acc.2)
          (fun x hx => hsub x (List.mem_cons_of_mem e hx)) hr' ?_ hres
        intro g hg1
        exact hng g ((hgray g).1 hg1)
    · rw [if_neg hsink] at hres
      exact ihl acc (fun x hx => hsub x (List.mem_cons_of_mem e hx)) hacc hng hres

theorem cycScan_complete (p : Pipeline S) (hnd : (p.nodes.map Prod.fst).Nodup) :
    ∀ (l : List (NodeId × NodeData S)) (acc : Bool × List (NodeId × Nat)),
      acc.1 = false → (∀ g, ¬ colorOf acc.2 g = 1) →
      BlackClosed p acc.2 → BlackAcyclic p acc.2 →
      (l.foldl (fun acc e => if acc.1 then acc
        else if e.2.output_type == Ty.void then hasCycleDfs p (stepFuel p) e.1 acc.2
        else acc) acc).1 = false →
      (BlackClosed p (l.foldl (fun acc e => if acc.1 then acc
        else if e.2.output_type == Ty.void then hasCycleDfs p (stepFuel p) e.1 acc.2
        else acc) acc).2 ∧
       BlackAcyclic p (l.foldl (fun acc e => if acc.1 then acc
        else if e.2.output_type == Ty.void then hasCycleDfs p (stepFuel p) e.1 acc.2
        else acc) acc).2 ∧
       (∀ g, ¬ colorOf (l.foldl (fun acc e => if acc.1 then acc
        else if e.2.output_type == Ty.void then hasCycleDfs p (stepFuel p) e.1 acc.2
        else acc) acc).2 g = 1) ∧
       (∀ b, colorOf acc.2 b = 2 → colorOf (l.foldl (fun acc e => if acc.1 then acc
        else if e.2.output_type == Ty.void then hasCycleDfs p (stepFuel p) e.1 acc.2
        else acc) acc).2 b = 2) ∧
       (∀ e ∈ l, (e.2.output_type == Ty.void) = true →
         colorOf (l.foldl (fun acc e => if acc.1 then acc
          else if e.2.output_type == Ty.void then hasCycleDfs p (stepFuel p) e.1 acc.2
          else acc) acc).2 e.1 = 2)) := by
  intro l
  induction l with
  | nil =>
    intro acc _ hng hbc hba _
    exact ⟨hbc, hba, hng, fun b hb => hb, fun e he => absurd he (List.not_mem_nil e)⟩
  | cons e t ihl =>
    intro acc hacc hng hbc hba hres
    rw [List.foldl_cons] at hres ⊢
    rw [if_neg (by rw [hacc]; simp)] at hres ⊢
    by_cases hsink : (e.2.output_type == Ty.void) = true
    · rw [if_pos hsink] at hres ⊢
      by_cases hr : (hasCycleDfs p (stepFuel p) e.1 acc.2).1 = true
      · have hreq : hasCycleDfs p (stepFuel p) e.1 acc.2 =
            (true, (hasCycleDfs p (stepFuel p) e.1 acc.2).2) := by rw [← hr]
        rw [hreq, scanFold_stuck] at hres
        exact absurd hres (by simp)
      · have hr' := Bool.eq_false_iff.mpr hr
        have hfuel : stepFuel p + grayCount p acc.2 > p.nodes.length := by
          rw [grayCount_zero p acc.2 hng]
          show p.nodes.length + 1 + 0 > p.nodes.length
          omega
        have hpost := hasCycle_complete p hnd (stepFuel p) e.1 acc.2 hfuel hbc hba hr'
        have hgray := (hasCycle_master p (stepFuel p) e.1 acc.2).2 hr'
        have hng' : ∀ g, ¬ colorOf (hasCycleDfs p (stepFuel p) e.1 acc.2).2 g = 1 :=
          fun g hg1 => hng g ((hgray g).1 hg1)
        have hrec := ihl (hasCycleDfs p (stepFuel p) e.1 acc.2) hr' hng'
          hpost.2.1 hpost.2.2.1 hres
        refine ⟨hrec.1, hrec.2.1, hrec.2.2.1,
          fun b hb => hrec.2.2.2.1 b (hpost.2.2.2 b hb), ?_⟩
        intro x hx hxsink
        rcases List.mem_cons.1 hx with rfl | hxt
        · exact hrec.2.2.2.1 x.1 hpost.1
        · exact hrec.2.2.2.2 x hxt hxsink
    · rw [if_neg hsink] at hres ⊢
      have hrec := ihl acc hacc hng hbc hba hres
      refine ⟨hrec.1, hrec.2.1, hrec.2.2.1, hrec.2.2.2.1, ?_⟩
      intro x hx hxsink
      rcases List.mem_cons.1 hx with rfl | hxt
      · exact absurd hxsink hsink
      · exact hrec.2.2.2.2 x hxt hxsink

theorem dfsAll_sound (p : Pipeline S) : ∀ fuel src vis,
    (vis ⊆ dfsAll p fuel src vis) ∧
    (∀ x ∈ dfsAll p fuel src vis, x ∈ vis ∨
      Relation.ReflTransGen (RawUEdge p) src x) ∧
    (vis.Nodup → (dfsAll p fuel src vis).Nodup) := by
  intro fuel
  induction fuel with
  | zero =>
    intro src vis
    exact ⟨fun x hx => hx, fun x hx => Or.inl hx, fun h => h⟩
  | succ fuel ih =>
    have hfold : ∀ (l : List (NodeId × NodeId)) (g : NodeId × NodeId → NodeId) (v0 : List NodeId),
        (v0 ⊆ l.foldl (fun v c => dfsAll p fuel (g c) v) v0) ∧
        (∀ x ∈ l.foldl (fun v c => dfsAll p fuel (g c) v) v0, x ∈ v0 ∨
          ∃ c ∈ l, Relation.ReflTransGen (RawUEdge p) (g c) x) ∧
        (v0.Nodup → (l.foldl (fun v c => dfsAll p fuel (g c) v) v0).Nodup) := by
      intro l
      induction l with
      | nil =>
        intro g v0
        exact ⟨fun x hx => hx, fun x hx => Or.inl hx, fun h => h⟩
      | cons c t ihl =>
        intro g v0
        rw [List.foldl_cons]
        have hchild := ih (g c) v0
        have hrec := ihl g (dfsAll p fuel (g c) v0)
        refine ⟨fun x hx => hrec.1 (hchild.1 hx), ?_, fun h => hrec.2.2 (hchild.2.2 h)⟩
        intro x hx
        rcases hrec.2.1 x hx with hxc | ⟨c', hc', hrtg⟩
        · rcases hchild.2.1 x hxc with hxv | hrtg
          · exact Or.inl hxv
          · exact Or.inr ⟨c, List.mem_cons_self c t, hrtg⟩
        · exact Or.inr ⟨c', List.mem_cons_of_mem c hc', hrtg⟩
    intro src vis
    have hstep : dfsAll p (fuel+1) src vis =
        (if src ∈ vis then vis
        else match get_node p src with
          | none => src :: vis
          | some nd => nd.dependencies.foldl (fun v d => dfsAll p fuel d.1 v)
              (nd.connections.foldl (fun v c => dfsAll p fuel c.2 v) (src :: vis))) := rfl
    rw [hstep]
    by_cases hmem : src ∈ vis
    · rw [if_pos hmem]
      exact ⟨fun x hx => hx, fun x hx => Or.inl hx, fun h => h⟩
    · rw [if_neg hmem]
      cases hg : get_node p src with
      | none =>
        refine ⟨fun x hx => List.mem_cons_of_mem src hx, ?_, ?_⟩
        · intro x hx
          rcases List.mem_cons.1 hx with rfl | hxv
          · exact Or.inr Relation.ReflTransGen.refl
          · exact Or.inl hxv
        · intro h
          exact List.nodup_cons.2 ⟨hmem, h⟩
      | some nd =>
        have hrawc : ∀ c ∈ nd.connections, RawUEdge p src c.2 := by
          intro c hc
          rw [RawUEdge, rawNeighbors]
          refine List.mem_append_left _ ?_
          rw [connsOf, hg]
          simp only [Option.map_some', Option.getD_some]
          exact List.mem_map.2 ⟨c, hc, rfl⟩
        have hrawd : ∀ d ∈ nd.dependencies, RawUEdge p src d.1 := by
          intro d hd
          rw [RawUEdge, rawNeighbors]
          refine List.mem_append_right _ ?_
          rw [depsOf, hg]
          simp only [Option.map_some', Option.getD_some]
          exact List.mem_map.2 ⟨d, hd, rfl⟩
        have hf1 := hfold nd.connections (fun c => c.2) (src :: vis)
        have hf2 := hfold nd.dependencies (fun d => d.1)
          (nd.connections.foldl (fun v c => dfsAll p fuel c.2 v) (src :: vis))
        refine ⟨?_, ?_, ?_⟩
        · intro x hx
          exact hf2.1 (hf1.1 (List.mem_cons_of_mem src hx))
        · intro x hx
          rcases hf2.2.1 x hx with hx2 | ⟨d, hd, hrtg⟩
          · rcases hf1.2.1 x hx2 with hx1 | ⟨c, hc, hrtg⟩
            · rcases List.mem_cons.1 hx1 with rfl | hxv
              · exact Or.inr Relation.ReflTransGen.refl
              · exact Or.inl hxv
            · exact Or.inr (Relation.ReflTransGen.head (hrawc c hc) hrtg)
          · exact Or.inr (Relation.ReflTransGen.head (hrawd d hd) hrtg)
        · intro h
          exact hf2.2.2 (hf1.2.2 (List.nodup_cons.2 ⟨hmem, h⟩))

theorem dfsAll_complete (p : Pipeline S) (hnd : (p.nodes.map Prod.fst).Nodup)
    (hrl : RefsLive p) : ∀ fuel src vis,
    fuel + visCount p vis > p.nodes.length →
    src ∈ p.nodes.map Prod.fst →
    (src ∈ dfsAll p fuel src vis ∧
     (∀ x ∈ dfsAll p fuel src vis, x ∈ vis ∨
       (x ∈ p.nodes.map Prod.fst ∧
        ∀ y ∈ rawNeighbors p x, y ∈ dfsAll p fuel src vis))) := by
  intro fuel
  induction fuel with
  | zero =>
    intro src vis hfuel _
    have hle := visCount_le p vis
    omega
  | succ fuel ih =>
    have hfoldc : ∀ (l : List (NodeId × NodeId)) (g : NodeId × NodeId → NodeId) (v0 : List NodeId),
        (∀ c ∈ l, g c ∈ p.nodes.map Prod.fst) →
        fuel + visCount p v0 > p.nodes.length →
        ((v0 ⊆ l.foldl (fun v c => dfsAll p fuel (g c) v) v0) ∧
         (∀ c ∈ l, g c ∈ l.foldl (fun v c => dfsAll p fuel (g c) v) v0) ∧
         (∀ x ∈ l.foldl (fun v c => dfsAll p fuel (g c) v) v0, x ∈ v0 ∨
           (x ∈ p.nodes.map Prod.fst ∧
            ∀ y ∈ rawNeighbors p x, y ∈ l.foldl (fun v c => dfsAll p fuel (g c) v) v0)) ∧
         fuel + visCount p (l.foldl (fun v c => dfsAll p fuel (g c) v) v0) >
           p.nodes.length) := by
      intro l
      induction l with
      | nil =>
        intro g v0 _ hfuel
        exact ⟨fun x hx => hx, fun c hc => absurd hc (List.not_mem_nil c),
          fun x hx => Or.inl hx, hfuel⟩
      | cons c t ihl =>
        intro g v0 hlive hfuel
        rw [List.foldl_cons]
        have hchild := ih (g c) v0 hfuel (hlive c (List.mem_cons_self c t))
        have hsub1 : v0 ⊆ dfsAll p fuel (g c) v0 := (dfsAll_sound p fuel (g c) v0).1
        have hfuel1 : fuel + visCount p (dfsAll p fuel (g c) v0) > p.nodes.length := by
          have := visCount_mono p v0 (dfsAll p fuel (g c) v0) hsub1
          omega
        have hrec := ihl g (dfsAll p fuel (g c) v0)
          (fun c' hc' => hlive c' (List.mem_cons_of_mem c hc')) hfuel1
        refine ⟨fun x hx => hrec.1 (hsub1 hx), ?_, ?_, hrec.2.2.2⟩
        · intro c' hc'
          rcases List.mem_cons.1 hc' with rfl | hct
          · exact hrec.1 hchild.1
          · exact hrec.2.1 c' hct
        · intro x hx
          rcases hrec.2.2.1 x hx with hxc | hclosed
          · rcases hchild.2 x hxc with hxv | ⟨hxkey, hclo⟩
            · exact Or.inl hxv
            · exact Or.inr ⟨hxkey, fun y hy => hrec.1 (hclo y hy)⟩
          · exact Or.inr hclosed
    intro src vis hfuel hsrckey
    have hstep : dfsAll p (fuel+1) src vis =
        (if src ∈ vis then vis
        else match get_node p src with
          | none => src :: vis
          | some nd => nd.dependencies.foldl (fun v d => dfsAll p fuel d.1 v)
              (nd.connections.foldl (fun v c => dfsAll p fuel c.2 v) (src :: vis))) := rfl
    rw [hstep]
    by_cases hmem : src ∈ vis
    · rw [if_pos hmem]
      exact ⟨hmem, fun x hx => Or.inl hx⟩
    · rw [if_neg hmem]
      cases hg : get_node p src with
      | none =>
        exact absurd (get_node_isSome_iff.2 hsrckey) (by rw [hg]; simp)
      | some nd =>
        have hlive := hrl (src, nd) (get_node_mem hg)
        have hlivec : ∀ c ∈ nd.connections, c.2 ∈ p.nodes.map Prod.fst :=
          fun c hc => get_node_isSome_iff.1 (hlive.1 c hc)
        have hlived : ∀ d ∈ nd.dependencies, d.1 ∈ p.nodes.map Prod.fst :=
          fun d hd => get_node_isSome_iff.1 (hlive.2 d hd)
        have hfuel1 : fuel + visCount p (src :: vis) > p.nodes.length := by
          rw [visCount_cons p vis src hnd hsrckey hmem]
          omega
        have hf1 := hfoldc nd.connections (fun c => c.2) (src :: vis) hlivec hfuel1
        have hf2 := hfoldc nd.dependencies (fun d => d.1)
          (nd.connections.foldl (fun v c => dfsAll p fuel c.2 v) (src :: vis))
          hlived hf1.2.2.2
        have hsrcfin : src ∈ nd.dependencies.foldl (fun v d => dfsAll p fuel d.1 v)
            (nd.connections.foldl (fun v c => dfsAll p fuel c.2 v) (src :: vis)) :=
          hf2.1 (hf1.1 (List.mem_cons_self src vis))
        refine ⟨hsrcfin, ?_⟩
        intro x hx
        rcases hf2.2.2.1 x hx with hx2 | hclosed
        · rcases hf1.2.2.1 x hx2 with hx1 | ⟨hxkey, hclo⟩
          · rcases List.mem_cons.1 hx1 with rfl | hxv
            · refine Or.inr ⟨hsrckey, ?_⟩
              intro y hy
              rw [rawNeighbors] at hy
              rcases List.mem_append.1 hy with hyc | hyd
              · rw [connsOf, hg] at hyc
                simp only [Option.map_some', Option.getD_some] at hyc
                rcases List.mem_map.1 hyc with ⟨c, hc, hcy⟩
                rw [← hcy]
                exact hf2.1 (hf1.2.1 c hc)
              · rw [depsOf, hg] at hyd
                simp only [Option.map_some', Option.getD_some] at hyd
                rcases List.mem_map.1 hyd with ⟨d, hd, hdy⟩
                rw [← hdy]
                exact hf2.2.1 d hd
            · exact Or.inl hxv
          · exact Or.inr ⟨hxkey, fun y hy => hf2.1 (hclo y hy)⟩
        · exact Or.inr hclosed

theorem dfsAll_len_iff (p : Pipeline S) (hwf : Wf p) (root : NodeId)
    (hroot : root ∈ p.nodes.map Prod.fst) :
    (((dfsAll p (stepFuel p) root []).length == p.nodes.length) = true ↔
      ∀ b ∈ p.nodes.map Prod.fst, Relation.ReflTransGen (RawUEdge p) root b) := by
  have hnd := nodes_keys_nodup hwf
  have hrl := refsLive_of_wf hwf
  have hvc0 : visCount p ([] : List NodeId) = 0 := by
    unfold visCount
    simp
  have hfuel : stepFuel p + visCount p ([] : List NodeId) > p.nodes.length := by
    rw [hvc0]
    show p.nodes.length + 1 + 0 > p.nodes.length
    omega
  have hcomp := dfsAll_complete p hnd hrl (stepFuel p) root [] hfuel hroot
  have hsound := dfsAll_sound p (stepFuel p) root []
  have hfinkeys : ∀ x ∈ dfsAll p (stepFuel p) root [],
      x ∈ p.nodes.map Prod.fst := by
    intro x hx
    rcases hcomp.2 x hx with hxv | ⟨hk, _⟩
    · simp at hxv
    · exact hk
  have hfinnodup : (dfsAll p (stepFuel p) root []).Nodup :=
    hsound.2.2 List.nodup_nil
  have hmem_iff : ∀ x, x ∈ dfsAll p (stepFuel p) root [] ↔
      Relation.ReflTransGen (RawUEdge p) root x := by
    intro x
    constructor
    · intro hx
      rcases hsound.2.1 x hx with hxv | hrtg
      · simp at hxv
      · exact hrtg
    · intro hrtg
      induction hrtg with
      | refl => exact hcomp.1
      | tail h1 h2 ihr =>
        rcases hcomp.2 _ ihr with hv | ⟨_, hclo⟩
        · simp at hv
        · exact hclo _ h2
  constructor
  · intro hlen
    have hleneq : (dfsAll p (stepFuel p) root []).length = p.nodes.length :=
      beq_iff_eq.1 hlen
    intro b hb
    by_cases hbf : b ∈ dfsAll p (stepFuel p) root []
    · exact (hmem_iff b).1 hbf
    · exfalso
      have hsubp : List.Subperm (b :: dfsAll p (stepFuel p) root [])
          (p.nodes.map Prod.fst) := by
        refine (List.nodup_cons.2 ⟨hbf, hfinnodup⟩).subperm ?_
        intro y hy
        rcases List.mem_cons.1 hy with rfl | hyf
        · exact hb
        · exact hfinkeys y hyf
      have hle := hsubp.length_le
      rw [List.length_cons, hleneq, List.length_map] at hle
      omega
  · intro hall
    have hle1 : (dfsAll p (stepFuel p) root []).length ≤ p.nodes.length := by
      have := (hfinnodup.subperm hfinkeys).length_le
      rwa [List.length_map] at this
    have hle2 : p.nodes.length ≤ (dfsAll p (stepFuel p) root []).length := by
      have hsub2 : ∀ b ∈ p.nodes.map Prod.fst, b ∈ dfsAll p (stepFuel p) root [] :=
        fun b hb => (hmem_iff b).2 (hall b hb)
      have := (hnd.subperm hsub2).length_le
      rwa [List.length_map] at this
    rw [beq_iff_eq]
    omega

theorem rtg_uedge_symm (p : Pipeline S) {a b : NodeId}
    (h : Relation.ReflTransGen (UEdge p) a b) :
    Relation.ReflTransGen (UEdge p) b a := by
  induction h with
  | refl => exact Relation.ReflTransGen.refl
  | tail h1 h2 ih => exact Relation.ReflTransGen.head (Or.symm h2) ih

/-- Claim C2 (amended): for every well-formed registry, is_valid returns
true if and only if (1) every node's filled-connection count equals its
arity, (2) every non-sink has at least one dependent, (3) a sink exists,
(4) a source exists, (5) no directed cycle is reachable from any sink
along demand edges — cycles in regions not reachable from a sink are not
examined — and (6) the graph is weakly connected.  is_valid never throws. -/
theorem claim2_amended_is_valid (p : Pipeline S) (hwf : Wf p) :
    is_valid p = true ↔
      ((∀ e ∈ p.nodes, e.2.connections.length = e.2.input_types.length) ∧
       (∀ e ∈ p.nodes, e.2.output_type ≠ Ty.void → e.2.dependencies ≠ []) ∧
       (∃ e ∈ p.nodes, e.2.output_type = Ty.void) ∧
       (∃ e ∈ p.nodes, e.2.input_types = []) ∧
       SinkCycleFree p ∧ AllConnected p) := by
  have hnd := nodes_keys_nodup hwf
  have hng0 : ∀ g, ¬ colorOf ([] : List (NodeId × Nat)) g = 1 := by
    intro g
    simp [colorOf, alistFind]
  have hbc0 : BlackClosed p [] := by
    intro b u hb _
    simp [colorOf, alistFind] at hb
  have hba0 : BlackAcyclic p [] := by
    intro b hb
    simp [colorOf, alistFind] at hb
  have hvs := validScan_eq p.nodes false false
  by_cases hscan : ∀ e ∈ p.nodes, e.2.connections.length = e.2.input_types.length ∧
      ¬ (e.2.output_type ≠ Ty.void ∧ e.2.dependencies.isEmpty = true)
  case neg =>
    rw [if_neg hscan] at hvs
    have hiv : is_valid p = false := by
      unfold is_valid
      rw [hvs]
    rw [hiv]
    constructor
    · intro h
      exact absurd h (by simp)
    · intro hR
      exfalso
      apply hscan
      intro e he
      refine ⟨hR.1 e he, fun hbad => ?_⟩
      exact hR.2.1 e he hbad.1 (List.isEmpty_iff.1 hbad.2)
  case pos =>
    rw [if_pos hscan] at hvs
    rw [Bool.false_or, Bool.false_or] at hvs
    have hsink_iff : (p.nodes.any (fun e => e.2.output_type == Ty.void)) = true ↔
        ∃ e ∈ p.nodes, e.2.output_type = Ty.void := by
      rw [List.any_eq_true]
      constructor
      · rintro ⟨e, he, hb⟩
        exact ⟨e, he, beq_iff_eq.1 hb⟩
      · rintro ⟨e, he, hb⟩
        exact ⟨e, he, beq_iff_eq.2 hb⟩
    have hsource_iff : (p.nodes.any (fun e => e.2.input_types.isEmpty)) = true ↔
        ∃ e ∈ p.nodes, e.2.input_types = [] := by
      rw [List.any_eq_true]
      constructor
      · rintro ⟨e, he, hb⟩
        exact ⟨e, he, List.isEmpty_iff.1 hb⟩
      · rintro ⟨e, he, hb⟩
        exact ⟨e, he, List.isEmpty_iff.2 hb⟩
    have hiv : is_valid p =
        (if !(p.nodes.any (fun e => e.2.output_type == Ty.void)) ||
            !(p.nodes.any (fun e => e.2.input_types.isEmpty)) then false
        else
          let cyc := p.nodes.foldl
            (fun (acc : Bool × List (NodeId × Nat)) e =>
              if acc.1 then acc
              else if e.2.output_type == Ty.void then
                hasCycleDfs p (stepFuel p) e.1 acc.2
              else acc)
            (false, [])
          if cyc.1 then false
          else
            match p.nodes with
            | [] => true
            | e :: _ =>
              let visAll := dfsAll p (stepFuel p) e.1 []
              visAll.length == p.nodes.length) := by
      unfold is_valid
      rw [hvs]
    rw [hiv]
    by_cases hhs : (p.nodes.any (fun e => e.2.output_type == Ty.void)) = true
    case neg =>
      have hhsf : (p.nodes.any (fun e => e.2.output_type == Ty.void)) = false :=
        Bool.eq_false_iff.mpr hhs
      rw [if_pos (by rw [hhsf]; simp)]
      constructor
      · intro h
        exact absurd h (by simp)
      · intro hR
        exact absurd (hsink_iff.2 hR.2.2.1) hhs
    case pos =>
    by_cases hsrc : (p.nodes.any (fun e => e.2.input_types.isEmpty)) = true
    case neg =>
      have hsrcf : (p.nodes.any (fun e => e.2.input_types.isEmpty)) = false :=
        Bool.eq_false_iff.mpr hsrc
      rw [if_pos (by rw [hsrcf, hhs]; simp)]
      constructor
      · intro h
        exact absurd h (by simp)
      · intro hR
        exact absurd (hsource_iff.2 hR.2.2.2.1) hsrc
    case pos =>
    rw [if_neg (by rw [hhs, hsrc]; simp)]
    dsimp only
    by_cases hcyc : (p.nodes.foldl
        (fun (acc : Bool × List (NodeId × Nat)) e =>
          if acc.1 then acc
          else if e.2.output_type == Ty.void then
            hasCycleDfs p (stepFuel p) e.1 acc.2
          else acc) (false, [])).1 = true
    case pos =>
      rw [if_pos hcyc]
      obtain ⟨s, v, hsinks, hreach, hcycle⟩ :=
        cycScan_sound p hnd p.nodes (false, []) (fun e he => he) rfl hng0 hcyc
      constructor
      · intro h
        exact absurd h (by simp)
      · intro hR
        exact absurd hcycle (hR.2.2.2.2.1 s v hsinks hreach)
    case neg =>
      have hcyc' := Bool.eq_false_iff.mpr hcyc
      rw [if_neg hcyc]
      have hcompl := cycScan_complete p hnd p.nodes (false, []) rfl hng0
        hbc0 hba0 hcyc'
      have hscf : SinkCycleFree p := by
        intro s v hs hr hcyc2
        rw [IsSinkId, outTyOf] at hs
        obtain ⟨nds, hgs, hout⟩ := Option.map_eq_some'.1 hs
        have hsmem : (s, nds) ∈ p.nodes := get_node_mem hgs
        have hsblack := hcompl.2.2.2.2 (s, nds) hsmem (beq_iff_eq.2 hout)
        have hvblack := blackReach hcompl.1 hsblack hr
        exact hcompl.2.1 v hvblack hcyc2
      cases hn : p.nodes with
      | nil =>
        rw [hn] at hhs
        simp at hhs
      | cons e0 rest =>
        dsimp only
        rw [← hn]
        have hroot : e0.1 ∈ p.nodes.map Prod.fst := by
          rw [hn]
          exact List.mem_map.2 ⟨e0, List.mem_cons_self e0 rest, rfl⟩
        have hlen := dfsAll_len_iff p hwf e0.1 hroot
        have hbridge : (∀ b ∈ p.nodes.map Prod.fst,
            Relation.ReflTransGen (RawUEdge p) e0.1 b) ↔ AllConnected p := by
          constructor
          · intro h a ha b hb
            have hra : Relation.ReflTransGen (UEdge p) e0.1 a :=
              Relation.ReflTransGen.mono
                (fun x y hxy => (rawUEdge_iff_uedge hwf x y).1 hxy) (h a ha)
            have hrb : Relation.ReflTransGen (UEdge p) e0.1 b :=
              Relation.ReflTransGen.mono
                (fun x y hxy => (rawUEdge_iff_uedge hwf x y).1 hxy) (h b hb)
            exact (rtg_uedge_symm p hra).trans hrb
          · intro h b hb
            exact Relation.ReflTransGen.mono
              (fun x y hxy => (rawUEdge_iff_uedge hwf x y).2 hxy)
              (h e0.1 hroot b hb)
        constructor
        · intro h
          refine ⟨fun e he => (hscan e he).1, ?_,
            hsink_iff.1 hhs, hsource_iff.1 hsrc, hscf, ?_⟩
          · intro e he hne hemp
            exact (hscan e he).2 ⟨hne, List.isEmpty_iff.2 hemp⟩
          · exact hbridge.1 (hlen.1 h)
        · intro hR
          exact hlen.2 (hbridge.2 hR.2.2.2.2.2)

theorem claim2_amended_witness :
    is_valid s1Pipeline = true ↔
      ((∀ e ∈ s1Pipeline.nodes, e.2.connections.length = e.2.input_types.length) ∧
       (∀ e ∈ s1Pipeline.nodes, e.2.output_type ≠ Ty.void → e.2.dependencies ≠ []) ∧
       (∃ e ∈ s1Pipeline.nodes, e.2.output_type = Ty.void) ∧
       (∃ e ∈ s1Pipeline.nodes, e.2.input_types = []) ∧
       SinkCycleFree s1Pipeline ∧ AllConnected s1Pipeline) :=
  claim2_amended_is_valid s1Pipeline (by decide)

end PPL
